import Mathlib

/-!
# imageUtils.h and alexnet_conf.h: a shallow embedding

The C functions of `imageUtils.h` are embedded as Lean functions on explicit
state, in the namespace `ImageUtils`; the table of `alexnet_conf.h` is embedded
in `AlexnetConf`.  Conventions used throughout:

* a C `int` is an `Int`; an `int` operation whose mathematical result leaves
  `[INT_MIN, INT_MAX]` is undefined behaviour and makes the embedded function
  return `none`;
* a C `uint` is a `Nat` below `2 ^ 32`, incremented modulo `2 ^ 32`;
* a pointer field is a `Ptr`: it records whether the block it designates is
  live (and then its content), released, never assigned, or `NULL`;
* an access outside a live block is undefined behaviour (`none`);
* `malloc` returns a block with indeterminate content, which is an explicit
  parameter of the embedded function; the conversions take every request to
  be served, and `initChannelsMatrix.alloc` follows the allocation with the
  answers of the allocator, `NULL` included;
* a C string is the list of its bytes before the terminator, so no byte of it
  is zero.
-/

namespace ImageUtils

/-! ## Machine integers -/

/-- Largest value of a 32-bit `int`. -/
def INT_MAX : Int := 2147483647

/-- Smallest value of a 32-bit `int`. -/
def INT_MIN : Int := -2147483648

/-- Largest value of a 32-bit `uint`. -/
def UINT_MAX : Nat := 4294967295

/-- Result of an `int` operation: defined only when it is representable. -/
def intResult (x : Int) : Option Int :=
  if INT_MIN ≤ x ∧ x ≤ INT_MAX then some x else none

/-- Product `a * b` of two `int`s. -/
def imul (a b : Int) : Option Int := intResult (a * b)

/-- Sum `a + b` of two `int`s. -/
def iadd (a b : Int) : Option Int := intResult (a + b)

/-- Conversion of an `int` to `uint`: reduction modulo `2 ^ 32`. -/
def toUint (x : Int) : Nat := (x % 4294967296).toNat

/-- Increment `index++` of a `uint`. -/
def uintSucc (n : Nat) : Nat := (n + 1) % 4294967296

/-- Conversion of an `int` to `unsigned long` (64 bits). -/
def toUlong (x : Int) : Nat := (x % 18446744073709551616).toNat

/-! ## Memory -/

/-- One `unsigned char` / `u_int8_t`. -/
abbrev Byte := Fin 256

/-- A C string: its bytes before the terminator, none of them zero. -/
abbrev CStr := List ℕ+

/-- The block designated by `u_int8_t ***channels`: indexed
`[channel][row][column]`. -/
abbrev Tensor := List (List (List Byte))

/-- State of a pointer field. -/
inductive Ptr (α : Type) where
  | null : Ptr α
  | wild : Ptr α
  | live (block : α) : Ptr α
  | freed : Ptr α
deriving DecidableEq, Repr

/-- Dereference: defined for a pointer to a live block only. -/
def Ptr.deref {α : Type} : Ptr α → Option α
  | Ptr.live b => some b
  | _ => none

/-- Whether the pointer designates a live block. -/
def Ptr.isLive {α : Type} : Ptr α → Bool
  | Ptr.live _ => true
  | _ => false

/-- Library call `free(p)`: releases a live block, does nothing on `NULL`,
and is undefined on a pointer that designates no live block. -/
def free {α : Type} : Ptr α → Option (Ptr α)
  | Ptr.null => some Ptr.null
  | Ptr.live _ => some Ptr.freed
  | Ptr.wild => none
  | Ptr.freed => none

/-- Read `block[idx]` with an `int` index. -/
def readAt {α : Type} (block : List α) (idx : Int) : Option α :=
  if 0 ≤ idx then block[idx.toNat]? else none

/-- Write `block[idx] = v`. -/
def writeAt {α : Type} (block : List α) (idx : Nat) (v : α) : Option (List α) :=
  if idx < block.length then some (block.set idx v) else none

/-- Read `channels[k][i][j]`. -/
def readCell (t : Tensor) (k i j : Nat) : Option Byte :=
  match t[k]? with
  | none => none
  | some ch =>
    match ch[i]? with
    | none => none
    | some row => row[j]?

/-- Write `channels[k][i][j] = v`. -/
def writeCell (t : Tensor) (k i j : Nat) (v : Byte) : Option Tensor :=
  match t[k]? with
  | none => none
  | some ch =>
    match ch[i]? with
    | none => none
    | some row =>
      match writeAt row j v with
      | none => none
      | some row' => some (t.set k (ch.set i row'))

/-- C loop `for (int i = 0; i < n; i++) body`, started at `i`, with `fuel`
iterations left. -/
def forFrom {σ : Type} (body : Nat → σ → Option σ) : Nat → Nat → σ → Option σ
  | 0, _, s => some s
  | fuel + 1, i, s =>
    match body i s with
    | none => none
    | some s' => forFrom body fuel (i + 1) s'

/-- C loop `for (int i = 0; i < n; i++) body` on an `int` bound `n`. -/
def forLoop {σ : Type} (n : Int) (body : Nat → σ → Option σ) (s : σ) : Option σ :=
  forFrom body n.toNat 0 s

/-! ## Image -/

/-- The record `Image`. -/
structure Image where
  height : Int
  width : Int
  depth : Int
  bmp_buffer : Ptr (List Byte)
  bmp_size : Nat
  path : Ptr CStr
  channels : Ptr Tensor
deriving DecidableEq, Repr

/-- `initChannelsMatrix` when every request that can be served is served:
three levels of `malloc`, `depth` channels of `height` rows of `width` bytes.
The bytes are not written: `junk k i j` is the indeterminate value found in
the fresh row.  A negative `depth` makes the first request larger than any
object and `channels` is `NULL`; a channel or row whose request has a negative
count is `NULL` as well and is seen here as a block without cells
(`tensorView`).  The allocation block by block, with the answers of the
allocator, is `initChannelsMatrix.alloc`. -/
def initChannelsMatrix (junk : Nat → Nat → Nat → Byte) (image : Image) : Image :=
  { image with
    channels :=
      if image.depth < 0 then Ptr.null
      else Ptr.live
        ((List.range image.depth.toNat).map fun k =>
          (List.range image.height.toNat).map fun i =>
            (List.range image.width.toNat).map fun j => junk k i j) }

/-- The index expression
`k + j * image->depth + i * image->width * image->depth`, evaluated in `int`
left to right. -/
def bufferIndex (image : Image) (i j k : Int) : Option Int := do
  let jd ← imul j image.depth
  let kjd ← iadd k jd
  let iw ← imul i image.width
  let iwd ← imul iw image.depth
  iadd kjd iwd

/-- Body of the innermost loop of `convertToMatrix`:
`image->channels[k][i][j] = image->bmp_buffer[...]`. -/
def convertToMatrix.body (i j k : Nat) (image : Image) : Option Image := do
  let idx ← bufferIndex image i j k
  let buf ← image.bmp_buffer.deref
  let v ← readAt buf idx
  let t ← image.channels.deref
  let t' ← writeCell t k i j v
  pure { image with channels := Ptr.live t' }

/-- `convertToMatrix`: allocate the tensor, copy every byte of the
interleaved buffer into it, release the buffer. -/
def convertToMatrix (junk : Nat → Nat → Nat → Byte) (image : Image) : Option Image := do
  let image := initChannelsMatrix junk image
  let image ← forLoop image.height (fun i image =>
    forLoop image.width (fun j image =>
      forLoop image.depth (fun k image => convertToMatrix.body i j k image) image) image) image
  let p ← free image.bmp_buffer
  pure { image with bmp_buffer := p }

/-- Body of the innermost loop of `convertToBuffer`:
`image->bmp_buffer[index] = image->channels[d][y][x]; index++;`. -/
def convertToBuffer.body (y x d : Nat) (s : Image × Nat) : Option (Image × Nat) := do
  let t ← s.1.channels.deref
  let v ← readCell t d y x
  let buf ← s.1.bmp_buffer.deref
  let buf' ← writeAt buf s.2 v
  pure ({ s.1 with bmp_buffer := Ptr.live buf' }, uintSucc s.2)

/-- `convertToBuffer`: compute `bmp_size` (an `int` product stored in an
`unsigned long`), allocate the buffer (`junk p` is the indeterminate value of
its byte `p`) and fill it slot after slot, rows outer, columns middle,
channels inner.  The tensor is not released. -/
def convertToBuffer (junk : Nat → Byte) (image : Image) : Option Image := do
  let dw ← imul image.depth image.width
  let dwh ← imul dw image.height
  let image := { image with bmp_size := toUlong dwh }
  let image := { image with
    bmp_buffer := Ptr.live ((List.range image.bmp_size).map junk) }
  let s ← forLoop image.height (fun y s =>
    forLoop s.1.width (fun x s =>
      forLoop s.1.depth (fun d s => convertToBuffer.body y x d s) s) s) (image, 0)
  pure s.1

/-- `strlen`: number of bytes before the terminator. -/
def strlen (s : CStr) : Nat := s.length

/-- Conversion of a `uint` argument to an `int` field: values above `INT_MAX`
wrap around modulo `2 ^ 32`. -/
def toInt (n : Nat) : Int :=
  if (n : Int) ≤ INT_MAX then (n : Int) else (n : Int) - 4294967296

/-- `strcpy(dst, src)` where `dst` is a fresh block of `size` bytes: writes the
`strlen src` bytes of `src` and the terminator; undefined when they do not
fit. -/
def strcpy (size : Nat) (src : CStr) : Option CStr :=
  if strlen src + 1 ≤ size then some src else none

/-- `createInitializedImage`: a fresh `Image` record (its unassigned fields are
indeterminate: `junkSize` stands for `bmp_size`), the dimensions, a copy of the
path in a block of `strlen(path) * sizeof(char)` bytes, and the tensor
allocation. -/
def createInitializedImage (junk : Nat → Nat → Nat → Byte) (junkSize : Nat)
    (depth height width : Nat) (path : CStr) : Option Image := do
  let image : Image :=
    { height := toInt height, width := toInt width, depth := toInt depth,
      bmp_buffer := Ptr.wild, bmp_size := junkSize, path := Ptr.wild, channels := Ptr.wild }
  let p ← strcpy (strlen path * 1) path
  let image := { image with path := Ptr.live p }
  pure (initChannelsMatrix junk image)

/-! ## Release -/

/-- A block of an image, as requested from `malloc` by `initChannelsMatrix` or
handed to `free` by `freeImage`: a row `image->channels[i][j]`, a channel
`image->channels[i]`, the array `image->channels`, the path, the record
itself. -/
inductive Block where
  | row (i j : Nat) : Block
  | channel (i : Nat) : Block
  | channelArray : Block
  | path : Block
  | record : Block
deriving DecidableEq, Repr

/-- Library call `free(p)` with the log of released blocks: a live block is
released and logged as `b`, `NULL` releases nothing, any other pointer is
undefined. -/
def freeLogged {α : Type} (p : Ptr α) (b : Block) (log : List Block) :
    Option (Ptr α × List Block) :=
  match p with
  | Ptr.null => some (Ptr.null, log)
  | Ptr.live _ => some (Ptr.freed, log ++ [b])
  | Ptr.wild => none
  | Ptr.freed => none

/-- Body of the inner loop of `freeImageChannels`:
`free(image->channels[i][j])`. -/
def freeImageChannels.row (i j : Nat) (s : Image × List Block) :
    Option (Image × List Block) := do
  let t ← s.1.channels.deref
  let ch ← t[i]?
  let _ ← ch[j]?
  pure (s.1, s.2 ++ [Block.row i j])

/-- Body of the outer loop of `freeImageChannels`: the rows of channel `i`,
then `free(image->channels[i])`. -/
def freeImageChannels.channel (i : Nat) (s : Image × List Block) :
    Option (Image × List Block) := do
  let s ← forLoop s.1.height (fun j s => freeImageChannels.row i j s) s
  let t ← s.1.channels.deref
  let _ ← t[i]?
  pure (s.1, s.2 ++ [Block.channel i])

/-- `freeImageChannels`: every row, every channel, then the array; returns the
image and the blocks released, in order. -/
def freeImageChannels (image : Image) : Option (Image × List Block) := do
  let s ← forLoop image.depth (fun i s => freeImageChannels.channel i s) (image, [])
  let r ← freeLogged s.1.channels Block.channelArray s.2
  pure ({ s.1 with channels := r.1 }, r.2)

/-- `freeImage`: `freeImageChannels`, `free(image->path)`, `free(image)`.
`bmp_buffer` is not passed to `free`.  The result is the state of the blocks
the record designated and the blocks released, in order. -/
def freeImage (image : Image) : Option (Image × List Block) := do
  let s ← freeImageChannels image
  let r ← freeLogged s.1.path Block.path s.2
  pure ({ s.1 with path := r.1 }, r.2 ++ [Block.record])

/-! ## Accesses of the relayout -/

/-- Largest size of an object, `PTRDIFF_MAX`: `malloc` serves no larger
request. -/
def PTRDIFF_MAX : Nat := 9223372036854775807

/-- The argument `n * sizeof(T)` of a `malloc` call: the `int` `n` is
converted to `size_t` (64 bits) and the product is taken modulo `2 ^ 64`. -/
def mallocSize (n : Int) (size : Nat) : Nat := (toUlong n * size) % 18446744073709551616

/-- Library call `malloc(request)` for the block `b`: a pointer to a fresh
block, whose content `fresh request` is determined by its size, or `NULL` when
the request exceeds `PTRDIFF_MAX` or the allocator does not serve it
(`serves b = false`; the allocator may answer a request of `0` bytes either
way). -/
def malloc {α : Type} (serves : Block → Bool) (b : Block) (request : Nat) (fresh : Nat → α) :
    Ptr α :=
  if request ≤ PTRDIFF_MAX ∧ serves b = true then Ptr.live (fresh request) else Ptr.null

/-- The allocator that serves every request not larger than `PTRDIFF_MAX`. -/
def servesAll : Block → Bool := fun _ => true

/-- The block a channel pointer `channels[i]` designates: row pointers. -/
abbrev Rows := List (Ptr (List Byte))

/-- The block `channels` designates: channel pointers. -/
abbrev Channels := List (Ptr Rows)

/-- The call `malloc(image->width * sizeof(u_int8_t))` for row `j` of channel
`i`; the bytes of the fresh row are `junk i j 0`, `junk i j 1`, ... -/
def initChannelsMatrix.rowPtr (serves : Block → Bool) (junk : Nat → Nat → Nat → Byte)
    (image : Image) (i j : Nat) : Ptr (List Byte) :=
  malloc serves (Block.row i j) (mallocSize image.width 1)
    fun size => (List.range size).map fun x => junk i j x

/-- The call `malloc(image->height * sizeof(u_int8_t *))` for channel `i`;
the pointers of the fresh block, 8 bytes each, were never assigned. -/
def initChannelsMatrix.channelPtr (serves : Block → Bool) (image : Image) (i : Nat) :
    Ptr Rows :=
  malloc serves (Block.channel i) (mallocSize image.height 8)
    fun size => List.replicate (size / 8) Ptr.wild

/-- The call `malloc(image->depth * sizeof(u_int8_t *))`; the pointers of the
fresh block, 8 bytes each, were never assigned. -/
def initChannelsMatrix.channelsPtr (serves : Block → Bool) (image : Image) : Ptr Channels :=
  malloc serves Block.channelArray (mallocSize image.depth 8)
    fun size => List.replicate (size / 8) Ptr.wild

/-- Body of the inner loop of `initChannelsMatrix`:
`image->channels[i][j] = malloc(...)`, a store into the block of channel `i`. -/
def initChannelsMatrix.row (serves : Block → Bool) (junk : Nat → Nat → Nat → Byte)
    (image : Image) (i j : Nat) (channels : Ptr Channels) : Option (Ptr Channels) := do
  let p := initChannelsMatrix.rowPtr serves junk image i j
  let chans ← channels.deref
  let ch ← chans[i]?
  let rows ← ch.deref
  let rows ← writeAt rows j p
  pure (Ptr.live (chans.set i (Ptr.live rows)))

/-- Body of the outer loop of `initChannelsMatrix`:
`image->channels[i] = malloc(...)`, a store into the block of `channels`, then
the loop over the rows. -/
def initChannelsMatrix.channel (serves : Block → Bool) (junk : Nat → Nat → Nat → Byte)
    (image : Image) (i : Nat) (channels : Ptr Channels) : Option (Ptr Channels) := do
  let p := initChannelsMatrix.channelPtr serves image i
  let chans ← channels.deref
  let chans ← writeAt chans i p
  forLoop image.height (fun j c => initChannelsMatrix.row serves junk image i j c)
    (Ptr.live chans)

/-- `initChannelsMatrix`, block by block: the value of `image->channels` when
the function returns.  No result of `malloc` is tested: a store through a
`NULL` block is undefined. -/
def initChannelsMatrix.alloc (serves : Block → Bool) (junk : Nat → Nat → Nat → Byte)
    (image : Image) : Option (Ptr Channels) :=
  forLoop image.depth (fun i c => initChannelsMatrix.channel serves junk image i c)
    (initChannelsMatrix.channelsPtr serves image)


/-! ## Strings -/

/-- A block of `char`s: `none` is a byte that was never written
(indeterminate). -/
abbrev CharBlock := List (Option Nat)

/-- `malloc(n)` for a block of `n` `char`s. -/
def mallocChars (n : Nat) : CharBlock := List.replicate n none

/-- The bytes of a C string in memory: its characters, then the terminator. -/
def cstrBytes (s : CStr) : List Nat := s.map PNat.val ++ [0]

/-- Library call `memcpy(dst + off, src, n)`: copies the first `n` bytes of
`src`; undefined when the copy leaves the destination block or the source. -/
def memcpy (dst : CharBlock) (off : Nat) (src : List Nat) (n : Nat) : Option CharBlock :=
  if off + n ≤ dst.length ∧ n ≤ src.length then
    some (dst.take off ++ (src.take n).map some ++ dst.drop (off + n))
  else none

/-- The C string that starts a block: the bytes before the first terminator;
undefined when an indeterminate byte or the end of the block comes first. -/
def readCStr : CharBlock → Option CStr
  | [] => none
  | none :: _ => none
  | some b :: rest =>
    if h : 0 < b then
      match readCStr rest with
      | none => none
      | some s => some (⟨b, h⟩ :: s)
    else some []

/-- The block built by `concat`: `len1 + len2 + 1` bytes, `s1` copied to its
start, `s2` and its terminator copied from byte `len1` on. -/
def concat.block (s1 s2 : CStr) : Option CharBlock := do
  let len1 := strlen s1
  let len2 := strlen s2
  let result := mallocChars (len1 + len2 + 1)
  let result ← memcpy result 0 (cstrBytes s1) len1
  memcpy result len1 (cstrBytes s2) (len2 + 1)

/-- `concat`: the string held by the block it returns. -/
def concat (s1 s2 : CStr) : Option CStr := do
  let result ← concat.block s1 s2
  readCStr result

/-- Library call `strcmp`: zero for equal strings, otherwise the difference of
the first two bytes that differ (the terminator counts as byte `0`). -/
def strcmp : CStr → CStr → Int
  | [], [] => 0
  | [], b :: _ => 0 - ((b : Nat) : Int)
  | a :: _, [] => ((a : Nat) : Int)
  | a :: as, b :: bs =>
    if a = b then strcmp as bs else ((a : Nat) : Int) - ((b : Nat) : Int)

/-! ## Directory enumeration -/

/-- The record `struct dirent`, reduced to the field the code reads. -/
structure Dirent where
  d_name : CStr
deriving DecidableEq, Repr

/-- A `DIR *`: `none` is `NULL`; an open stream is the list of entries that
successive `readdir` calls return before `NULL`. -/
abbrev Dir := Option (List Dirent)

/-- The file system seen through `opendir`. -/
abbrev FileSystem := CStr → Dir

/-- The name `"."`. -/
def dot : CStr := [46]

/-- The name `".."`. -/
def dotdot : CStr := [46, 46]

/-- The string `"/"`. -/
def slash : CStr := [47]

/-- `isCurrentOrParentFolder`: `!strcmp(de->d_name, ".") || !strcmp(de->d_name, "..")`. -/
def isCurrentOrParentFolder (de : Dirent) : Bool :=
  (strcmp de.d_name dot == 0) || (strcmp de.d_name dotdot == 0)

/-- The loop `while ((de = readdir(dr)) != NULL) body` on an open stream. -/
def readdirLoop {σ : Type} (body : Dirent → σ → Option σ) : List Dirent → σ → Option σ
  | [], s => some s
  | de :: rest, s =>
    match body de s with
    | none => none
    | some s' => readdirLoop body rest s'

/-- The same loop on a `DIR *`: `readdir(NULL)` is undefined. -/
def whileReaddir {σ : Type} (dr : Dir) (body : Dirent → σ → Option σ) (s : σ) : Option σ :=
  match dr with
  | none => none
  | some entries => readdirLoop body entries s

/-- Body of the inner loop of `getFileCount`. -/
def getFileCount.inner (deInner : Dirent) (count : Nat) : Option Nat :=
  if isCurrentOrParentFolder deInner then some count else some (uintSucc count)

/-- Body of the outer loop of `getFileCount`: the inner directory is opened
and read without a `NULL` check. -/
def getFileCount.outer (fs : FileSystem) (path : CStr) (de : Dirent) (count : Nat) :
    Option Nat :=
  if isCurrentOrParentFolder de then some count
  else do
    let innerPath ← concat path de.d_name
    let drInner := fs innerPath
    whileReaddir drInner getFileCount.inner count

/-- `getFileCount`: `return -1` in a function of result type `uint` when the
root does not open, otherwise the two nested loops. -/
def getFileCount (fs : FileSystem) (path : CStr) : Option Nat :=
  match fs path with
  | none => some (toUint (-1))
  | some entries => readdirLoop (getFileCount.outer fs path) entries 0

/-- The record `Filelist`; `list` is a block of `char *`. -/
structure Filelist where
  length : Nat
  list : List (Ptr CStr)
deriving DecidableEq, Repr

/-- `compare`: `strcmp(*a, *b)`; both pointers are dereferenced. -/
def compare (a b : Ptr CStr) : Option Int := do
  let x ← a.deref
  let y ← b.deref
  pure (strcmp x y)

/-- Insertion of `x` before the first element that `compar` does not place
before it. -/
def qsort.insert {α : Type} (compar : α → α → Option Int) (x : α) : List α → Option (List α)
  | [] => some [x]
  | y :: ys =>
    match compar x y with
    | none => none
    | some c =>
      if c ≤ 0 then some (x :: y :: ys)
      else
        match qsort.insert compar x ys with
        | none => none
        | some r => some (y :: r)

/-- Sorting by successive insertion. -/
def qsort.sort {α : Type} (compar : α → α → Option Int) : List α → Option (List α)
  | [] => some []
  | x :: xs =>
    match qsort.sort compar xs with
    | none => none
    | some s => qsort.insert compar x s

/-- Library call `qsort(base, nmemb, size, compar)`: sorts the first `nmemb`
elements of the block in ascending order of `compar`.  The C standard leaves
the algorithm open; an insertion sort stands for it here.  Undefined when
`nmemb` exceeds the block or a comparison is undefined. -/
def qsort {α : Type} (base : List α) (nmemb : Nat) (compar : α → α → Option Int) :
    Option (List α) :=
  if nmemb ≤ base.length then
    match qsort.sort compar (base.take nmemb) with
    | none => none
    | some s => some (s ++ base.drop nmemb)
  else none

/-- Body of the inner loop of `getFileList`: build the path, store it in
`filelist->list[index]`, increment `index`. -/
def getFileList.inner (innerPath : CStr) (deInner : Dirent) (s : List (Ptr CStr) × Nat) :
    Option (List (Ptr CStr) × Nat) :=
  if isCurrentOrParentFolder deInner then some s
  else do
    let tmp ← concat innerPath slash
    let p ← concat tmp deInner.d_name
    let list ← writeAt s.1 s.2 (Ptr.live p)
    pure (list, uintSucc s.2)

/-- Body of the outer loop of `getFileList`. -/
def getFileList.outer (fs : FileSystem) (path : CStr) (de : Dirent)
    (s : List (Ptr CStr) × Nat) : Option (List (Ptr CStr) × Nat) :=
  if isCurrentOrParentFolder de then some s
  else do
    let innerPath ← concat path de.d_name
    let drInner := fs innerPath
    whileReaddir drInner (getFileList.inner innerPath) s

/-- `getFileList` up to the call of `qsort`: the record with its `length` and
its filled `list`, and the final value of `index`.  The root is opened and
read without a `NULL` check. -/
def getFileList.traverse (fs : FileSystem) (path : CStr) : Option (Filelist × Nat) := do
  let length ← getFileCount fs path
  let list : List (Ptr CStr) := List.replicate length Ptr.wild
  let dr := fs path
  let s ← whileReaddir dr (getFileList.outer fs path) (list, 0)
  pure ({ length := length, list := s.1 }, s.2)

/-- `getFileList`: the traversal, then `qsort` on `length` elements. -/
def getFileList (fs : FileSystem) (path : CStr) : Option Filelist := do
  let r ← getFileList.traverse fs path
  let sorted ← qsort r.1.list r.1.length compare
  pure { r.1 with list := sorted }

end ImageUtils

namespace AlexnetConf

/-! ## alexnet_conf.h -/

/-- Modelled from the spec: the enumeration of layer kinds; its declaration is
not part of `alexnet_conf.h`. -/
inductive LayerType where
  | Conv : LayerType
  | Maxpool : LayerType
  | LinearReLU : LayerType
  | Linear : LayerType
deriving DecidableEq, Repr

/-- Modelled from the spec: the record `LayerConf`; its declaration is not
part of `alexnet_conf.h`.  A field that an initialiser of the table does not
name is zero. -/
structure LayerConf where
  layerType : LayerType
  kernelSize : Nat := 0
  stride : Nat := 0
  padding : Nat := 0
  din : Nat := 0
  hin : Nat := 0
  win : Nat := 0
  dout : Nat := 0
  outFeatures : Nat := 0
deriving DecidableEq, Repr

/-- The macro `LAYERS_NUMBER`. -/
def LAYERS_NUMBER : Nat := 11

/-- The table `LAYERS_CONF`. -/
def LAYERS_CONF : List LayerConf :=
  [ { layerType := LayerType.Conv, kernelSize := 11, stride := 4, padding := 2,
      din := 3, hin := 224, win := 224, dout := 64 },
    { layerType := LayerType.Maxpool, kernelSize := 3, stride := 2 },
    { layerType := LayerType.Conv, kernelSize := 5, stride := 1, padding := 2, dout := 192 },
    { layerType := LayerType.Maxpool, kernelSize := 3, stride := 2 },
    { layerType := LayerType.Conv, kernelSize := 3, stride := 1, padding := 1, dout := 384 },
    { layerType := LayerType.Conv, kernelSize := 3, stride := 1, padding := 1, dout := 256 },
    { layerType := LayerType.Conv, kernelSize := 3, stride := 1, padding := 1, dout := 256 },
    { layerType := LayerType.Maxpool, kernelSize := 3, stride := 2 },
    { layerType := LayerType.LinearReLU, outFeatures := 4096 },
    { layerType := LayerType.LinearReLU, outFeatures := 4096 },
    { layerType := LayerType.Linear, outFeatures := 1000 } ]

/-- Modelled from the spec: the shape of an activation, either channels with a
height and a width, or a feature vector.  Shape inference is not part of
`alexnet_conf.h`. -/
inductive Shape where
  | spatial (d h w : Int) : Shape
  | features (n : Int) : Shape
deriving DecidableEq, Repr

/-- Modelled from the spec: output spatial size
`floor((in + 2*padding - kernelSize) / stride) + 1`; undefined for a zero
stride. -/
def outSize (l : LayerConf) (inp : Int) : Option Int :=
  if l.stride = 0 then none
  else some (Int.fdiv (inp + 2 * (l.padding : Int) - (l.kernelSize : Int)) (l.stride : Int) + 1)

/-- Modelled from the spec: number of features a fully-connected layer reads:
`dout * hout * wout` of a spatial predecessor, `outFeatures` of a
fully-connected predecessor. -/
def inFeatures : Shape → Int
  | Shape.spatial d h w => d * h * w
  | Shape.features n => n

/-- Modelled from the spec: output shape of one layer.  Convolution and
max-pooling apply `outSize` to height and width (max-pooling with the
`padding` field, zero in the table, and the channels carried through);
a fully-connected layer yields `outFeatures`. -/
def inferLayer (l : LayerConf) (s : Shape) : Option Shape :=
  match l.layerType, s with
  | LayerType.Conv, Shape.spatial _ h w =>
    match outSize l h, outSize l w with
    | some h', some w' => some (Shape.spatial (l.dout : Int) h' w')
    | _, _ => none
  | LayerType.Maxpool, Shape.spatial d h w =>
    match outSize l h, outSize l w with
    | some h', some w' => some (Shape.spatial d h' w')
    | _, _ => none
  | LayerType.Conv, Shape.features _ => none
  | LayerType.Maxpool, Shape.features _ => none
  | LayerType.LinearReLU, _ => some (Shape.features (l.outFeatures : Int))
  | LayerType.Linear, _ => some (Shape.features (l.outFeatures : Int))

/-- Modelled from the spec: all dimensions of a shape are positive. -/
def Shape.positive : Shape → Bool
  | Shape.spatial d h w => decide (0 < d) && decide (0 < h) && decide (0 < w)
  | Shape.features n => decide (0 < n)

/-- Modelled from the spec: sequential shape inference; the output shape of
every layer, in table order. -/
def inferShapes : List LayerConf → Shape → Option (List Shape)
  | [], _ => some []
  | l :: rest, s =>
    match inferLayer l s with
    | none => none
    | some s' =>
      match inferShapes rest s' with
      | none => none
      | some out => some (s' :: out)

/-- Modelled from the spec: the input shape, read from the first entry of the
table. -/
def inputShape : List LayerConf → Shape
  | [] => Shape.spatial 0 0 0
  | l :: _ => Shape.spatial (l.din : Int) (l.hin : Int) (l.win : Int)

end AlexnetConf

namespace ImageUtils

/-! ## Predicates used in the proofs -/

/-- Shape `[d][h][w]` of a tensor. -/
def HasShape (t : Tensor) (d h w : Nat) : Prop :=
  t.length = d ∧ ∀ ch ∈ t, ch.length = h ∧ ∀ row ∈ ch, row.length = w

instance (t : Tensor) (d h w : Nat) : Decidable (HasShape t d h w) := by
  unfold HasShape; infer_instance

/-- Loop invariant of `convertToMatrix`: before iteration `(i, j, k)`, the cells
of all earlier iterations hold their final value. -/
def MatInv (image0 : Image) (buf : List Byte) (d h w i j k : Nat) (image : Image) : Prop :=
  image.height = h ∧ image.width = w ∧ image.depth = d ∧
  image.bmp_buffer = Ptr.live buf ∧ image.bmp_size = image0.bmp_size ∧
  image.path = image0.path ∧
  ∃ t, image.channels = Ptr.live t ∧ HasShape t d h w ∧
    ∀ k' i' j', k' < d → i' < h → j' < w →
      (i' < i ∨ (i' = i ∧ (j' < j ∨ (j' = j ∧ k' < k)))) →
      readCell t k' i' j' = buf[k' + j' * d + i' * w * d]?

/-- Slot of `bmp_buffer` written at iteration `(y, x, c)` of `convertToBuffer`. -/
def slot (w d y x c : Nat) : Nat := (y * w + x) * d + c

/-- Loop invariant of `convertToBuffer`: before iteration `(y, x, c)` the
counter is the slot of that iteration and all earlier slots are filled. -/
def BufInv (image0 : Image) (t : Tensor) (d h w y x c : Nat) (s : Image × Nat) : Prop :=
  s.1.height = h ∧ s.1.width = w ∧ s.1.depth = d ∧
  s.1.channels = Ptr.live t ∧ s.1.bmp_size = h * w * d ∧ s.1.path = image0.path ∧
  s.2 = slot w d y x c ∧
  ∃ buf, s.1.bmp_buffer = Ptr.live buf ∧ buf.length = h * w * d ∧
    ∀ y' x' c', c' < d → y' < h → x' < w →
      (y' < y ∨ (y' = y ∧ (x' < x ∨ (x' = x ∧ c' < c)))) →
      buf[slot w d y' x' c']? = readCell t c' y' x'

/-- The dimensions read by the loops. -/
def SameDims (image0 image : Image) : Prop :=
  image.height = image0.height ∧ image.width = image0.width ∧ image.depth = image0.depth

/-! ## The allocated blocks seen as a tensor -/

/-- The cells reached through a row pointer: those of its block; none through
a pointer that designates no live block. -/
def rowCells : Ptr (List Byte) → List Byte
  | Ptr.live row => row
  | _ => []

/-- The rows reached through a channel pointer, each with its cells. -/
def channelCells : Ptr Rows → List (List Byte)
  | Ptr.live rows => rows.map rowCells
  | _ => []

/-- The pointer `channels` seen as a pointer to a tensor of cells: a channel
or row pointer that designates no live block contributes a block without
cells. -/
def tensorView : Ptr Channels → Ptr Tensor
  | Ptr.live chans => Ptr.live (chans.map channelCells)
  | Ptr.null => Ptr.null
  | Ptr.wild => Ptr.wild
  | Ptr.freed => Ptr.freed

/-! ## Reference description of the enumeration -/

/-- The entries a loop does not skip: those whose name is neither `"."` nor
`".."`. -/
def visible (entries : List Dirent) : List Dirent :=
  entries.filter fun de => !isCurrentOrParentFolder de

/-! ### The streams the loops open

Both functions open, for the root entry `de`, the string
`concat(path, de->d_name)`: the two names joined without a separator. -/

/-- The entries the inner loop processes for the root entry `de`: the visible
entries of the stream opened at `path ++ de.d_name`, none if that string does
not open. -/
def innerEntries (fs : FileSystem) (path : CStr) (de : Dirent) : List Dirent :=
  match fs (path ++ de.d_name) with
  | none => []
  | some inner => visible inner

/-- Every string `path ++ de.d_name` the outer loop passes to `opendir` opens. -/
def innerOpen (fs : FileSystem) (path : CStr) (entries : List Dirent) : Prop :=
  ∀ de ∈ visible entries, fs (path ++ de.d_name) ≠ none

instance (fs : FileSystem) (path : CStr) (entries : List Dirent) :
    Decidable (innerOpen fs path entries) := by
  unfold innerOpen; infer_instance

/-- Number of entries the inner loops process. -/
def innerTotal (fs : FileSystem) (path : CStr) (entries : List Dirent) : Nat :=
  ((visible entries).map fun de => (innerEntries fs path de).length).sum

/-- The strings the inner loops store, in traversal order. -/
def innerPaths (fs : FileSystem) (path : CStr) (entries : List Dirent) : List CStr :=
  (visible entries).flatMap fun de =>
    (innerEntries fs path de).map fun f => path ++ de.d_name ++ slash ++ f.d_name

/-! ### The tree under a root

The entry `name` of the directory named by `path` is the file `path/name`; the
separator is not repeated when `path` already ends with it. -/

/-- The root path ends with the separator `'/'`. -/
def endsWithSlash (path : CStr) : Prop := path.getLast? = some 47

instance (path : CStr) : Decidable (endsWithSlash path) := by
  unfold endsWithSlash; infer_instance

/-- The path of the entry `name` of the directory `path`. -/
def entryPath (path name : CStr) : CStr :=
  if endsWithSlash path then path ++ name else path ++ slash ++ name

/-- The files of the subdirectory `de` of the root: the visible entries of the
directory `entryPath path de.d_name`, none if it does not open. -/
def filesOf (fs : FileSystem) (path : CStr) (de : Dirent) : List Dirent :=
  match fs (entryPath path de.d_name) with
  | none => []
  | some inner => visible inner

/-- Every visible root entry is a subdirectory that opens. -/
def allOpen (fs : FileSystem) (path : CStr) (entries : List Dirent) : Prop :=
  ∀ de ∈ visible entries, fs (entryPath path de.d_name) ≠ none

instance (fs : FileSystem) (path : CStr) (entries : List Dirent) :
    Decidable (allOpen fs path entries) := by
  unfold allOpen; infer_instance

/-- Number of files of the tree: the sum, over the subdirectories of the root,
of the number of their visible entries. -/
def fileTotal (fs : FileSystem) (path : CStr) (entries : List Dirent) : Nat :=
  ((visible entries).map fun de => (filesOf fs path de).length).sum

/-- The strings `path ++ subdir ++ "/" ++ filename`, one for every file
`filename` of every subdirectory `subdir` of the root, subdirectories and
files in stream order. -/
def collectedPaths (fs : FileSystem) (path : CStr) (entries : List Dirent) : List CStr :=
  (visible entries).flatMap fun de =>
    (filesOf fs path de).map fun f => path ++ de.d_name ++ slash ++ f.d_name

/-- A block of `char *` whose first slots hold the strings `written` and whose
`r` remaining slots were never assigned. -/
def slots (written : List CStr) (r : Nat) : List (Ptr CStr) :=
  written.map Ptr.live ++ List.replicate r Ptr.wild

/-- The order `compare` induces on strings: `a` may precede `b`. -/
def precedes (a b : CStr) : Prop := strcmp a b ≤ 0

instance (a b : CStr) : Decidable (precedes a b) := by
  unfold precedes; infer_instance

/-- The blocks of channel `i` of a tensor with `h` rows, in the order
`freeImageChannels` releases them. -/
def channelBlocks (h i : Nat) : List Block :=
  (List.range h).map (Block.row i) ++ [Block.channel i]

/-- The rows and channels of a tensor with `d` channels of `h` rows, in the
order `freeImageChannels` releases them. -/
def tensorBlocks (d h : Nat) : List Block :=
  (List.range d).flatMap (channelBlocks h)

/-! ## Concrete inputs -/

/-- An image in interleaved form with the given dimensions and buffer. -/
def bufferImage (height width depth : Int) (buf : List Byte) : Image :=
  { height := height, width := width, depth := depth,
    bmp_buffer := Ptr.live buf, bmp_size := buf.length,
    path := Ptr.null, channels := Ptr.wild }

/-- An image in tensor form with the given dimensions and tensor. -/
def tensorImage (height width depth : Int) (t : Tensor) : Image :=
  { height := height, width := width, depth := depth,
    bmp_buffer := Ptr.wild, bmp_size := 0,
    path := Ptr.null, channels := Ptr.live t }

/-- Indeterminate tensor content used in examples: every byte is `255`. -/
def junkTensor : Nat → Nat → Nat → Byte := fun _ _ _ => 255

/-- Indeterminate buffer content used in examples: every byte is `170`. -/
def junkBuffer : Nat → Byte := fun _ => 170

/-- The 2x2 image of depth 1 with buffer `[10, 20, 30, 40]`. -/
def image2x2 : Image := bufferImage 2 2 1 [10, 20, 30, 40]

/-- The 2x2 image of depth 1 in tensor form, `channels[0] = [[10, 20], [30, 40]]`. -/
def tensor2x2 : Image := tensorImage 2 2 1 [[[10, 20], [30, 40]]]

/-- A tensor of shape `[d][h][w]` filled with zeros. -/
def zeroTensor (d h w : Nat) : Tensor :=
  List.replicate d (List.replicate h (List.replicate w 0))

/-- A record with dimensions 1x1x1 and no representation allocated yet. -/
def blank1x1 : Image :=
  { height := 1, width := 1, depth := 1, bmp_buffer := Ptr.wild, bmp_size := 0,
    path := Ptr.null, channels := Ptr.wild }

/-- A record with the given dimensions and no representation allocated yet. -/
def blankImage (depth height width : Int) : Image :=
  { height := height, width := width, depth := depth, bmp_buffer := Ptr.wild, bmp_size := 0,
    path := Ptr.null, channels := Ptr.wild }

/-- An allocator that serves no request. -/
def servesNone : Block → Bool := fun _ => false

/-- The C string with the characters of `s` (a NUL character is dropped). -/
def cstr (s : String) : CStr :=
  s.toList.filterMap fun c => if h : 0 < c.toNat then some ⟨c.toNat, h⟩ else none

/-- The directory entry named `s`. -/
def entry (s : String) : Dirent := { d_name := cstr s }

/-- A dataset root `data/` with the class folders `b` and `a`, read in that
order; `b` holds `2.jpg`, `a` holds `1.jpg` and `2.jpg`. -/
def datasetFs : FileSystem := fun p =>
  if p = cstr "data/" then some [entry ".", entry "b", entry "..", entry "a"]
  else if p = cstr "data/b" then some [entry "2.jpg", entry ".", entry ".."]
  else if p = cstr "data/a" then some [entry "..", entry "1.jpg", entry ".", entry "2.jpg"]
  else none

/-- The entry named `f` followed by the decimal digits of `n` (lowest digit
first): distinct numbers give distinct names. -/
def numbered (n : Nat) : Dirent :=
  { d_name := 102 :: (Nat.digits 10 n).map fun d => Nat.succPNat (d + 47) }

/-- A root `r/` with one folder `d` whose stream yields `2 ^ 32` entries with
distinct names. -/
def hugeFs : FileSystem := fun p =>
  if p = cstr "r/" then some [entry "d"]
  else if p = cstr "r/d" then some ((List.range 4294967296).map numbered)
  else none

/-- A root `data/` holding the folder `a` (with `1.jpg`) and the regular file
`notes.txt`, which does not open as a directory. -/
def mixedFs : FileSystem := fun p =>
  if p = cstr "data/" then some [entry ".", entry "..", entry "notes.txt", entry "a"]
  else if p = cstr "data/a" then some [entry ".", entry "..", entry "1.jpg"]
  else none

/-- A file system in which no path opens as a directory. -/
def closedFs : FileSystem := fun _ => none

/-- The dataset `data/` with each stream read in another order. -/
def datasetFsReordered : FileSystem := fun p =>
  if p = cstr "data/" then some [entry "a", entry "..", entry ".", entry "b"]
  else if p = cstr "data/b" then some [entry "..", entry ".", entry "2.jpg"]
  else if p = cstr "data/a" then some [entry "2.jpg", entry "1.jpg", entry ".", entry ".."]
  else none

/-- A root `data/` holding the hidden folder `.hidden` (with `secret.jpg`)
and the folder `a` (with the hidden file `.DS_Store` and `1.jpg`). -/
def hiddenFs : FileSystem := fun p =>
  if p = cstr "data/" then some [entry ".", entry "..", entry ".hidden", entry "a"]
  else if p = cstr "data/.hidden" then some [entry ".", entry "..", entry "secret.jpg"]
  else if p = cstr "data/a" then some [entry ".", entry "..", entry ".DS_Store", entry "1.jpg"]
  else none

/-- A decoded image: 2x2 of depth 1, its interleaved buffer and its path
populated, its tensor never allocated. -/
def decodedImage : Image := { image2x2 with path := Ptr.live (cstr "a.jpg") }

/-- An image in tensor form with a path: 2x2 of depth 1. -/
def loadedImage : Image := { tensor2x2 with path := Ptr.live (cstr "a.jpg") }

/-- A root named `data`, without a trailing separator, holding the folder `a`
with `1.jpg` and `2.jpg`; no file is named `dataa`. -/
def plainFs : FileSystem := fun p =>
  if p = cstr "data" then some [entry ".", entry "..", entry "a"]
  else if p = cstr "data/a" then some [entry ".", entry "..", entry "1.jpg", entry "2.jpg"]
  else none

/-- The same root `data` next to a sibling folder `dataa` that holds `x.jpg`. -/
def siblingFs : FileSystem := fun p =>
  if p = cstr "data" then some [entry ".", entry "..", entry "a"]
  else if p = cstr "data/a" then some [entry ".", entry "..", entry "1.jpg", entry "2.jpg"]
  else if p = cstr "dataa" then some [entry ".", entry "..", entry "x.jpg"]
  else none

/-! ## Lemmas: loops, tensors, conversions -/

theorem forFrom_inv {σ : Type} (body : Nat → σ → Option σ) (Inv : Nat → σ → Prop) :
    ∀ (fuel i : Nat) (s : σ), Inv i s →
      (∀ m t, i ≤ m → m < i + fuel → Inv m t → ∃ t', body m t = some t' ∧ Inv (m + 1) t') →
      ∃ s', forFrom body fuel i s = some s' ∧ Inv (i + fuel) s' := by
  intro fuel
  induction fuel with
  | zero => intro i s h0 _; exact ⟨s, rfl, by simpa using h0⟩
  | succ n ih =>
    intro i s h0 hstep
    obtain ⟨t', hb, hI⟩ := hstep i s (le_refl i) (by omega) h0
    obtain ⟨s', hs', hI'⟩ := ih (i + 1) t' hI (fun m t hm hlt hinv =>
      hstep m t (by omega) (by omega) hinv)
    refine ⟨s', ?_, ?_⟩
    · simp only [forFrom, hb]; exact hs'
    · have : i + (n + 1) = i + 1 + n := by omega
      rw [this]; exact hI'

theorem forFrom_preserves {σ : Type} (body : Nat → σ → Option σ) (P : σ → Prop)
    (hP : ∀ m s s', P s → body m s = some s' → P s') :
    ∀ (fuel i : Nat) (s s' : σ), P s → forFrom body fuel i s = some s' → P s' := by
  intro fuel
  induction fuel with
  | zero => intro i s s' h0 h; simp only [forFrom, Option.some.injEq] at h; exact h ▸ h0
  | succ n ih =>
    intro i s s' h0 h
    simp only [forFrom] at h
    cases hb : body i s with
    | none => simp [hb] at h
    | some t => rw [hb] at h; exact ih (i + 1) t s' (hP i s t h0 hb) h

theorem forFrom_none {σ : Type} (body : Nat → σ → Option σ) (P : σ → Prop)
    (hP : ∀ m s s', P s → body m s = some s' → P s') :
    ∀ (fuel i : Nat) (s : σ), P s →
      (∃ m, i ≤ m ∧ m < i + fuel ∧ ∀ t, P t → body m t = none) →
      forFrom body fuel i s = none := by
  intro fuel
  induction fuel with
  | zero => intro i s _ ⟨m, h1, h2, _⟩; omega
  | succ n ih =>
    intro i s h0 ⟨m, h1, h2, h3⟩
    simp only [forFrom]
    cases hb : body i s with
    | none => rfl
    | some t =>
      have hne : m ≠ i := by
        rintro rfl
        rw [h3 s h0] at hb; cases hb
      exact ih (i + 1) t (hP i s t h0 hb) ⟨m, by omega, by omega, h3⟩

theorem hasShape_cell (t : Tensor) (d h w k i j : Nat) (hs : HasShape t d h w)
    (hk : k < d) (hi : i < h) (hj : j < w) : ∃ v, readCell t k i j = some v := by
  obtain ⟨hl, hch⟩ := hs
  have hk' : k < t.length := by omega
  have h1 := hch t[k] (List.getElem_mem hk')
  have hi' : i < t[k].length := by omega
  have h2 := h1.2 t[k][i] (List.getElem_mem hi')
  have hj' : j < t[k][i].length := by omega
  refine ⟨t[k][i][j], ?_⟩
  simp [readCell, List.getElem?_eq_getElem, hk', hi', hj']

theorem writeCell_spec (t : Tensor) (d h w k i j : Nat) (v : Byte) (hs : HasShape t d h w)
    (hk : k < d) (hi : i < h) (hj : j < w) :
    ∃ t', writeCell t k i j v = some t' ∧ HasShape t' d h w ∧
      ∀ k' i' j', readCell t' k' i' j' =
        if k' = k ∧ i' = i ∧ j' = j then some v else readCell t k' i' j' := by
  obtain ⟨hl, hch⟩ := hs
  have hk' : k < t.length := by omega
  have h1 := hch t[k] (List.getElem_mem hk')
  have hi' : i < t[k].length := by omega
  have h2 := h1.2 t[k][i] (List.getElem_mem hi')
  have hj' : j < t[k][i].length := by omega
  refine ⟨t.set k (t[k].set i (t[k][i].set j v)), ?_, ⟨?_, ?_⟩, ?_⟩
  · simp [writeCell, writeAt, List.getElem?_eq_getElem, hk', hi', hj']
  · simpa using hl
  · intro ch hmem
    rcases List.mem_or_eq_of_mem_set hmem with hm | rfl
    · exact hch ch hm
    · refine ⟨by simpa using h1.1, ?_⟩
      intro row hrow
      rcases List.mem_or_eq_of_mem_set hrow with hm | rfl
      · exact h1.2 row hm
      · simpa using h2
  · intro k' i' j'
    unfold readCell
    by_cases hkk : k' = k
    · subst hkk
      simp only [List.getElem?_set_self hk', List.getElem?_eq_getElem hk', true_and]
      by_cases hii : i' = i
      · subst hii
        simp only [List.getElem?_set_self hi', List.getElem?_eq_getElem hi', true_and]
        by_cases hjj : j' = j
        · subst hjj
          simp [List.getElem?_set_self hj']
        · simp [hjj, List.getElem?_set_ne (Ne.symm hjj)]
      · simp [hii, List.getElem?_set_ne (Ne.symm hii), List.getElem?_eq_getElem hi']
    · simp [hkk, List.getElem?_set_ne (Ne.symm hkk)]

theorem index_lt (h w d i j k : Nat) (hi : i < h) (hj : j < w) (hk : k < d) :
    k + j * d + i * w * d < h * w * d := by
  have h1 : (j + 1) * d ≤ w * d := Nat.mul_le_mul_right d hj
  have h2 : (i + 1) * (w * d) ≤ h * (w * d) := Nat.mul_le_mul_right (w * d) hi
  have e1 : (j + 1) * d = j * d + d := by ring
  have e2 : (i + 1) * (w * d) = i * w * d + w * d := by ring
  have e3 : h * (w * d) = h * w * d := by ring
  omega

theorem intResult_natCast (n : Nat) (hn : n ≤ 2147483647) : intResult (n : Int) = some (n : Int) := by
  unfold intResult INT_MIN INT_MAX
  rw [if_pos]
  constructor <;> omega

theorem bufferIndex_eq (image : Image) (h w d i j k : Nat)
    (hw : image.width = w) (hd : image.depth = d)
    (hi : i < h) (hj : j < w) (hk : k < d) (hsize : h * w * d ≤ 2147483648) :
    bufferIndex image i j k = some ((k + j * d + i * w * d : Nat) : Int) := by
  have hlt := index_lt h w d i j k hi hj hk
  have h1 : i * w ≤ i * w * d := Nat.le_mul_of_pos_right _ (by omega)
  have a1 := intResult_natCast (j * d) (by omega)
  have a2 := intResult_natCast (k + j * d) (by omega)
  have a3 := intResult_natCast (i * w) (by omega)
  have a4 := intResult_natCast (i * w * d) (by omega)
  have a5 := intResult_natCast (k + j * d + i * w * d) (by omega)
  push_cast at a1 a2 a3 a4 a5
  simp only [bufferIndex, imul, iadd, hw, hd, a1, a2, a3, a4, a5, Option.bind_eq_bind, Option.some_bind]
  push_cast
  rfl

theorem convertToMatrix_body_step (image0 : Image) (buf : List Byte) (d h w i j k : Nat)
    (image : Image) (hlen : buf.length = h * w * d) (hsize : h * w * d ≤ 2147483648)
    (hi : i < h) (hj : j < w) (hk : k < d)
    (hinv : MatInv image0 buf d h w i j k image) :
    ∃ image', convertToMatrix.body i j k image = some image' ∧
      MatInv image0 buf d h w i j (k + 1) image' := by
  obtain ⟨hh, hw, hd, hb, hsz, hp, t, ht, hshape, hcells⟩ := hinv
  have hidx := bufferIndex_eq image h w d i j k hw hd hi hj hk hsize
  have hlt := index_lt h w d i j k hi hj hk
  have hlt' : k + j * d + i * w * d < buf.length := by omega
  obtain ⟨t', hwr, hshape', hrd⟩ := writeCell_spec t d h w k i j buf[k + j * d + i * w * d] hshape hk hi hj
  refine ⟨{ image with channels := Ptr.live t' }, ?_, hh, hw, hd, hb, hsz, hp, t', rfl, hshape', ?_⟩
  · simp only [convertToMatrix.body, hidx, hb, ht, Ptr.deref, readAt, Option.bind_eq_bind,
      Option.some_bind, Int.toNat_ofNat, Int.natCast_nonneg, if_true,
      List.getElem?_eq_getElem hlt', hwr]
    rfl
  · intro k' i' j' hk' hi' hj' hlex
    rw [hrd]
    by_cases hc : k' = k ∧ i' = i ∧ j' = j
    · obtain ⟨rfl, rfl, rfl⟩ := hc
      simp [List.getElem?_eq_getElem hlt']
    · rw [if_neg hc]
      apply hcells k' i' j' hk' hi' hj'
      omega

theorem MatInv_weaken (image0 : Image) (buf : List Byte) (d h w i j k i2 j2 k2 : Nat)
    (image : Image) (hinv : MatInv image0 buf d h w i j k image)
    (himp : ∀ k' i' j', k' < d → i' < h → j' < w →
      (i' < i2 ∨ (i' = i2 ∧ (j' < j2 ∨ (j' = j2 ∧ k' < k2)))) →
      (i' < i ∨ (i' = i ∧ (j' < j ∨ (j' = j ∧ k' < k))))) :
    MatInv image0 buf d h w i2 j2 k2 image := by
  obtain ⟨hh, hw, hd, hb, hsz, hp, t, ht, hshape, hcells⟩ := hinv
  exact ⟨hh, hw, hd, hb, hsz, hp, t, ht, hshape, fun k' i' j' hk' hi' hj' hlex =>
    hcells k' i' j' hk' hi' hj' (himp k' i' j' hk' hi' hj' hlex)⟩

theorem convertToMatrix_inner (image0 : Image) (buf : List Byte) (d h w i j : Nat)
    (image : Image) (hlen : buf.length = h * w * d) (hsize : h * w * d ≤ 2147483648)
    (hi : i < h) (hj : j < w)
    (hinv : MatInv image0 buf d h w i j 0 image) :
    ∃ image', forLoop image.depth (fun k image => convertToMatrix.body i j k image) image
        = some image' ∧ MatInv image0 buf d h w i (j + 1) 0 image' := by
  have hd : image.depth = d := hinv.2.2.1
  obtain ⟨s', hs', hI⟩ := forFrom_inv (fun k image => convertToMatrix.body i j k image)
    (fun k s => MatInv image0 buf d h w i j k s) d 0 image hinv
    (fun m t _ hm hI => convertToMatrix_body_step image0 buf d h w i j m t hlen hsize hi hj
      (by omega) hI)
  refine ⟨s', ?_, ?_⟩
  · simpa [forLoop, hd] using hs'
  · apply MatInv_weaken image0 buf d h w i j (0 + d) i (j + 1) 0 s' hI
    intro k' i' j' hk' _ _ hlex
    omega

theorem convertToMatrix_middle (image0 : Image) (buf : List Byte) (d h w i : Nat)
    (image : Image) (hlen : buf.length = h * w * d) (hsize : h * w * d ≤ 2147483648)
    (hi : i < h)
    (hinv : MatInv image0 buf d h w i 0 0 image) :
    ∃ image', forLoop image.width (fun j image =>
        forLoop image.depth (fun k image => convertToMatrix.body i j k image) image) image
        = some image' ∧ MatInv image0 buf d h w (i + 1) 0 0 image' := by
  have hw : image.width = w := hinv.2.1
  obtain ⟨s', hs', hI⟩ := forFrom_inv (fun j image =>
      forLoop image.depth (fun k image => convertToMatrix.body i j k image) image)
    (fun j s => MatInv image0 buf d h w i j 0 s) w 0 image hinv
    (fun m t _ hm hI => convertToMatrix_inner image0 buf d h w i m t hlen hsize hi
      (by omega) hI)
  refine ⟨s', ?_, ?_⟩
  · simpa [forLoop, hw] using hs'
  · apply MatInv_weaken image0 buf d h w i (0 + w) 0 (i + 1) 0 0 s' hI
    intro k' i' j' _ _ hj' hlex
    omega

theorem convertToMatrix_outer (image0 : Image) (buf : List Byte) (d h w : Nat)
    (image : Image) (hlen : buf.length = h * w * d) (hsize : h * w * d ≤ 2147483648)
    (hinv : MatInv image0 buf d h w 0 0 0 image) :
    ∃ image', forLoop image.height (fun i image =>
        forLoop image.width (fun j image =>
          forLoop image.depth (fun k image => convertToMatrix.body i j k image) image)
          image) image
        = some image' ∧ MatInv image0 buf d h w h 0 0 image' := by
  have hh : image.height = h := hinv.1
  obtain ⟨s', hs', hI⟩ := forFrom_inv (fun i image =>
      forLoop image.width (fun j image =>
        forLoop image.depth (fun k image => convertToMatrix.body i j k image) image) image)
    (fun i s => MatInv image0 buf d h w i 0 0 s) h 0 image hinv
    (fun m t _ hm hI => convertToMatrix_middle image0 buf d h w m t hlen hsize
      (by omega) hI)
  refine ⟨s', ?_, ?_⟩
  · simpa [forLoop, hh] using hs'
  · simpa using hI

theorem initChannelsMatrix_shape (junk : Nat → Nat → Nat → Byte) (d h w : Nat) :
    HasShape ((List.range d).map fun k => (List.range h).map fun i =>
      (List.range w).map fun j => junk k i j) d h w := by
  refine ⟨by simp, ?_⟩
  intro ch hch
  simp only [List.mem_map, List.mem_range] at hch
  obtain ⟨k, _, rfl⟩ := hch
  refine ⟨by simp, ?_⟩
  intro row hrow
  simp only [List.mem_map, List.mem_range] at hrow
  obtain ⟨i, _, rfl⟩ := hrow
  simp

theorem initChannelsMatrix_channels (junk : Nat → Nat → Nat → Byte) (image : Image)
    (hd : 0 ≤ image.depth) :
    (initChannelsMatrix junk image).channels
      = Ptr.live ((List.range image.depth.toNat).map fun k =>
          (List.range image.height.toNat).map fun i =>
            (List.range image.width.toNat).map fun j => junk k i j) := by
  show (if image.depth < 0 then Ptr.null else Ptr.live _) = _
  rw [if_neg (by omega)]

theorem convertToMatrix_spec (junk : Nat → Nat → Nat → Byte) (image : Image)
    (buf : List Byte) (d h w : Nat)
    (hh : image.height = h) (hw : image.width = w) (hd : image.depth = d)
    (hb : image.bmp_buffer = Ptr.live buf) (hlen : buf.length = h * w * d)
    (hsize : h * w * d ≤ 2147483648) :
    ∃ t, convertToMatrix junk image
        = some { image with bmp_buffer := Ptr.freed, channels := Ptr.live t } ∧
      HasShape t d h w ∧
      ∀ k i j, k < d → i < h → j < w → readCell t k i j = buf[k + j * d + i * w * d]? := by
  have h0 : MatInv image buf d h w 0 0 0 (initChannelsMatrix junk image) := by
    refine ⟨hh, hw, hd, hb, rfl, rfl, _,
      initChannelsMatrix_channels junk image (by omega), ?_, ?_⟩
    · simp only [hd, hh, hw, Int.toNat_ofNat]
      exact initChannelsMatrix_shape junk d h w
    · intro k' i' j' _ _ _ hlex; omega
  obtain ⟨image', hrun, hh', hw', hd', hb', hsz', hp', t, ht, hshape, hcells⟩ :=
    convertToMatrix_outer image buf d h w (initChannelsMatrix junk image) hlen hsize h0
  refine ⟨t, ?_, hshape, fun k i j hk hi hj => hcells k i j hk hi hj (by omega)⟩
  simp only [convertToMatrix, hrun, Option.bind_eq_bind, Option.some_bind, hb', free]
  cases image' with
  | mk a b c e f g i =>
    cases image with
    | mk a0 b0 c0 e0 f0 g0 i0 =>
      simp only at hh hw hd hb hh' hw' hd' hb' hsz' hp' ht
      simp [hh, hw, hd, hh', hw', hd', hsz', hp', ht]

theorem slot_eq (w d y x c : Nat) : slot w d y x c = c + x * d + y * w * d := by
  unfold slot; ring

theorem slot_lt (h w d y x c : Nat) (hy : y < h) (hx : x < w) (hc : c < d) :
    slot w d y x c < h * w * d := by
  rw [slot_eq]; exact index_lt h w d y x c hy hx hc

theorem slot_lex (w d y x c y' x' c' : Nat) (hx' : x' < w) (hc' : c' < d)
    (hlex : y' < y ∨ (y' = y ∧ (x' < x ∨ (x' = x ∧ c' < c)))) :
    slot w d y' x' c' < slot w d y x c := by
  unfold slot
  rcases hlex with hy | ⟨rfl, hx | ⟨rfl, hc⟩⟩
  · have h1 : (y' + 1) * w ≤ y * w := Nat.mul_le_mul_right w hy
    have h2 : (y' * w + x' + 1) * d ≤ (y * w) * d :=
      Nat.mul_le_mul_right d (by rw [Nat.add_mul] at h1; omega)
    have h3 : (y * w) * d ≤ (y * w + x) * d := Nat.mul_le_mul_right d (by omega)
    have e : (y' * w + x' + 1) * d = (y' * w + x') * d + d := by ring
    omega
  · have h2 : (y' * w + x' + 1) * d ≤ (y' * w + x) * d := Nat.mul_le_mul_right d (by omega)
    have e : (y' * w + x' + 1) * d = (y' * w + x') * d + d := by ring
    omega
  · omega

theorem convertToBuffer_body_step (image0 : Image) (t : Tensor) (d h w y x c : Nat)
    (s : Image × Nat) (hshape : HasShape t d h w) (hsize : h * w * d ≤ 2147483647)
    (hy : y < h) (hx : x < w) (hc : c < d)
    (hinv : BufInv image0 t d h w y x c s) :
    ∃ s', convertToBuffer.body y x c s = some s' ∧ BufInv image0 t d h w y x (c + 1) s' := by
  obtain ⟨hh, hw, hd, ht, hsz, hp, hidx, buf, hb, hlen, hcells⟩ := hinv
  obtain ⟨v, hv⟩ := hasShape_cell t d h w c y x hshape hc hy hx
  have hlt := slot_lt h w d y x c hy hx hc
  have hlt' : s.2 < buf.length := by omega
  refine ⟨({ s.1 with bmp_buffer := Ptr.live (buf.set s.2 v) }, s.2 + 1), ?_,
    hh, hw, hd, ht, hsz, hp, ?_, buf.set s.2 v, rfl, by simpa using hlen, ?_⟩
  · have hsucc : uintSucc s.2 = s.2 + 1 := by
      unfold uintSucc; exact Nat.mod_eq_of_lt (by omega)
    simp only [convertToBuffer.body, ht, hb, Ptr.deref, hv, writeAt, hlt', if_true,
      Option.bind_eq_bind, Option.some_bind, hsucc]
    rfl
  · simp only [hidx, slot]; ring
  · intro y' x' c' hc' hy' hx' hlex
    by_cases hcell : y' = y ∧ x' = x ∧ c' = c
    · obtain ⟨rfl, rfl, rfl⟩ := hcell
      rw [← hidx, List.getElem?_set_self hlt', hv]
    · have hlex' : y' < y ∨ (y' = y ∧ (x' < x ∨ (x' = x ∧ c' < c))) := by omega
      have hne := slot_lex w d y x c y' x' c' hx' hc' hlex'
      rw [List.getElem?_set_ne (by omega)]
      exact hcells y' x' c' hc' hy' hx' hlex'

theorem BufInv_weaken (image0 : Image) (t : Tensor) (d h w y x c y2 x2 c2 : Nat)
    (s : Image × Nat) (hinv : BufInv image0 t d h w y x c s)
    (hslot : slot w d y x c = slot w d y2 x2 c2)
    (himp : ∀ y' x' c', c' < d → y' < h → x' < w →
      (y' < y2 ∨ (y' = y2 ∧ (x' < x2 ∨ (x' = x2 ∧ c' < c2)))) →
      (y' < y ∨ (y' = y ∧ (x' < x ∨ (x' = x ∧ c' < c))))) :
    BufInv image0 t d h w y2 x2 c2 s := by
  obtain ⟨hh, hw, hd, ht, hsz, hp, hidx, buf, hb, hlen, hcells⟩ := hinv
  exact ⟨hh, hw, hd, ht, hsz, hp, hidx.trans hslot, buf, hb, hlen,
    fun y' x' c' hc' hy' hx' hlex =>
      hcells y' x' c' hc' hy' hx' (himp y' x' c' hc' hy' hx' hlex)⟩

theorem convertToBuffer_inner (image0 : Image) (t : Tensor) (d h w y x : Nat)
    (s : Image × Nat) (hshape : HasShape t d h w) (hsize : h * w * d ≤ 2147483647)
    (hy : y < h) (hx : x < w)
    (hinv : BufInv image0 t d h w y x 0 s) :
    ∃ s', forLoop s.1.depth (fun c s => convertToBuffer.body y x c s) s = some s' ∧
      BufInv image0 t d h w y (x + 1) 0 s' := by
  have hd : s.1.depth = d := hinv.2.2.1
  obtain ⟨s', hs', hI⟩ := forFrom_inv (fun c s => convertToBuffer.body y x c s)
    (fun c s => BufInv image0 t d h w y x c s) d 0 s hinv
    (fun m u _ hm hI => convertToBuffer_body_step image0 t d h w y x m u hshape hsize hy hx
      (by omega) hI)
  refine ⟨s', ?_, ?_⟩
  · simpa [forLoop, hd] using hs'
  · apply BufInv_weaken image0 t d h w y x (0 + d) y (x + 1) 0 s' hI
    · unfold slot; ring
    · intro y' x' c' hc' _ _ hlex
      omega

theorem convertToBuffer_middle (image0 : Image) (t : Tensor) (d h w y : Nat)
    (s : Image × Nat) (hshape : HasShape t d h w) (hsize : h * w * d ≤ 2147483647)
    (hy : y < h)
    (hinv : BufInv image0 t d h w y 0 0 s) :
    ∃ s', forLoop s.1.width (fun x s =>
        forLoop s.1.depth (fun c s => convertToBuffer.body y x c s) s) s = some s' ∧
      BufInv image0 t d h w (y + 1) 0 0 s' := by
  have hw : s.1.width = w := hinv.2.1
  obtain ⟨s', hs', hI⟩ := forFrom_inv (fun x s =>
      forLoop s.1.depth (fun c s => convertToBuffer.body y x c s) s)
    (fun x s => BufInv image0 t d h w y x 0 s) w 0 s hinv
    (fun m u _ hm hI => convertToBuffer_inner image0 t d h w y m u hshape hsize hy
      (by omega) hI)
  refine ⟨s', ?_, ?_⟩
  · simpa [forLoop, hw] using hs'
  · apply BufInv_weaken image0 t d h w y (0 + w) 0 (y + 1) 0 0 s' hI
    · unfold slot; ring
    · intro y' x' c' _ _ hx' hlex
      omega

theorem convertToBuffer_outer (image0 : Image) (t : Tensor) (d h w : Nat)
    (s : Image × Nat) (hshape : HasShape t d h w) (hsize : h * w * d ≤ 2147483647)
    (hinv : BufInv image0 t d h w 0 0 0 s) :
    ∃ s', forLoop s.1.height (fun y s =>
        forLoop s.1.width (fun x s =>
          forLoop s.1.depth (fun c s => convertToBuffer.body y x c s) s) s) s = some s' ∧
      BufInv image0 t d h w h 0 0 s' := by
  have hh : s.1.height = h := hinv.1
  obtain ⟨s', hs', hI⟩ := forFrom_inv (fun y s =>
      forLoop s.1.width (fun x s =>
        forLoop s.1.depth (fun c s => convertToBuffer.body y x c s) s) s)
    (fun y s => BufInv image0 t d h w y 0 0 s) h 0 s hinv
    (fun m u _ hm hI => convertToBuffer_middle image0 t d h w m u hshape hsize
      (by omega) hI)
  refine ⟨s', ?_, ?_⟩
  · simpa [forLoop, hh] using hs'
  · simpa using hI

theorem toUlong_natCast (n : Nat) (hn : n ≤ 2147483647) : toUlong (n : Int) = n := by
  unfold toUlong
  have : ((n : Int) % 18446744073709551616) = n := Int.emod_eq_of_lt (by omega) (by omega)
  rw [this]; simp

theorem convertToBuffer_spec (junk : Nat → Byte) (image : Image) (t : Tensor) (d h w : Nat)
    (hh : image.height = h) (hw : image.width = w) (hd : image.depth = d)
    (ht : image.channels = Ptr.live t) (hshape : HasShape t d h w)
    (hdw : d * w ≤ 2147483647) (hsize : d * w * h ≤ 2147483647) :
    ∃ buf, convertToBuffer junk image
        = some { image with bmp_size := d * w * h, bmp_buffer := Ptr.live buf } ∧
      buf.length = d * w * h ∧
      ∀ y x c, y < h → x < w → c < d → buf[y * w * d + x * d + c]? = readCell t c y x := by
  have hring : h * w * d = d * w * h := by ring
  have a1 := intResult_natCast (d * w) hdw
  have a2 := intResult_natCast (d * w * h) hsize
  have a3 := toUlong_natCast (d * w * h) hsize
  push_cast at a1 a2 a3
  have h0 : BufInv image t d h w 0 0 0
      ({ image with bmp_size := d * w * h,
                    bmp_buffer := Ptr.live ((List.range (d * w * h)).map junk) }, 0) := by
    refine ⟨hh, hw, hd, ht, hring.symm, rfl, by simp [slot], _, rfl, by simp [hring], ?_⟩
    intro y' x' c' _ _ _ hlex; omega
  obtain ⟨s', hrun, hh', hw', hd', ht', hsz', hp', _, buf, hb', hlen', hcells⟩ :=
    convertToBuffer_outer image t d h w _ hshape (by omega) h0
  refine ⟨buf, ?_, by omega, ?_⟩
  · simp only [convertToBuffer, imul, hd, hw, hh, a1, a2, a3, Option.bind_eq_bind,
      Option.some_bind]
    simp only [hh, hw, hd] at hrun
    rw [hrun]
    obtain ⟨image', n⟩ := s'
    cases image' with
    | mk a b c e f g i =>
      cases image with
      | mk a0 b0 c0 e0 f0 g0 i0 =>
        simp only at hh hw hd ht hh' hw' hd' ht' hsz' hp' hb'
        simp [hh, hw, hd, hh', hw', hd', hsz', hp', ht', hb', ht, hring]
  · intro y x c hy hx hc
    have := hcells y x c hc hy hx (by omega)
    rw [slot_eq] at this
    rw [← this]
    congr 1
    ring

theorem convertToMatrix_body_dims (image0 : Image) (i j k : Nat) (image image' : Image)
    (h0 : SameDims image0 image) (hb : convertToMatrix.body i j k image = some image') :
    SameDims image0 image' := by
  simp only [convertToMatrix.body, Option.bind_eq_bind, Option.bind_eq_some] at hb
  obtain ⟨_, _, _, _, _, _, _, _, _, _, hb⟩ := hb
  simp only [Option.pure_def, Option.some.injEq] at hb
  subst hb
  exact h0

theorem convertToMatrix_inner_dims (image0 : Image) (i j : Nat) (image image' : Image)
    (h0 : SameDims image0 image)
    (hb : forLoop image.depth (fun k image => convertToMatrix.body i j k image) image
      = some image') : SameDims image0 image' :=
  forFrom_preserves _ (SameDims image0)
    (fun m s s' hs hbody => convertToMatrix_body_dims image0 i j m s s' hs hbody)
    _ 0 image image' h0 hb

theorem convertToMatrix_middle_dims (image0 : Image) (i : Nat) (image image' : Image)
    (h0 : SameDims image0 image)
    (hb : forLoop image.width (fun j image =>
        forLoop image.depth (fun k image => convertToMatrix.body i j k image) image) image
      = some image') : SameDims image0 image' :=
  forFrom_preserves _ (SameDims image0)
    (fun m s s' hs hbody => convertToMatrix_inner_dims image0 i m s s' hs hbody)
    _ 0 image image' h0 hb

theorem intResult_eq_some (x y : Int) (h : intResult x = some y) :
    y = x ∧ x ≤ 2147483647 := by
  unfold intResult INT_MAX INT_MIN at h
  split_ifs at h with hc
  simp only [Option.some.injEq] at h
  exact ⟨h.symm, hc.2⟩

theorem bufferIndex_overflow (image : Image) (h w d : Nat)
    (hw : image.width = w) (hd : image.depth = d)
    (h1 : 1 ≤ h) (w1 : 1 ≤ w) (d1 : 1 ≤ d) (hsize : 2147483648 < h * w * d) :
    bufferIndex image ((h - 1 : Nat) : Int) ((w - 1 : Nat) : Int) ((d - 1 : Nat) : Int)
      = none := by
  obtain ⟨h', rfl⟩ : ∃ h', h = h' + 1 := ⟨h - 1, by omega⟩
  obtain ⟨w', rfl⟩ : ∃ w', w = w' + 1 := ⟨w - 1, by omega⟩
  obtain ⟨d', rfl⟩ : ∃ d', d = d' + 1 := ⟨d - 1, by omega⟩
  have e : (h' + 1) * (w' + 1) * (d' + 1)
      = d' + w' * (d' + 1) + h' * (w' + 1) * (d' + 1) + 1 := by ring
  have hbig : (2147483647 : Int)
      < ((d' + w' * (d' + 1) + h' * (w' + 1) * (d' + 1) : Nat) : Int) := by omega
  push_cast at hbig
  cases hres : bufferIndex image ((h' + 1 - 1 : Nat) : Int) ((w' + 1 - 1 : Nat) : Int)
      ((d' + 1 - 1 : Nat) : Int) with
  | none => rfl
  | some x =>
    exfalso
    simp only [bufferIndex, imul, iadd, Option.bind_eq_bind, Option.bind_eq_some, hw, hd,
      Nat.add_sub_cancel] at hres
    obtain ⟨jd, a1, kjd, a2, iw, a3, iwd, a4, a5⟩ := hres
    obtain ⟨rfl, _⟩ := intResult_eq_some _ _ a1
    obtain ⟨rfl, _⟩ := intResult_eq_some _ _ a2
    obtain ⟨rfl, _⟩ := intResult_eq_some _ _ a3
    obtain ⟨rfl, _⟩ := intResult_eq_some _ _ a4
    obtain ⟨rfl, hle⟩ := intResult_eq_some _ _ a5
    push_cast at hle
    omega

theorem convertToMatrix_overflow (junk : Nat → Nat → Nat → Byte) (image : Image) (h w d : Nat)
    (hh : image.height = h) (hw : image.width = w) (hd : image.depth = d)
    (h1 : 1 ≤ h) (w1 : 1 ≤ w) (d1 : 1 ≤ d) (hsize : 2147483648 < h * w * d) :
    convertToMatrix junk image = none := by
  have hbody : ∀ u : Image, SameDims image u →
      convertToMatrix.body (h - 1) (w - 1) (d - 1) u = none := by
    intro u hu
    have := bufferIndex_overflow u h w d (hu.2.1.trans hw) (hu.2.2.trans hd) h1 w1 d1 hsize
    simp [convertToMatrix.body, this]
  have hinner : ∀ u : Image, SameDims image u →
      forLoop u.depth (fun k image => convertToMatrix.body (h - 1) (w - 1) k image) u = none := by
    intro u hu
    have hdu : u.depth = d := hu.2.2.trans hd
    simp only [forLoop, hdu, Int.toNat_ofNat]
    exact forFrom_none _ (SameDims image)
      (fun m s s' hs hb => convertToMatrix_body_dims image (h - 1) (w - 1) m s s' hs hb)
      d 0 u hu ⟨d - 1, by omega, by omega, hbody⟩
  have hmiddle : ∀ u : Image, SameDims image u →
      forLoop u.width (fun j image =>
        forLoop image.depth (fun k image => convertToMatrix.body (h - 1) j k image) image) u
        = none := by
    intro u hu
    have hwu : u.width = w := hu.2.1.trans hw
    simp only [forLoop, hwu, Int.toNat_ofNat]
    exact forFrom_none _ (SameDims image)
      (fun m s s' hs hb => convertToMatrix_inner_dims image (h - 1) m s s' hs hb)
      w 0 u hu ⟨w - 1, by omega, by omega, hinner⟩
  have hinit : SameDims image (initChannelsMatrix junk image) := ⟨rfl, rfl, rfl⟩
  have houter : forLoop (initChannelsMatrix junk image).height (fun i image =>
      forLoop image.width (fun j image =>
        forLoop image.depth (fun k image => convertToMatrix.body i j k image) image) image)
      (initChannelsMatrix junk image) = none := by
    have hhu : (initChannelsMatrix junk image).height = h := hh
    simp only [forLoop, hhu, Int.toNat_ofNat]
    exact forFrom_none _ (SameDims image)
      (fun m s s' hs hb => convertToMatrix_middle_dims image m s s' hs hb)
      h 0 _ hinit ⟨h - 1, by omega, by omega, hmiddle⟩
  simp only [convertToMatrix, houter, Option.bind_eq_bind, Option.none_bind]

theorem convertToBuffer_overflow (junk : Nat → Byte) (image : Image) (h w d : Nat)
    (hh : image.height = h) (hw : image.width = w) (hd : image.depth = d)
    (hsize : 2147483647 < d * w * h) :
    convertToBuffer junk image = none := by
  cases hres : convertToBuffer junk image with
  | none => rfl
  | some x =>
    exfalso
    simp only [convertToBuffer, imul, Option.bind_eq_bind, Option.bind_eq_some, hh, hw, hd]
      at hres
    obtain ⟨dw, a1, dwh, a2, _⟩ := hres
    obtain ⟨rfl, _⟩ := intResult_eq_some _ _ a1
    obtain ⟨rfl, hle⟩ := intResult_eq_some _ _ a2
    have : ((d * w * h : Nat) : Int) ≤ 2147483647 := by push_cast; exact hle
    omega

theorem slot_decompose (h w d p : Nat) (hp : p < h * w * d) :
    ∃ y x c, y < h ∧ x < w ∧ c < d ∧ p = y * w * d + x * d + c := by
  have hd : 0 < d := by
    rcases Nat.eq_zero_or_pos d with rfl | hd
    · simp at hp
    · exact hd
  have hw : 0 < w := by
    rcases Nat.eq_zero_or_pos w with rfl | hw
    · simp at hp
    · exact hw
  have hwd : 0 < w * d := Nat.mul_pos hw hd
  refine ⟨p / (w * d), p % (w * d) / d, p % (w * d) % d, ?_, ?_, Nat.mod_lt _ hd, ?_⟩
  · rw [Nat.div_lt_iff_lt_mul hwd]; rw [Nat.mul_assoc] at hp; exact hp
  · rw [Nat.div_lt_iff_lt_mul hd]; exact Nat.mod_lt _ hwd
  · have e1 := Nat.div_add_mod p (w * d)
    have e2 := Nat.div_add_mod (p % (w * d)) d
    have e3 : p / (w * d) * w * d = w * d * (p / (w * d)) := by ring
    have e4 : p % (w * d) / d * d = d * (p % (w * d) / d) := by ring
    omega

theorem roundTrip_once (jt : Nat → Nat → Nat → Byte) (jb : Nat → Byte)
    (image : Image) (buf : List Byte) (h w d : Nat)
    (hh : image.height = h) (hw : image.width = w) (hd : image.depth = d)
    (h1 : 1 ≤ h) (hsize : h * w * d ≤ 2147483647)
    (hb : image.bmp_buffer = Ptr.live buf) (hlen : buf.length = h * w * d) :
    ∃ t, (convertToMatrix jt image).bind (convertToBuffer jb)
      = some { image with bmp_size := h * w * d, bmp_buffer := Ptr.live buf,
                          channels := Ptr.live t } := by
  obtain ⟨t, hrun, hshape, hcells⟩ :=
    convertToMatrix_spec jt image buf d h w hh hw hd hb hlen (by omega)
  have hring : d * w * h = h * w * d := by ring
  have hdw : d * w ≤ d * w * h := Nat.le_mul_of_pos_right _ (by omega)
  obtain ⟨buf', hrun', hlen', hcells'⟩ :=
    convertToBuffer_spec jb { image with bmp_buffer := Ptr.freed, channels := Ptr.live t }
      t d h w hh hw hd rfl hshape (by omega) (by omega)
  have hbuf : buf' = buf := by
    apply List.ext_getElem?
    intro p
    by_cases hp : p < h * w * d
    · obtain ⟨y, x, c, hy, hx, hc, rfl⟩ := slot_decompose h w d p hp
      rw [hcells' y x c hy hx hc, hcells c y x hc hy hx]
      congr 1
      omega
    · rw [List.getElem?_eq_none (by omega), List.getElem?_eq_none (by omega)]
  refine ⟨t, ?_⟩
  rw [hrun, Option.some_bind, hrun', hbuf, hring]

theorem zeroTensor_shape (d h w : Nat) : HasShape (zeroTensor d h w) d h w := by
  refine ⟨List.length_replicate _ _, ?_⟩
  intro ch hch
  obtain rfl := (List.mem_replicate.mp hch).2
  refine ⟨List.length_replicate _ _, ?_⟩
  intro row hrow
  obtain rfl := (List.mem_replicate.mp hrow).2
  exact List.length_replicate _ _

/-! ## Lemmas: strings, directory loops, sorting -/

theorem readCStr_bytes (s : CStr) (rest : CharBlock) :
    readCStr ((cstrBytes s).map some ++ rest) = some s := by
  induction s with
  | nil => simp [cstrBytes, readCStr]
  | cons a s ih =>
    have ha : 0 < (a : Nat) := a.pos
    have e : (cstrBytes (a :: s)).map some ++ rest
        = some (a : Nat) :: ((cstrBytes s).map some ++ rest) := by simp [cstrBytes]
    rw [e, readCStr, dif_pos ha, ih]
    rfl

theorem readCStr_append (s1 s2 : CStr) :
    readCStr ((s1.map PNat.val).map some ++ (cstrBytes s2).map some) = some (s1 ++ s2) := by
  have := readCStr_bytes (s1 ++ s2) []
  simpa [cstrBytes] using this

theorem concat_block_eq (s1 s2 : CStr) :
    concat.block s1 s2 = some ((s1.map PNat.val).map some ++ (cstrBytes s2).map some) := by
  have l1 : (s1.map PNat.val).length = strlen s1 := by simp [strlen]
  have l2 : (cstrBytes s2).length = strlen s2 + 1 := by simp [cstrBytes, strlen]
  have h1 : memcpy (mallocChars (strlen s1 + strlen s2 + 1)) 0 (cstrBytes s1) (strlen s1)
      = some ((s1.map PNat.val).map some ++ mallocChars (strlen s2 + 1)) := by
    unfold memcpy
    rw [if_pos ⟨by simp [mallocChars]; omega, by simp [cstrBytes, strlen]⟩]
    have e1 : (cstrBytes s1).take (strlen s1) = s1.map PNat.val := by
      unfold cstrBytes; exact List.take_left' l1
    have e2 : (mallocChars (strlen s1 + strlen s2 + 1)).drop (0 + strlen s1)
        = mallocChars (strlen s2 + 1) := by
      unfold mallocChars
      rw [List.drop_replicate]
      congr 1
      omega
    rw [e1, e2, List.take_zero, List.nil_append]
  have l3 : ((s1.map PNat.val).map some).length = strlen s1 := by simp [strlen]
  have h2 : memcpy ((s1.map PNat.val).map some ++ mallocChars (strlen s2 + 1)) (strlen s1)
      (cstrBytes s2) (strlen s2 + 1)
      = some ((s1.map PNat.val).map some ++ (cstrBytes s2).map some) := by
    unfold memcpy
    rw [if_pos ⟨by simp [mallocChars, strlen], by omega⟩]
    have e1 : (cstrBytes s2).take (strlen s2 + 1) = cstrBytes s2 :=
      List.take_of_length_le (by omega)
    have e2 : ((s1.map PNat.val).map some ++ mallocChars (strlen s2 + 1)).take (strlen s1)
        = (s1.map PNat.val).map some := List.take_left' l3
    have e3 : ((s1.map PNat.val).map some ++ mallocChars (strlen s2 + 1)).drop
        (strlen s1 + (strlen s2 + 1)) = [] :=
      List.drop_of_length_le (by simp [mallocChars, strlen])
    rw [e1, e2, e3, List.append_nil]
  simp only [concat.block, h1, h2, Option.bind_eq_bind, Option.some_bind]

theorem concat_eq (s1 s2 : CStr) : concat s1 s2 = some (s1 ++ s2) := by
  simp only [concat, concat_block_eq, Option.bind_eq_bind, Option.some_bind, readCStr_append]

theorem strcmp_self (a : CStr) : strcmp a a = 0 := by
  induction a with
  | nil => rfl
  | cons x xs ih => simp [strcmp, ih]

theorem strcmp_eq_zero (a b : CStr) : strcmp a b = 0 ↔ a = b := by
  constructor
  · induction a generalizing b with
    | nil =>
      cases b with
      | nil => intro _; rfl
      | cons y ys =>
        intro h
        have := y.pos
        simp only [strcmp] at h
        omega
    | cons x xs ih =>
      cases b with
      | nil =>
        intro h
        have := x.pos
        simp only [strcmp] at h
        omega
      | cons y ys =>
        intro h
        simp only [strcmp] at h
        split_ifs at h with hxy
        · rw [hxy, ih ys h]
        · exfalso
          apply hxy
          apply PNat.eq
          omega
  · rintro rfl
    exact strcmp_self a

theorem strcmp_neg_iff (a b : CStr) : strcmp a b < 0 ↔ List.Lex (· < ·) a b := by
  induction a generalizing b with
  | nil =>
    cases b with
    | nil => simp [strcmp]
    | cons y ys =>
      have := y.pos
      simp only [strcmp]
      constructor
      · intro _; exact List.Lex.nil
      · intro _; omega
  | cons x xs ih =>
    cases b with
    | nil =>
      have := x.pos
      simp only [strcmp]
      constructor
      · intro h; omega
      · intro h; cases h
    | cons y ys =>
      simp only [strcmp]
      split_ifs with hxy
      · subst hxy
        rw [ih ys]
        constructor
        · intro h; exact List.Lex.cons h
        · intro h
          cases h with
          | cons h => exact h
          | rel h => exact absurd h (lt_irrefl _)
      · constructor
        · intro h
          apply List.Lex.rel
          show (x : Nat) < (y : Nat)
          omega
        · intro h
          cases h with
          | cons h => exact absurd rfl hxy
          | rel h =>
            have : (x : Nat) < (y : Nat) := h
            omega

theorem strcmp_le_iff (a b : CStr) : strcmp a b ≤ 0 ↔ a = b ∨ List.Lex (· < ·) a b := by
  rw [← strcmp_neg_iff, ← strcmp_eq_zero]
  omega

theorem isCurrentOrParentFolder_iff (de : Dirent) :
    isCurrentOrParentFolder de = true ↔ de.d_name = dot ∨ de.d_name = dotdot := by
  simp [isCurrentOrParentFolder, strcmp_eq_zero]

theorem visible_cons_skip (de : Dirent) (es : List Dirent)
    (h : isCurrentOrParentFolder de = true) : visible (de :: es) = visible es := by
  simp [visible, h]

theorem visible_cons_keep (de : Dirent) (es : List Dirent)
    (h : isCurrentOrParentFolder de = false) : visible (de :: es) = de :: visible es := by
  simp [visible, h]

theorem count_inner_loop (es : List Dirent) (c : Nat) (hc : c < 4294967296) :
    readdirLoop getFileCount.inner es c = some ((c + (visible es).length) % 4294967296) := by
  induction es generalizing c with
  | nil => simp [readdirLoop, visible, Nat.mod_eq_of_lt hc]
  | cons de es ih =>
    cases hd : isCurrentOrParentFolder de with
    | true =>
      simp only [readdirLoop, getFileCount.inner, hd, if_true, visible_cons_skip de es hd]
      exact ih c hc
    | false =>
      simp only [readdirLoop, getFileCount.inner, hd, visible_cons_keep de es hd,
        List.length_cons, Bool.false_eq_true, if_false]
      rw [ih (uintSucc c) (by unfold uintSucc; omega)]
      unfold uintSucc
      congr 1
      omega

theorem count_outer_loop (fs : FileSystem) (path : CStr) (es : List Dirent) (c : Nat)
    (hc : c < 4294967296) (hopen : innerOpen fs path es) :
    readdirLoop (getFileCount.outer fs path) es c
      = some ((c + innerTotal fs path es) % 4294967296) := by
  induction es generalizing c with
  | nil => simp [readdirLoop, innerTotal, visible, Nat.mod_eq_of_lt hc]
  | cons de es ih =>
    cases hd : isCurrentOrParentFolder de with
    | true =>
      have hv := visible_cons_skip de es hd
      simp only [readdirLoop, getFileCount.outer, hd, if_true]
      rw [ih c hc (by simpa [innerOpen, hv] using hopen)]
      simp [innerTotal, hv]
    | false =>
      have hv := visible_cons_keep de es hd
      have hopen' : innerOpen fs path es := fun e he => hopen e (by rw [hv]; exact List.mem_cons_of_mem _ he)
      have hde : fs (path ++ de.d_name) ≠ none := hopen de (by rw [hv]; exact List.mem_cons_self _ _)
      obtain ⟨inner, hinner⟩ := Option.ne_none_iff_exists'.mp hde
      simp only [readdirLoop, getFileCount.outer, hd, concat_eq, Option.bind_eq_bind,
        Option.some_bind, hinner, whileReaddir, count_inner_loop inner c hc,
        Bool.false_eq_true, if_false]
      rw [ih _ (Nat.mod_lt _ (by decide)) hopen']
      simp only [innerTotal, hv, List.map_cons, List.sum_cons, innerEntries, hinner]
      congr 1
      omega

theorem count_outer_loop_closed (fs : FileSystem) (path : CStr) (es : List Dirent) (c : Nat)
    (hopen : ¬ innerOpen fs path es) :
    readdirLoop (getFileCount.outer fs path) es c = none := by
  induction es generalizing c with
  | nil => exact absurd (fun e he => by simp [visible] at he) hopen
  | cons de es ih =>
    cases hd : isCurrentOrParentFolder de with
    | true =>
      have hv := visible_cons_skip de es hd
      simp only [readdirLoop, getFileCount.outer, hd, if_true]
      exact ih c (by simpa [innerOpen, hv] using hopen)
    | false =>
      have hv := visible_cons_keep de es hd
      simp only [readdirLoop, getFileCount.outer, hd, concat_eq, Option.bind_eq_bind,
        Option.some_bind, Bool.false_eq_true, if_false]
      cases hinner : fs (path ++ de.d_name) with
      | none => simp [whileReaddir]
      | some inner =>
        cases hrun : whileReaddir (some inner) getFileCount.inner c with
        | none => rfl
        | some c' =>
          apply ih
          intro hall
          apply hopen
          intro e he
          rw [hv] at he
          rcases List.mem_cons.mp he with rfl | he
          · simp [hinner]
          · exact hall e he

theorem slots_length (written : List CStr) (r : Nat) :
    (slots written r).length = written.length + r := by
  simp [slots]

theorem slots_set (written : List CStr) (r : Nat) (p : CStr) :
    (slots written (r + 1)).set written.length (Ptr.live p) = slots (written ++ [p]) r := by
  induction written with
  | nil => simp [slots, List.replicate_succ]
  | cons a l ih =>
    simp only [slots, List.map_cons, List.cons_append, List.length_cons, List.set_cons_succ,
      List.map_append, List.map_nil, List.append_assoc] at ih ⊢
    rw [ih]

theorem list_inner_loop (innerPath : CStr) (es : List Dirent) (written : List CStr) (r : Nat)
    (hL : written.length + r < 4294967296) :
    readdirLoop (getFileList.inner innerPath) es (slots written r, written.length)
      = if (visible es).length ≤ r then
          some (slots (written ++ (visible es).map fun f => innerPath ++ slash ++ f.d_name)
              (r - (visible es).length),
            written.length + (visible es).length)
        else none := by
  induction es generalizing written r with
  | nil => simp [readdirLoop, visible]
  | cons de es ih =>
    cases hd : isCurrentOrParentFolder de with
    | true =>
      simp only [readdirLoop, getFileList.inner, hd, if_true, visible_cons_skip de es hd]
      exact ih written r hL
    | false =>
      simp only [readdirLoop, getFileList.inner, hd, visible_cons_keep de es hd,
        List.length_cons, Bool.false_eq_true, if_false, concat_eq, Option.bind_eq_bind,
        Option.some_bind, writeAt, slots_length]
      cases r with
      | zero => simp
      | succ r' =>
        have hsucc : uintSucc written.length = (written ++ [innerPath ++ slash ++ de.d_name]).length := by
          unfold uintSucc
          rw [Nat.mod_eq_of_lt (by omega)]
          simp
        rw [if_pos (by omega)]
        simp only [Option.some_bind, Option.pure_def, slots_set, hsucc]
        rw [ih _ r' (by simp; omega)]
        by_cases hk : (visible es).length ≤ r'
        · rw [if_pos hk, if_pos (by omega)]
          simp [Nat.add_assoc, Nat.add_comm 1]
        · rw [if_neg hk, if_neg (by omega)]

theorem list_outer_loop (fs : FileSystem) (path : CStr) (es : List Dirent)
    (written : List CStr) (r : Nat) (hL : written.length + r < 4294967296)
    (hopen : innerOpen fs path es) :
    readdirLoop (getFileList.outer fs path) es (slots written r, written.length)
      = if innerTotal fs path es ≤ r then
          some (slots (written ++ innerPaths fs path es) (r - innerTotal fs path es),
            written.length + innerTotal fs path es)
        else none := by
  induction es generalizing written r with
  | nil => simp [readdirLoop, visible, innerTotal, innerPaths]
  | cons de es ih =>
    cases hd : isCurrentOrParentFolder de with
    | true =>
      have hv := visible_cons_skip de es hd
      simp only [readdirLoop, getFileList.outer, hd, if_true]
      rw [ih written r hL (by simpa [innerOpen, hv] using hopen)]
      simp [innerTotal, innerPaths, hv]
    | false =>
      have hv := visible_cons_keep de es hd
      have hopen' : innerOpen fs path es :=
        fun e he => hopen e (by rw [hv]; exact List.mem_cons_of_mem _ he)
      have hde : fs (path ++ de.d_name) ≠ none :=
        hopen de (by rw [hv]; exact List.mem_cons_self _ _)
      obtain ⟨inner, hinner⟩ := Option.ne_none_iff_exists'.mp hde
      have hT : innerTotal fs path (de :: es) = (visible inner).length + innerTotal fs path es := by
        simp [innerTotal, hv, innerEntries, hinner]
      have hC : innerPaths fs path (de :: es)
          = ((visible inner).map fun f => path ++ de.d_name ++ slash ++ f.d_name)
            ++ innerPaths fs path es := by
        simp [innerPaths, hv, innerEntries, hinner]
      simp only [readdirLoop, getFileList.outer, hd, concat_eq, Option.bind_eq_bind,
        Option.some_bind, hinner, whileReaddir, Bool.false_eq_true, if_false,
        list_inner_loop _ inner written r hL]
      by_cases hk : (visible inner).length ≤ r
      · rw [if_pos hk]
        have hlen : written.length + (visible inner).length
            = (written ++ (visible inner).map fun f => path ++ de.d_name ++ slash ++ f.d_name).length := by
          simp
        simp only [hlen]
        rw [ih _ (r - (visible inner).length) (by simp; omega) hopen', hT, hC]
        by_cases hk2 : innerTotal fs path es ≤ r - (visible inner).length
        · rw [if_pos hk2, if_pos (by omega)]
          simp only [List.append_assoc, List.length_append, List.length_map, Option.some.injEq,
            Prod.mk.injEq]
          constructor
          · congr 1; omega
          · omega
        · rw [if_neg hk2, if_neg (by omega)]
      · rw [if_neg hk, hT, if_neg (by omega)]

theorem list_outer_loop_closed (fs : FileSystem) (path : CStr) (es : List Dirent)
    (s : List (Ptr CStr) × Nat) (hopen : ¬ innerOpen fs path es) :
    readdirLoop (getFileList.outer fs path) es s = none := by
  induction es generalizing s with
  | nil => exact absurd (fun e he => by simp [visible] at he) hopen
  | cons de es ih =>
    cases hd : isCurrentOrParentFolder de with
    | true =>
      have hv := visible_cons_skip de es hd
      simp only [readdirLoop, getFileList.outer, hd, if_true]
      exact ih s (by simpa [innerOpen, hv] using hopen)
    | false =>
      have hv := visible_cons_keep de es hd
      simp only [readdirLoop, getFileList.outer, hd, concat_eq, Option.bind_eq_bind,
        Option.some_bind, Bool.false_eq_true, if_false]
      cases hinner : fs (path ++ de.d_name) with
      | none => simp [whileReaddir]
      | some inner =>
        cases hrun : whileReaddir (some inner) (getFileList.inner (path ++ de.d_name)) s with
        | none => rfl
        | some c' =>
          apply ih
          intro hall
          apply hopen
          intro e he
          rw [hv] at he
          rcases List.mem_cons.mp he with rfl | he
          · simp [hinner]
          · exact hall e he

theorem precedes_iff (a b : CStr) : precedes a b ↔ a = b ∨ List.Lex (· < ·) a b :=
  strcmp_le_iff a b

instance precedes_isTotal : IsTotal CStr precedes where
  total a b := by
    rw [precedes_iff, precedes_iff]
    rcases trichotomous_of (List.Lex (· < · : ℕ+ → ℕ+ → Prop)) a b with h | h | h
    · exact Or.inl (Or.inr h)
    · exact Or.inl (Or.inl h)
    · exact Or.inr (Or.inr h)

instance precedes_isTrans : IsTrans CStr precedes where
  trans a b c hab hbc := by
    rw [precedes_iff] at hab hbc ⊢
    rcases hab with rfl | hab
    · exact hbc
    · rcases hbc with rfl | hbc
      · exact Or.inr hab
      · exact Or.inr (IsTrans.trans a b c hab hbc)

instance precedes_isAntisymm : IsAntisymm CStr precedes where
  antisymm a b hab hba := by
    rw [precedes_iff] at hab hba
    rcases hab with rfl | hab
    · rfl
    · rcases hba with rfl | hba
      · rfl
      · exact absurd (IsTrans.trans a b a hab hba) (irrefl_of (List.Lex (· < · : ℕ+ → ℕ+ → Prop)) a)

theorem compare_live (a b : CStr) : compare (Ptr.live a) (Ptr.live b) = some (strcmp a b) := rfl

theorem qsort_insert_live (x : CStr) (l : List CStr) :
    qsort.insert compare (Ptr.live x) (l.map Ptr.live)
      = some ((l.orderedInsert precedes x).map Ptr.live) := by
  induction l with
  | nil => rfl
  | cons y ys ih =>
    simp only [List.map_cons, qsort.insert, compare_live, List.orderedInsert]
    by_cases h : strcmp x y ≤ 0
    · rw [if_pos h, if_pos (show precedes x y from h)]
      rfl
    · rw [if_neg h, if_neg (show ¬ precedes x y from h), ih]
      rfl

theorem qsort_sort_live (l : List CStr) :
    qsort.sort compare (l.map Ptr.live) = some ((l.insertionSort precedes).map Ptr.live) := by
  induction l with
  | nil => rfl
  | cons x xs ih =>
    simp only [List.map_cons, qsort.sort, ih, List.insertionSort, qsort_insert_live]

theorem qsort_live (l : List CStr) :
    qsort (l.map Ptr.live) l.length compare
      = some ((l.insertionSort precedes).map Ptr.live) := by
  unfold qsort
  rw [if_pos (by simp)]
  have e1 : (l.map Ptr.live).take l.length = l.map (Ptr.live : CStr → Ptr CStr) :=
    List.take_of_length_le (by simp)
  have e2 : (l.map (Ptr.live : CStr → Ptr CStr)).drop l.length = [] :=
    List.drop_of_length_le (by simp)
  rw [e1, e2, qsort_sort_live]
  simp

theorem getFileCount_open (fs : FileSystem) (path : CStr) (es : List Dirent)
    (hroot : fs path = some es) (hopen : innerOpen fs path es) :
    getFileCount fs path = some (innerTotal fs path es % 4294967296) := by
  simp only [getFileCount, hroot]
  rw [count_outer_loop fs path es 0 (by decide) hopen]
  simp

theorem getFileCount_closed (fs : FileSystem) (path : CStr) (es : List Dirent)
    (hroot : fs path = some es) (hopen : ¬ innerOpen fs path es) :
    getFileCount fs path = none := by
  simp only [getFileCount, hroot]
  exact count_outer_loop_closed fs path es 0 hopen

theorem traverse_eq (fs : FileSystem) (path : CStr) (es : List Dirent)
    (hroot : fs path = some es) (hopen : innerOpen fs path es)
    (hN : innerTotal fs path es < 4294967296) :
    getFileList.traverse fs path
      = some ({ length := innerTotal fs path es,
                list := (innerPaths fs path es).map Ptr.live },
              innerTotal fs path es) := by
  have h0 : (List.replicate (innerTotal fs path es) Ptr.wild, 0)
      = (slots [] (innerTotal fs path es), ([] : List CStr).length) := by simp [slots]
  simp only [getFileList.traverse, getFileCount_open fs path es hroot hopen,
    Nat.mod_eq_of_lt hN, Option.bind_eq_bind, Option.some_bind, hroot, whileReaddir]
  rw [h0, list_outer_loop fs path es [] _ (by simpa using hN) hopen, if_pos (le_refl _)]
  simp [slots]

theorem traverse_overflow (fs : FileSystem) (path : CStr) (es : List Dirent)
    (hroot : fs path = some es) (hopen : innerOpen fs path es)
    (hN : 4294967296 ≤ innerTotal fs path es) :
    getFileList.traverse fs path = none := by
  have h0 : (List.replicate (innerTotal fs path es % 4294967296) Ptr.wild, 0)
      = (slots [] (innerTotal fs path es % 4294967296), ([] : List CStr).length) := by
    simp [slots]
  have hlt : innerTotal fs path es % 4294967296 < 4294967296 := Nat.mod_lt _ (by decide)
  simp only [getFileList.traverse, getFileCount_open fs path es hroot hopen,
    Option.bind_eq_bind, Option.some_bind, hroot, whileReaddir]
  rw [h0, list_outer_loop fs path es [] _ (by simpa using hlt) hopen, if_neg (by omega)]
  rfl

theorem traverse_closed (fs : FileSystem) (path : CStr) (es : List Dirent)
    (hroot : fs path = some es) (hopen : ¬ innerOpen fs path es) :
    getFileList.traverse fs path = none := by
  simp [getFileList.traverse, getFileCount_closed fs path es hroot hopen]

theorem traverse_no_root (fs : FileSystem) (path : CStr) (hroot : fs path = none) :
    getFileList.traverse fs path = none := by
  simp [getFileList.traverse, getFileCount, hroot, whileReaddir]

theorem innerPaths_length (fs : FileSystem) (path : CStr) (es : List Dirent) :
    (innerPaths fs path es).length = innerTotal fs path es := by
  unfold innerPaths innerTotal
  induction visible es with
  | nil => rfl
  | cons de l ih =>
    rw [List.flatMap_cons, List.length_append, ih, List.map_cons, List.sum_cons,
      List.length_map]

theorem getFileList_eq (fs : FileSystem) (path : CStr) (es : List Dirent)
    (hroot : fs path = some es) (hopen : innerOpen fs path es)
    (hN : innerTotal fs path es < 4294967296) :
    getFileList fs path
      = some { length := innerTotal fs path es,
               list := ((innerPaths fs path es).insertionSort precedes).map Ptr.live } := by
  have hlen := innerPaths_length fs path es
  simp only [getFileList, traverse_eq fs path es hroot hopen hN, Option.bind_eq_bind,
    Option.some_bind]
  rw [← hlen, qsort_live]
  rfl

theorem traverse_some (fs : FileSystem) (path : CStr) (r : Filelist × Nat)
    (h : getFileList.traverse fs path = some r) :
    ∃ es, fs path = some es ∧ innerOpen fs path es ∧ innerTotal fs path es < 4294967296 := by
  cases hroot : fs path with
  | none => rw [traverse_no_root fs path hroot] at h; cases h
  | some es =>
    refine ⟨es, rfl, ?_, ?_⟩
    · by_contra hopen
      rw [traverse_closed fs path es hroot hopen] at h; cases h
    · by_contra hN
      have hopen : innerOpen fs path es := by
        by_contra hopen
        rw [traverse_closed fs path es hroot hopen] at h; cases h
      rw [traverse_overflow fs path es hroot hopen (by omega)] at h; cases h


theorem visible_map_numbered (l : List Nat) : visible (l.map numbered) = l.map numbered := by
  unfold visible
  rw [List.filter_eq_self]
  intro a ha
  obtain ⟨n, _, rfl⟩ := List.mem_map.mp ha
  simp [isCurrentOrParentFolder, numbered, strcmp, dot, dotdot]

theorem hugeFs_root : hugeFs (cstr "r/") = some [entry "d"] := by decide

theorem hugeFs_inner :
    hugeFs (cstr "r/" ++ (entry "d").d_name)
      = some ((List.range 4294967296).map numbered) := by
  unfold hugeFs
  rw [if_neg (by decide), if_pos (by decide)]

theorem hugeFs_innerOpen : innerOpen hugeFs (cstr "r/") [entry "d"] := by
  intro de hde
  have hv : visible [entry "d"] = [entry "d"] := by decide
  rw [hv, List.mem_singleton] at hde
  rw [hde, hugeFs_inner]
  exact Option.some_ne_none _

theorem hugeFs_total : innerTotal hugeFs (cstr "r/") [entry "d"] = 4294967296 := by
  have hv : visible [entry "d"] = [entry "d"] := by decide
  unfold innerTotal
  rw [hv, List.map_singleton, List.sum_singleton]
  unfold innerEntries
  rw [hugeFs_inner]
  show (visible ((List.range 4294967296).map numbered)).length = 4294967296
  rw [visible_map_numbered, List.length_map, List.length_range]

theorem innerTotal_congr (fs fs' : FileSystem) (path : CStr) (es : List Dirent)
    (h : ∀ de ∈ es, fs' (path ++ de.d_name) = fs (path ++ de.d_name)) :
    innerTotal fs' path es = innerTotal fs path es := by
  unfold innerTotal
  congr 1
  apply List.map_congr_left
  intro de hde
  have hmem : de ∈ es := (List.mem_filter.mp hde).1
  simp only [innerEntries, h de hmem]

theorem innerOpen_congr (fs fs' : FileSystem) (path : CStr) (es : List Dirent)
    (h : ∀ de ∈ es, fs' (path ++ de.d_name) = fs (path ++ de.d_name))
    (hopen : innerOpen fs path es) : innerOpen fs' path es := by
  intro de hde
  have hmem : de ∈ es := (List.mem_filter.mp hde).1
  rw [h de hmem]
  exact hopen de hde

/-! ## Lemmas: paths, traversal order, release -/

theorem mem_innerPaths (fs : FileSystem) (path : CStr) (es : List Dirent) (p : CStr)
    (hp : p ∈ innerPaths fs path es) :
    ∃ de ∈ visible es, ∃ inner, fs (path ++ de.d_name) = some inner ∧
      ∃ f ∈ visible inner, p = path ++ de.d_name ++ slash ++ f.d_name := by
  unfold innerPaths at hp
  obtain ⟨de, hde, hp⟩ := List.mem_flatMap.mp hp
  obtain ⟨f, hf, rfl⟩ := List.mem_map.mp hp
  unfold innerEntries at hf
  cases hinner : fs (path ++ de.d_name) with
  | none => rw [hinner] at hf; cases hf
  | some inner =>
    rw [hinner] at hf
    exact ⟨de, hde, inner, hinner, f, hf, rfl⟩

theorem getFileList_some (fs : FileSystem) (path : CStr) (fl : Filelist)
    (h : getFileList fs path = some fl) :
    ∃ es, fs path = some es ∧ innerOpen fs path es ∧ innerTotal fs path es < 4294967296 := by
  cases htrav : getFileList.traverse fs path with
  | none => simp [getFileList, htrav] at h
  | some r => exact traverse_some fs path r htrav

theorem innerEntries_perm (fs fs' : FileSystem) (path : CStr) (de : Dirent)
    (h : (fs (path ++ de.d_name) = none ∧ fs' (path ++ de.d_name) = none) ∨
      ∃ inner inner', fs (path ++ de.d_name) = some inner ∧
        fs' (path ++ de.d_name) = some inner' ∧ inner.Perm inner') :
    (innerEntries fs path de).Perm (innerEntries fs' path de) := by
  rcases h with ⟨h1, h2⟩ | ⟨inner, inner', h1, h2, hp⟩
  · simp [innerEntries, h1, h2]
  · simp only [innerEntries, h1, h2, visible]
    exact hp.filter _

theorem innerPaths_perm (fs fs' : FileSystem) (path : CStr) (es es' : List Dirent)
    (hperm : es.Perm es')
    (hinner : ∀ de ∈ es,
      (fs (path ++ de.d_name) = none ∧ fs' (path ++ de.d_name) = none) ∨
      ∃ inner inner', fs (path ++ de.d_name) = some inner ∧
        fs' (path ++ de.d_name) = some inner' ∧ inner.Perm inner') :
    (innerPaths fs path es).Perm (innerPaths fs' path es') := by
  unfold innerPaths
  have hv : (visible es).Perm (visible es') := hperm.filter _
  refine (List.Perm.flatMap_left (visible es) ?_).trans (List.Perm.flatMap_right _ hv)
  intro de hde
  have hmem : de ∈ es := (List.mem_filter.mp hde).1
  exact (innerEntries_perm fs fs' path de (hinner de hmem)).map _

theorem innerOpen_perm (fs fs' : FileSystem) (path : CStr) (es es' : List Dirent)
    (hperm : es.Perm es')
    (hinner : ∀ de ∈ es,
      (fs (path ++ de.d_name) = none ∧ fs' (path ++ de.d_name) = none) ∨
      ∃ inner inner', fs (path ++ de.d_name) = some inner ∧
        fs' (path ++ de.d_name) = some inner' ∧ inner.Perm inner')
    (hopen : innerOpen fs path es) : innerOpen fs' path es' := by
  intro de hde
  have hv : (visible es).Perm (visible es') := hperm.filter _
  have hde' : de ∈ visible es := hv.symm.subset hde
  have hmem : de ∈ es := (List.mem_filter.mp hde').1
  rcases hinner de hmem with ⟨h1, _⟩ | ⟨inner, inner', _, h2, _⟩
  · exact absurd h1 (hopen de hde')
  · rw [h2]; exact Option.some_ne_none _

theorem datasetFs_inner_perm :
    ∀ de ∈ [entry ".", entry "b", entry "..", entry "a"],
      (datasetFs (cstr "data/" ++ de.d_name) = none ∧
        datasetFsReordered (cstr "data/" ++ de.d_name) = none) ∨
      ∃ inner inner', datasetFs (cstr "data/" ++ de.d_name) = some inner ∧
        datasetFsReordered (cstr "data/" ++ de.d_name) = some inner' ∧
        inner.Perm inner' := by
  intro de hde
  simp only [List.mem_cons, List.mem_singleton, List.not_mem_nil, or_false] at hde
  rcases hde with rfl | rfl | rfl | rfl
  · exact Or.inl (by decide)
  · exact Or.inr ⟨[entry "2.jpg", entry ".", entry ".."],
      [entry "..", entry ".", entry "2.jpg"], by decide, by decide, by decide⟩
  · exact Or.inl (by decide)
  · exact Or.inr ⟨[entry "..", entry "1.jpg", entry ".", entry "2.jpg"],
      [entry "2.jpg", entry "1.jpg", entry ".", entry ".."], by decide, by decide, by decide⟩

theorem mem_visible_iff (es : List Dirent) (de : Dirent) :
    de ∈ visible es ↔ de ∈ es ∧ de.d_name ≠ dot ∧ de.d_name ≠ dotdot := by
  unfold visible
  rw [List.mem_filter]
  have h := isCurrentOrParentFolder_iff de
  constructor
  · rintro ⟨hmem, hv⟩
    refine ⟨hmem, ?_, ?_⟩
    · intro hd
      rw [h.mpr (Or.inl hd)] at hv
      cases hv
    · intro hd
      rw [h.mpr (Or.inr hd)] at hv
      cases hv
  · rintro ⟨hmem, h1, h2⟩
    refine ⟨hmem, ?_⟩
    cases hc : isCurrentOrParentFolder de with
    | false => rfl
    | true =>
      rcases h.mp hc with hd | hd
      · exact absurd hd h1
      · exact absurd hd h2

theorem innerPaths_mem (fs : FileSystem) (path : CStr) (es inner : List Dirent)
    (de f : Dirent) (hde : de ∈ visible es) (hinner : fs (path ++ de.d_name) = some inner)
    (hf : f ∈ visible inner) :
    path ++ de.d_name ++ slash ++ f.d_name ∈ innerPaths fs path es := by
  unfold innerPaths
  rw [List.mem_flatMap]
  refine ⟨de, hde, ?_⟩
  rw [List.mem_map]
  exact ⟨f, by simpa [innerEntries, hinner] using hf, rfl⟩

theorem list_ext_of_getElem? {α : Type} (l l' : List α) (hl : l.length = l'.length)
    (h : ∀ i, i < l.length → l[i]? = l'[i]?) : l = l' := by
  apply List.ext_getElem?
  intro i
  by_cases hi : i < l.length
  · exact h i hi
  · rw [List.getElem?_eq_none (by omega), List.getElem?_eq_none (by omega)]

theorem tensor_ext (t t' : Tensor) (d h w : Nat) (hs : HasShape t d h w)
    (hs' : HasShape t' d h w)
    (hcells : ∀ k i j, k < d → i < h → j < w → readCell t' k i j = readCell t k i j) :
    t' = t := by
  obtain ⟨hl, hch⟩ := hs
  obtain ⟨hl', hch'⟩ := hs'
  apply list_ext_of_getElem? t' t (by omega)
  intro k hk
  have hk1 : k < t.length := by omega
  rw [List.getElem?_eq_getElem hk, List.getElem?_eq_getElem hk1]
  congr 1
  have c1 := hch t[k] (List.getElem_mem hk1)
  have c1' := hch' t'[k] (List.getElem_mem hk)
  apply list_ext_of_getElem? _ _ (by omega)
  intro i hi
  have hi1 : i < t[k].length := by omega
  rw [List.getElem?_eq_getElem hi, List.getElem?_eq_getElem hi1]
  congr 1
  have r1 := c1.2 t[k][i] (List.getElem_mem hi1)
  have r1' := c1'.2 t'[k][i] (List.getElem_mem hi)
  apply list_ext_of_getElem? _ _ (by omega)
  intro j hj
  have := hcells k i j (by omega) (by omega) (by omega)
  simpa [readCell, List.getElem?_eq_getElem hk, List.getElem?_eq_getElem hk1,
    List.getElem?_eq_getElem hi, List.getElem?_eq_getElem hi1] using this

theorem forFrom_log (image : Image) (body : Nat → Image × List Block → Option (Image × List Block))
    (g : Nat → List Block) (n : Nat)
    (hbody : ∀ m log, m < n → body m (image, log) = some (image, log ++ g m))
    (log0 : List Block) :
    forFrom body n 0 (image, log0) = some (image, log0 ++ (List.range n).flatMap g) := by
  obtain ⟨s', hs', hI⟩ := forFrom_inv body
    (fun m s => s = (image, log0 ++ (List.range m).flatMap g)) n 0 (image, log0)
    (by simp)
    (fun m t _ hm hI => by
      subst hI
      refine ⟨_, hbody m _ (by omega), ?_⟩
      show (image, log0 ++ (List.range m).flatMap g ++ g m)
        = (image, log0 ++ (List.range (m + 1)).flatMap g)
      rw [List.range_succ, List.flatMap_append]
      simp)
  rw [hs', hI]
  simp

theorem freeImageChannels_row_loop (image : Image) (t : Tensor) (d h w i : Nat)
    (hh : image.height = h) (ht : image.channels = Ptr.live t) (hshape : HasShape t d h w)
    (hi : i < d) (log : List Block) :
    freeImageChannels.channel i (image, log)
      = some (image, log ++ channelBlocks h i) := by
  obtain ⟨hl, hch⟩ := hshape
  have hi' : i < t.length := by omega
  have hrow := hch t[i] (List.getElem_mem hi')
  have hloop : forLoop image.height (fun j s => freeImageChannels.row i j s) (image, log)
      = some (image, log ++ (List.range h).flatMap fun j => [Block.row i j]) := by
    simp only [forLoop, hh, Int.toNat_ofNat]
    apply forFrom_log image _ (fun j => [Block.row i j]) h
    intro m log' hm
    have hm' : m < t[i].length := by omega
    simp [freeImageChannels.row, ht, Ptr.deref, List.getElem?_eq_getElem hi',
      List.getElem?_eq_getElem hm']
  have hflat : ((List.range h).flatMap fun j => [Block.row i j])
      = (List.range h).map (Block.row i) := by
    induction List.range h with
    | nil => rfl
    | cons a l ih => simp [ih]
  simp only [freeImageChannels.channel, hloop, Option.bind_eq_bind, Option.some_bind, ht,
    Ptr.deref, List.getElem?_eq_getElem hi', hflat, channelBlocks, Option.pure_def,
    List.append_assoc]

theorem freeImageChannels_eq (image : Image) (t : Tensor) (d h w : Nat)
    (hh : image.height = h) (hd : image.depth = d)
    (ht : image.channels = Ptr.live t) (hshape : HasShape t d h w) :
    freeImageChannels image
      = some ({ image with channels := Ptr.freed },
              tensorBlocks d h ++ [Block.channelArray]) := by
  have hloop : forLoop image.depth (fun i s => freeImageChannels.channel i s) (image, [])
      = some (image, [] ++ (List.range d).flatMap (channelBlocks h)) := by
    simp only [forLoop, hd, Int.toNat_ofNat]
    apply forFrom_log image _ (channelBlocks h) d
    intro m log hm
    exact freeImageChannels_row_loop image t d h w m hh ht hshape hm log
  simp only [freeImageChannels, hloop, Option.bind_eq_bind, Option.some_bind, ht, freeLogged,
    List.nil_append, tensorBlocks, Option.pure_def]

theorem mem_channelBlocks (h i : Nat) (b : Block) :
    b ∈ channelBlocks h i ↔ (∃ j, j < h ∧ b = Block.row i j) ∨ b = Block.channel i := by
  simp only [channelBlocks, List.mem_append, List.mem_map, List.mem_range, List.mem_singleton]
  constructor
  · rintro (⟨j, hj, rfl⟩ | rfl)
    · exact Or.inl ⟨j, hj, rfl⟩
    · exact Or.inr rfl
  · rintro (⟨j, hj, rfl⟩ | rfl)
    · exact Or.inl ⟨j, hj, rfl⟩
    · exact Or.inr rfl

theorem channelBlocks_nodup (h i : Nat) : (channelBlocks h i).Nodup := by
  unfold channelBlocks
  rw [List.nodup_append]
  refine ⟨(List.nodup_range h).map (fun a b hab => by injection hab), by simp, ?_⟩
  intro b hb hb'
  simp only [List.mem_map, List.mem_range] at hb
  obtain ⟨j, _, rfl⟩ := hb
  simp at hb'

theorem tensorBlocks_nodup (d h : Nat) : (tensorBlocks d h).Nodup := by
  unfold tensorBlocks
  rw [List.nodup_flatMap]
  refine ⟨fun i _ => channelBlocks_nodup h i, ?_⟩
  apply (List.nodup_range d).pairwise_of_forall_ne
  intro i _ i' _ hne
  intro b hb hb'
  rcases (mem_channelBlocks h i b).mp hb with ⟨j, _, rfl⟩ | rfl
  · rcases (mem_channelBlocks h i' _).mp hb' with ⟨j', _, heq⟩ | heq
    · injection heq with h1 _
      exact hne h1
    · cases heq
  · rcases (mem_channelBlocks h i' _).mp hb' with ⟨j', _, heq⟩ | heq
    · cases heq
    · injection heq with h1
      exact hne h1

theorem mem_tensorBlocks (d h : Nat) (b : Block) :
    b ∈ tensorBlocks d h ↔
      (∃ i j, i < d ∧ j < h ∧ b = Block.row i j) ∨ (∃ i, i < d ∧ b = Block.channel i) := by
  simp only [tensorBlocks, List.mem_flatMap, List.mem_range, mem_channelBlocks]
  constructor
  · rintro ⟨i, hi, ⟨j, hj, rfl⟩ | rfl⟩
    · exact Or.inl ⟨i, j, hi, hj, rfl⟩
    · exact Or.inr ⟨i, hi, rfl⟩
  · rintro (⟨i, j, hi, hj, rfl⟩ | ⟨i, hi, rfl⟩)
    · exact ⟨i, hi, Or.inl ⟨j, hj, rfl⟩⟩
    · exact ⟨i, hi, Or.inr rfl⟩

theorem freeImage_log_nodup (d h : Nat) :
    (tensorBlocks d h ++ [Block.channelArray] ++ [Block.path] ++ [Block.record]).Nodup := by
  have hn := tensorBlocks_nodup d h
  have h1 : Block.channelArray ∉ tensorBlocks d h := by
    intro hm
    rcases (mem_tensorBlocks d h _).mp hm with ⟨_, _, _, _, heq⟩ | ⟨_, _, heq⟩ <;> cases heq
  have h2 : Block.path ∉ tensorBlocks d h := by
    intro hm
    rcases (mem_tensorBlocks d h _).mp hm with ⟨_, _, _, _, heq⟩ | ⟨_, _, heq⟩ <;> cases heq
  have h3 : Block.record ∉ tensorBlocks d h := by
    intro hm
    rcases (mem_tensorBlocks d h _).mp hm with ⟨_, _, _, _, heq⟩ | ⟨_, _, heq⟩ <;> cases heq
  simp only [List.append_assoc, List.singleton_append]
  rw [List.nodup_append]
  refine ⟨hn, by simp, ?_⟩
  intro b hb hb'
  simp at hb'
  rcases hb' with rfl | rfl | rfl
  · exact h1 hb
  · exact h2 hb
  · exact h3 hb

theorem freeImage_not_live (image : Image) (hc : image.channels.deref = none)
    (hd : 1 ≤ image.depth) : freeImage image = none := by
  obtain ⟨n, hn⟩ : ∃ n : Nat, image.depth.toNat = n + 1 := ⟨image.depth.toNat - 1, by omega⟩
  have hchan : ∀ s : Image × List Block, s.1.channels.deref = none →
      freeImageChannels.channel 0 s = none := by
    intro s hs
    cases hloop : forLoop s.1.height (fun j s => freeImageChannels.row 0 j s) s with
    | none => simp [freeImageChannels.channel, hloop]
    | some s' =>
      have hs' : s'.1.channels.deref = none := by
        refine forFrom_preserves _ (fun u => u.1.channels.deref = none) ?_ _ 0 s s' hs hloop
        intro m u u' hu hb
        simp [freeImageChannels.row, hu] at hb
      simp [freeImageChannels.channel, hloop, hs']
  have hloop : forLoop image.depth (fun i s => freeImageChannels.channel i s) (image, [])
      = none := by
    simp only [forLoop, hn, forFrom, hchan (image, []) hc]
  simp only [freeImage, freeImageChannels, hloop, Option.bind_eq_bind, Option.none_bind]

theorem entryPath_of_slash (path name : CStr) (hslash : endsWithSlash path) :
    entryPath path name = path ++ name := by
  unfold entryPath
  rw [if_pos hslash]

theorem entryPath_of_not_slash (path name : CStr) (hslash : ¬ endsWithSlash path) :
    entryPath path name = path ++ slash ++ name := by
  unfold entryPath
  rw [if_neg hslash]

theorem filesOf_of_slash (fs : FileSystem) (path : CStr) (de : Dirent)
    (hslash : endsWithSlash path) : filesOf fs path de = innerEntries fs path de := by
  unfold filesOf innerEntries
  rw [entryPath_of_slash path de.d_name hslash]

theorem allOpen_of_slash (fs : FileSystem) (path : CStr) (es : List Dirent)
    (hslash : endsWithSlash path) : allOpen fs path es ↔ innerOpen fs path es := by
  unfold allOpen innerOpen
  constructor
  · intro h de hde
    rw [← entryPath_of_slash path de.d_name hslash]
    exact h de hde
  · intro h de hde
    rw [entryPath_of_slash path de.d_name hslash]
    exact h de hde

theorem fileTotal_of_slash (fs : FileSystem) (path : CStr) (es : List Dirent)
    (hslash : endsWithSlash path) : fileTotal fs path es = innerTotal fs path es := by
  unfold fileTotal innerTotal
  congr 1
  apply List.map_congr_left
  intro de _
  rw [filesOf_of_slash fs path de hslash]

theorem collectedPaths_of_slash (fs : FileSystem) (path : CStr) (es : List Dirent)
    (hslash : endsWithSlash path) : collectedPaths fs path es = innerPaths fs path es := by
  unfold collectedPaths innerPaths
  congr 1
  funext de
  rw [filesOf_of_slash fs path de hslash]

theorem hugeFs_slash : endsWithSlash (cstr "r/") := by decide

theorem hugeFs_allOpen : allOpen hugeFs (cstr "r/") [entry "d"] :=
  (allOpen_of_slash hugeFs (cstr "r/") [entry "d"] hugeFs_slash).mpr hugeFs_innerOpen

theorem hugeFs_fileTotal : fileTotal hugeFs (cstr "r/") [entry "d"] = 4294967296 := by
  rw [fileTotal_of_slash hugeFs (cstr "r/") [entry "d"] hugeFs_slash, hugeFs_total]

/-! ## Lemmas: allocation, block by block -/

theorem set_filled {α : Type} (f : Nat → α) (n : Nat) (l : List α) (hn : n < l.length) :
    ((List.range n).map f ++ l.drop n).set n (f n)
      = (List.range (n + 1)).map f ++ l.drop (n + 1) := by
  rw [List.set_append_right _ _ (by simp), List.length_map, List.length_range, Nat.sub_self,
    List.drop_eq_getElem_cons hn, List.set_cons_zero, List.range_succ, List.map_append,
    List.map_singleton, List.append_assoc, List.singleton_append]

theorem initChannelsMatrix_rows (serves : Block → Bool) (junk : Nat → Nat → Nat → Byte)
    (image : Image) (i : Nat) (chans : Channels) (rows0 : Rows) (hi : i < chans.length) :
    ∀ (fuel j : Nat), j + fuel ≤ rows0.length →
      forFrom (fun j c => initChannelsMatrix.row serves junk image i j c) fuel j
          (Ptr.live (chans.set i (Ptr.live
            ((List.range j).map (initChannelsMatrix.rowPtr serves junk image i)
              ++ rows0.drop j))))
        = some (Ptr.live (chans.set i (Ptr.live
            ((List.range (j + fuel)).map (initChannelsMatrix.rowPtr serves junk image i)
              ++ rows0.drop (j + fuel))))) := by
  intro fuel
  induction fuel with
  | zero => intro j _; rfl
  | succ n ih =>
    intro j hj
    have hlen : j < ((List.range j).map (initChannelsMatrix.rowPtr serves junk image i)
        ++ rows0.drop j).length := by
      simp only [List.length_append, List.length_map, List.length_range, List.length_drop]
      omega
    have hbody : initChannelsMatrix.row serves junk image i j
        (Ptr.live (chans.set i (Ptr.live
          ((List.range j).map (initChannelsMatrix.rowPtr serves junk image i)
            ++ rows0.drop j))))
        = some (Ptr.live (chans.set i (Ptr.live
          ((List.range (j + 1)).map (initChannelsMatrix.rowPtr serves junk image i)
            ++ rows0.drop (j + 1))))) := by
      simp only [initChannelsMatrix.row, Ptr.deref, Option.bind_eq_bind, Option.some_bind,
        List.getElem?_set_self hi, writeAt, if_pos hlen, List.set_set, Option.pure_def]
      rw [set_filled _ j rows0 (by omega)]
    have hrest := ih (j + 1) (by omega)
    have e : j + 1 + n = j + (n + 1) := by omega
    rw [e] at hrest
    simp only [forFrom, hbody]
    exact hrest

theorem initChannelsMatrix_channel_empty (serves : Block → Bool)
    (junk : Nat → Nat → Nat → Byte) (image : Image) (i : Nat) (chans : Channels)
    (hi : i < chans.length) (hh : image.height.toNat = 0) :
    initChannelsMatrix.channel serves junk image i (Ptr.live chans)
      = some (Ptr.live (chans.set i (initChannelsMatrix.channelPtr serves image i))) := by
  simp only [initChannelsMatrix.channel, Ptr.deref, Option.bind_eq_bind, Option.some_bind,
    writeAt, if_pos hi, forLoop, hh, forFrom]

theorem initChannelsMatrix_channel_rows (serves : Block → Bool)
    (junk : Nat → Nat → Nat → Byte) (image : Image) (i : Nat) (chans : Channels)
    (rows0 : Rows) (hi : i < chans.length)
    (hp : initChannelsMatrix.channelPtr serves image i = Ptr.live rows0)
    (hh : image.height.toNat ≤ rows0.length) :
    initChannelsMatrix.channel serves junk image i (Ptr.live chans)
      = some (Ptr.live (chans.set i (Ptr.live
          ((List.range image.height.toNat).map (initChannelsMatrix.rowPtr serves junk image i)
            ++ rows0.drop image.height.toNat)))) := by
  have h := initChannelsMatrix_rows serves junk image i (chans.set i (Ptr.live rows0)) rows0
    (by simpa using hi) image.height.toNat 0 (by omega)
  simp only [List.range_zero, List.map_nil, List.nil_append, List.drop_zero, List.set_set,
    Nat.zero_add] at h
  simp only [initChannelsMatrix.channel, Ptr.deref, Option.bind_eq_bind, Option.some_bind,
    writeAt, if_pos hi, forLoop, hp]
  exact h

theorem initChannelsMatrix_channels_loop (serves : Block → Bool)
    (junk : Nat → Nat → Nat → Byte) (image : Image) (final : Nat → Ptr Rows)
    (chans0 : Channels) (d : Nat) (hd : d ≤ chans0.length)
    (hstep : ∀ (i : Nat) (chans : Channels), i < d → i < chans.length →
      initChannelsMatrix.channel serves junk image i (Ptr.live chans)
        = some (Ptr.live (chans.set i (final i)))) :
    ∀ (fuel i : Nat), i + fuel ≤ d →
      forFrom (fun i c => initChannelsMatrix.channel serves junk image i c) fuel i
          (Ptr.live ((List.range i).map final ++ chans0.drop i))
        = some (Ptr.live ((List.range (i + fuel)).map final ++ chans0.drop (i + fuel))) := by
  intro fuel
  induction fuel with
  | zero => intro i _; rfl
  | succ n ih =>
    intro i hi
    have hlen : i < ((List.range i).map final ++ chans0.drop i).length := by
      simp only [List.length_append, List.length_map, List.length_range, List.length_drop]
      omega
    have hrest := ih (i + 1) (by omega)
    have e : i + 1 + n = i + (n + 1) := by omega
    rw [e] at hrest
    simp only [forFrom, hstep i _ (by omega) hlen]
    rw [set_filled final i chans0 (by omega)]
    exact hrest

theorem mallocSize_nonneg (n size : Nat) (hn : (n : Int) ≤ INT_MAX) (hs : size ≤ 8) :
    mallocSize (n : Int) size = n * size ∧ n * size ≤ PTRDIFF_MAX := by
  have hn' : n ≤ 2147483647 := by unfold INT_MAX at hn; omega
  have h1 : toUlong (n : Int) = n := by
    unfold toUlong
    omega
  have h2 : n * size ≤ 2147483647 * 8 := Nat.mul_le_mul hn' hs
  unfold mallocSize PTRDIFF_MAX
  rw [h1]
  omega

theorem mallocSize_negative (n : Int) (h0 : n < 0) (hmin : INT_MIN ≤ n) :
    ¬ mallocSize n 8 ≤ PTRDIFF_MAX ∧ ¬ mallocSize n 1 ≤ PTRDIFF_MAX := by
  unfold INT_MIN at hmin
  unfold mallocSize PTRDIFF_MAX toUlong
  omega

theorem malloc_served {α : Type} (serves : Block → Bool) (b : Block) (request : Nat)
    (fresh : Nat → α) (hr : request ≤ PTRDIFF_MAX) (hs : serves b = true) :
    malloc serves b request fresh = Ptr.live (fresh request) := by
  unfold malloc
  rw [if_pos ⟨hr, hs⟩]

theorem malloc_refused {α : Type} (serves : Block → Bool) (b : Block) (request : Nat)
    (fresh : Nat → α) (hr : ¬ (request ≤ PTRDIFF_MAX ∧ serves b = true)) :
    malloc serves b request fresh = Ptr.null := by
  unfold malloc
  rw [if_neg hr]

theorem initChannelsMatrix_alloc_served (serves : Block → Bool)
    (junk : Nat → Nat → Nat → Byte) (image : Image) (d h w : Nat)
    (hd : image.depth = d) (hh : image.height = h) (hw : image.width = w)
    (hdmax : (d : Int) ≤ INT_MAX) (hhmax : (h : Int) ≤ INT_MAX) (hwmax : (w : Int) ≤ INT_MAX)
    (htop : serves Block.channelArray = true)
    (hchannels : ∀ i, i < d → serves (Block.channel i) = true)
    (hrows : ∀ i j, i < d → j < h → serves (Block.row i j) = true) :
    initChannelsMatrix.alloc serves junk image
      = some (Ptr.live ((List.range d).map fun k =>
          Ptr.live ((List.range h).map fun i =>
            Ptr.live ((List.range w).map fun j => junk k i j)))) := by
  obtain ⟨sd, hsd⟩ := mallocSize_nonneg d 8 hdmax (le_refl 8)
  obtain ⟨sh, hsh⟩ := mallocSize_nonneg h 8 hhmax (le_refl 8)
  obtain ⟨sw, hsw⟩ := mallocSize_nonneg w 1 hwmax (by norm_num)
  have hrow : ∀ i j, i < d → j < h → initChannelsMatrix.rowPtr serves junk image i j
      = Ptr.live ((List.range w).map fun x => junk i j x) := by
    intro i j hi hj
    unfold initChannelsMatrix.rowPtr
    rw [hw, malloc_served serves _ _ _ (by rw [sw]; exact hsw) (hrows i j hi hj), sw,
      Nat.mul_one]
  have hchan : ∀ i, i < d → initChannelsMatrix.channelPtr serves image i
      = Ptr.live (List.replicate h Ptr.wild) := by
    intro i hi
    unfold initChannelsMatrix.channelPtr
    rw [hh, malloc_served serves _ _ _ (by rw [sh]; exact hsh) (hchannels i hi), sh,
      Nat.mul_div_cancel _ (by norm_num : 0 < 8)]
  have hfirst : initChannelsMatrix.channelsPtr serves image
      = Ptr.live (List.replicate d Ptr.wild) := by
    unfold initChannelsMatrix.channelsPtr
    rw [hd, malloc_served serves _ _ _ (by rw [sd]; exact hsd) htop, sd,
      Nat.mul_div_cancel _ (by norm_num : 0 < 8)]
  have hht : image.height.toNat = h := by rw [hh]; exact Int.toNat_ofNat h
  have hdt : image.depth.toNat = d := by rw [hd]; exact Int.toNat_ofNat d
  have hstep : ∀ (i : Nat) (chans : Channels), i < d → i < chans.length →
      initChannelsMatrix.channel serves junk image i (Ptr.live chans)
        = some (Ptr.live (chans.set i (Ptr.live ((List.range h).map fun j =>
            Ptr.live ((List.range w).map fun x => junk i j x))))) := by
    intro i chans hid hi
    have := initChannelsMatrix_channel_rows serves junk image i chans
      (List.replicate h Ptr.wild) hi (hchan i hid) (by rw [hht, List.length_replicate])
    rw [this, hht, List.drop_replicate, Nat.sub_self, List.replicate_zero, List.append_nil]
    congr 4
    apply List.map_congr_left
    intro j hj
    exact hrow i j hid (List.mem_range.mp hj)
  have hloop := initChannelsMatrix_channels_loop serves junk image
    (fun i => Ptr.live ((List.range h).map fun j =>
      Ptr.live ((List.range w).map fun x => junk i j x)))
    (List.replicate d Ptr.wild) d (by rw [List.length_replicate]) hstep d 0 (by omega)
  simp only [List.range_zero, List.map_nil, List.nil_append, List.drop_zero, Nat.zero_add,
    List.drop_replicate, Nat.sub_self, List.replicate_zero, List.append_nil] at hloop
  unfold initChannelsMatrix.alloc forLoop
  rw [hfirst, hdt]
  exact hloop

theorem initChannelsMatrix_alloc_negative (serves : Block → Bool)
    (junk : Nat → Nat → Nat → Byte) (image : Image)
    (h0 : image.depth < 0) (hmin : INT_MIN ≤ image.depth) :
    initChannelsMatrix.alloc serves junk image = some Ptr.null ∧
    (initChannelsMatrix junk image).channels = Ptr.null := by
  have ht : image.depth.toNat = 0 := by omega
  constructor
  · unfold initChannelsMatrix.alloc forLoop initChannelsMatrix.channelsPtr
    rw [ht, malloc_refused _ _ _ _ (fun hc => (mallocSize_negative _ h0 hmin).1 hc.1)]
    rfl
  · show (if image.depth < 0 then Ptr.null else Ptr.live _) = _
    rw [if_pos h0]

theorem rowCells_rowPtr (junk : Nat → Nat → Nat → Byte) (image : Image) (i j : Nat)
    (hmin : INT_MIN ≤ image.width) (hmax : image.width ≤ INT_MAX) :
    rowCells (initChannelsMatrix.rowPtr servesAll junk image i j)
      = (List.range image.width.toNat).map fun x => junk i j x := by
  unfold initChannelsMatrix.rowPtr
  by_cases h0 : image.width < 0
  · rw [malloc_refused _ _ _ _ (fun hc => (mallocSize_negative _ h0 hmin).2 hc.1)]
    have : image.width.toNat = 0 := by omega
    rw [this]
    rfl
  · obtain ⟨w, hw⟩ := Int.eq_ofNat_of_zero_le (not_lt.mp h0)
    rw [hw] at hmax
    obtain ⟨sw, hsw⟩ := mallocSize_nonneg w 1 hmax (by norm_num)
    rw [hw, malloc_served _ _ _ _ (by rw [sw]; exact hsw) rfl, sw, Nat.mul_one]
    rfl

theorem initChannelsMatrix_view (junk : Nat → Nat → Nat → Byte) (image : Image)
    (hdmin : INT_MIN ≤ image.depth) (hdmax : image.depth ≤ INT_MAX)
    (hhmin : INT_MIN ≤ image.height) (hhmax : image.height ≤ INT_MAX)
    (hwmin : INT_MIN ≤ image.width) (hwmax : image.width ≤ INT_MAX) :
    (initChannelsMatrix.alloc servesAll junk image).map tensorView
      = some (initChannelsMatrix junk image).channels := by
  by_cases hd0 : image.depth < 0
  · obtain ⟨h1, h2⟩ := initChannelsMatrix_alloc_negative servesAll junk image hd0 hdmin
    rw [h1, h2]
    rfl
  · obtain ⟨d, hd⟩ := Int.eq_ofNat_of_zero_le (not_lt.mp hd0)
    have hdt : image.depth.toNat = d := by rw [hd]; exact Int.toNat_ofNat d
    have hdmax' : (d : Int) ≤ INT_MAX := hd ▸ hdmax
    obtain ⟨sd, hsd⟩ := mallocSize_nonneg d 8 hdmax' (le_refl 8)
    have hfirst : initChannelsMatrix.channelsPtr servesAll image
        = Ptr.live (List.replicate d Ptr.wild) := by
      unfold initChannelsMatrix.channelsPtr
      rw [hd, malloc_served _ _ _ _ (by rw [sd]; exact hsd) rfl, sd,
        Nat.mul_div_cancel _ (by norm_num : 0 < 8)]
    have hstep : ∃ final : Nat → Ptr Rows,
        (∀ (i : Nat) (chans : Channels), i < d → i < chans.length →
          initChannelsMatrix.channel servesAll junk image i (Ptr.live chans)
            = some (Ptr.live (chans.set i (final i)))) ∧
        ∀ i, channelCells (final i)
          = (List.range image.height.toNat).map fun j =>
              (List.range image.width.toNat).map fun x => junk i j x := by
      by_cases hh0 : image.height < 0
      · have hht : image.height.toNat = 0 := by omega
        refine ⟨fun i => initChannelsMatrix.channelPtr servesAll image i, ?_, ?_⟩
        · intro i chans _ hi
          exact initChannelsMatrix_channel_empty _ junk image i chans hi hht
        · intro i
          show channelCells (initChannelsMatrix.channelPtr servesAll image i) = _
          unfold initChannelsMatrix.channelPtr
          rw [malloc_refused _ _ _ _ (fun hc => (mallocSize_negative _ hh0 hhmin).1 hc.1), hht]
          rfl
      · obtain ⟨h, hh⟩ := Int.eq_ofNat_of_zero_le (not_lt.mp hh0)
        have hht : image.height.toNat = h := by rw [hh]; exact Int.toNat_ofNat h
        have hhmax' : (h : Int) ≤ INT_MAX := hh ▸ hhmax
        obtain ⟨sh, hsh⟩ := mallocSize_nonneg h 8 hhmax' (le_refl 8)
        have hchan : ∀ i, initChannelsMatrix.channelPtr servesAll image i
            = Ptr.live (List.replicate h Ptr.wild) := by
          intro i
          unfold initChannelsMatrix.channelPtr
          rw [hh, malloc_served _ _ _ _ (by rw [sh]; exact hsh) rfl, sh,
            Nat.mul_div_cancel _ (by norm_num : 0 < 8)]
        refine ⟨fun i => Ptr.live ((List.range h).map
          (initChannelsMatrix.rowPtr servesAll junk image i)), ?_, ?_⟩
        · intro i chans _ hi
          have := initChannelsMatrix_channel_rows servesAll junk image i chans
            (List.replicate h Ptr.wild) hi (hchan i) (by rw [hht, List.length_replicate])
          rw [this, hht, List.drop_replicate, Nat.sub_self, List.replicate_zero,
            List.append_nil]
        · intro i
          show ((List.range h).map _).map rowCells = _
          rw [List.map_map, hht]
          apply List.map_congr_left
          intro j _
          exact rowCells_rowPtr junk image i j hwmin hwmax
    obtain ⟨final, hfinal, hcells⟩ := hstep
    have hloop := initChannelsMatrix_channels_loop servesAll junk image final
      (List.replicate d Ptr.wild) d (by rw [List.length_replicate]) hfinal d 0 (by omega)
    simp only [List.range_zero, List.map_nil, List.nil_append, List.drop_zero, Nat.zero_add,
      List.drop_replicate, Nat.sub_self, List.replicate_zero, List.append_nil] at hloop
    have halloc : initChannelsMatrix.alloc servesAll junk image
        = some (Ptr.live ((List.range d).map final)) := by
      unfold initChannelsMatrix.alloc forLoop
      rw [hfirst, hdt]
      exact hloop
    rw [halloc, initChannelsMatrix_channels junk image (not_lt.mp hd0), hdt]
    show some (Ptr.live (((List.range d).map final).map channelCells)) = _
    rw [List.map_map]
    congr 2
    apply List.map_congr_left
    intro i _
    exact hcells i

/-! ## Claims -/

/-- C1 (amended): for height, width, depth at least 1 whose product does not
exceed `INT_MAX`, and every interleaved buffer of length
`height * width * depth`, `convertToMatrix` followed by `convertToBuffer`
returns an image whose `bmp_buffer` is byte-identical to the original, and so
does applying the pair a second time. -/
theorem roundTrip_buffer_identical (jt jt' : Nat → Nat → Nat → Byte) (jb jb' : Nat → Byte)
    (image : Image) (buf : List Byte) (h w d : Nat)
    (hh : image.height = h) (hw : image.width = w) (hd : image.depth = d)
    (h1 : 1 ≤ h) (_w1 : 1 ≤ w) (_d1 : 1 ≤ d)
    (hsize : ((h * w * d : Nat) : Int) ≤ INT_MAX)
    (hb : image.bmp_buffer = Ptr.live buf) (hlen : buf.length = h * w * d) :
    ∃ once, (convertToMatrix jt image).bind (convertToBuffer jb) = some once ∧
      once.bmp_buffer = Ptr.live buf ∧
      ∃ twice, (convertToMatrix jt' once).bind (convertToBuffer jb') = some twice ∧
        twice.bmp_buffer = Ptr.live buf := by
  have hsize' : h * w * d ≤ 2147483647 := by unfold INT_MAX at hsize; omega
  obtain ⟨t, hrun⟩ := roundTrip_once jt jb image buf h w d hh hw hd h1 hsize' hb hlen
  refine ⟨_, hrun, rfl, ?_⟩
  obtain ⟨t', hrun'⟩ := roundTrip_once jt' jb'
    { image with bmp_size := h * w * d, bmp_buffer := Ptr.live buf, channels := Ptr.live t }
    buf h w d hh hw hd h1 hsize' rfl hlen
  exact ⟨_, hrun', rfl⟩

/-- C1, witness: the dimensions 1x1x1, 3x224x224 and 4x2x5. -/
theorem roundTrip_buffer_identical_witness :
    (∃ once, (convertToMatrix junkTensor (bufferImage 1 1 1 [7])).bind
        (convertToBuffer junkBuffer) = some once ∧
      once.bmp_buffer = Ptr.live [7] ∧
      ∃ twice, (convertToMatrix junkTensor once).bind (convertToBuffer junkBuffer)
          = some twice ∧ twice.bmp_buffer = Ptr.live [7]) ∧
    (∃ once, (convertToMatrix junkTensor
        (bufferImage 224 224 3 (List.replicate 150528 9))).bind
        (convertToBuffer junkBuffer) = some once ∧
      once.bmp_buffer = Ptr.live (List.replicate 150528 9) ∧
      ∃ twice, (convertToMatrix junkTensor once).bind (convertToBuffer junkBuffer)
          = some twice ∧ twice.bmp_buffer = Ptr.live (List.replicate 150528 9)) ∧
    (∃ once, (convertToMatrix junkTensor
        (bufferImage 2 5 4 ((List.range 40).map fun n => Fin.ofNat n))).bind
        (convertToBuffer junkBuffer) = some once ∧
      once.bmp_buffer = Ptr.live ((List.range 40).map fun n => Fin.ofNat n) ∧
      ∃ twice, (convertToMatrix junkTensor once).bind (convertToBuffer junkBuffer)
          = some twice ∧
        twice.bmp_buffer = Ptr.live ((List.range 40).map fun n => Fin.ofNat n)) :=
  ⟨roundTrip_buffer_identical junkTensor junkTensor junkBuffer junkBuffer
      (bufferImage 1 1 1 [7]) [7] 1 1 1 rfl rfl rfl (by decide) (by decide) (by decide)
      (by decide) rfl rfl,
   roundTrip_buffer_identical junkTensor junkTensor junkBuffer junkBuffer
      (bufferImage 224 224 3 (List.replicate 150528 9)) (List.replicate 150528 9)
      224 224 3 rfl rfl rfl (by decide) (by decide) (by decide) (by decide) rfl
      ((List.length_replicate _ _).trans (by norm_num)),
   roundTrip_buffer_identical junkTensor junkTensor junkBuffer junkBuffer
      (bufferImage 2 5 4 ((List.range 40).map fun n => Fin.ofNat n))
      ((List.range 40).map fun n => Fin.ofNat n)
      2 5 4 rfl rfl rfl (by decide) (by decide) (by decide) (by decide) rfl (by simp)⟩

/-- C1, counterexample: height 16384, width 32768, depth 4 and a buffer of
`16384 * 32768 * 4` bytes.  `convertToMatrix` succeeds, but the product
`depth * width * height` computed by `convertToBuffer` is `2 ^ 31`, above
`INT_MAX`: the round trip has no defined result. -/
theorem roundTrip_overflow_counterexample :
    (1 : Int) ≤ 16384 ∧ (1 : Int) ≤ 32768 ∧ (1 : Int) ≤ 4 ∧
    (List.replicate 2147483648 (0 : Byte)).length = 16384 * 32768 * 4 ∧
    (convertToMatrix junkTensor
        (bufferImage 16384 32768 4 (List.replicate 2147483648 0))).bind
      (convertToBuffer junkBuffer) = none := by
  have hlen : (List.replicate 2147483648 (0 : Byte)).length = 16384 * 32768 * 4 :=
    (List.length_replicate _ _).trans (by norm_num)
  refine ⟨by decide, by decide, by decide, hlen, ?_⟩
  obtain ⟨t, hrun, _, _⟩ := convertToMatrix_spec junkTensor
    (bufferImage 16384 32768 4 (List.replicate 2147483648 0))
    (List.replicate 2147483648 0) 4 16384 32768 rfl rfl rfl rfl hlen (by decide)
  rw [hrun, Option.some_bind]
  exact convertToBuffer_overflow junkBuffer _ 16384 32768 4 rfl rfl rfl (by decide)

/-- C2 (amended): for every image with non-negative dimensions whose
`height * width * depth` is at most `INT_MAX + 1` and whose buffer has that
length, `convertToMatrix` returns the image with a tensor of shape
`[depth][height][width]` in which, for all `k < depth`, `i < height`,
`j < width`, `channels[k][i][j] = bmp_buffer[k + j*depth + i*width*depth]`
(an in-bounds read). -/
theorem convertToMatrix_element_mapping (junk : Nat → Nat → Nat → Byte)
    (image : Image) (buf : List Byte) (h w d : Nat)
    (hh : image.height = h) (hw : image.width = w) (hd : image.depth = d)
    (hb : image.bmp_buffer = Ptr.live buf) (hlen : buf.length = h * w * d)
    (hsize : ((h * w * d : Nat) : Int) ≤ INT_MAX + 1) :
    ∃ t, convertToMatrix junk image
        = some { image with bmp_buffer := Ptr.freed, channels := Ptr.live t } ∧
      HasShape t d h w ∧
      ∀ k i j, k < d → i < h → j < w →
        k + j * d + i * w * d < buf.length ∧
        readCell t k i j = buf[k + j * d + i * w * d]? := by
  have hsize' : h * w * d ≤ 2147483648 := by unfold INT_MAX at hsize; omega
  obtain ⟨t, hrun, hshape, hcells⟩ :=
    convertToMatrix_spec junk image buf d h w hh hw hd hb hlen hsize'
  refine ⟨t, hrun, hshape, fun k i j hk hi hj => ⟨?_, hcells k i j hk hi hj⟩⟩
  rw [hlen]
  exact index_lt h w d i j k hi hj hk

/-- C2, witness: the 2x2 image of depth 1 with buffer `[10, 20, 30, 40]`; its
tensor is `channels[0] = [[10, 20], [30, 40]]`. -/
theorem convertToMatrix_element_mapping_witness :
    ([10, 20, 30, 40] : List Byte).length = 2 * 2 * 1 ∧
    (((2 * 2 * 1 : Nat) : Int) ≤ INT_MAX + 1) ∧
    (∃ t, convertToMatrix junkTensor image2x2
        = some { image2x2 with bmp_buffer := Ptr.freed, channels := Ptr.live t } ∧
      HasShape t 1 2 2 ∧
      ∀ k i j, k < 1 → i < 2 → j < 2 →
        k + j * 1 + i * 2 * 1 < ([10, 20, 30, 40] : List Byte).length ∧
        readCell t k i j = ([10, 20, 30, 40] : List Byte)[k + j * 1 + i * 2 * 1]?) ∧
    convertToMatrix junkTensor image2x2
      = some { image2x2 with bmp_buffer := Ptr.freed,
                             channels := Ptr.live [[[10, 20], [30, 40]]] } :=
  ⟨rfl, by decide,
   convertToMatrix_element_mapping junkTensor image2x2 [10, 20, 30, 40] 2 2 1
     rfl rfl rfl rfl rfl (by decide),
   by decide⟩

/-- C2, counterexample: height 26755, width 26755, depth 3 and a buffer of
`26755 * 26755 * 3` bytes.  The index of the last element is `2147490074`,
above `INT_MAX`: the index expression overflows `int`, `convertToMatrix` has
no defined result, so no tensor is produced. -/
theorem convertToMatrix_overflow_counterexample :
    (List.replicate 2147490075 (0 : Byte)).length = 26755 * 26755 * 3 ∧
    convertToMatrix junkTensor
      (bufferImage 26755 26755 3 (List.replicate 2147490075 0)) = none :=
  ⟨(List.length_replicate _ _).trans (by norm_num),
   convertToMatrix_overflow junkTensor _ 26755 26755 3 rfl rfl rfl
     (by decide) (by decide) (by decide) (by decide)⟩

/-- C3 (amended): for every image with a populated tensor of shape
`[depth][height][width]` whose `int` products `depth * width` and
`depth * width * height` do not exceed `INT_MAX`, `convertToBuffer` sets
`bmp_size = depth * width * height` and produces a buffer of exactly that
length in which, for all `y < height`, `x < width`, `d < depth`,
`bmp_buffer[y*width*depth + x*depth + d] = channels[d][y][x]`. -/
theorem convertToBuffer_element_mapping (junk : Nat → Byte)
    (image : Image) (t : Tensor) (h w d : Nat)
    (hh : image.height = h) (hw : image.width = w) (hd : image.depth = d)
    (ht : image.channels = Ptr.live t) (hshape : HasShape t d h w)
    (hdw : ((d * w : Nat) : Int) ≤ INT_MAX)
    (hsize : ((d * w * h : Nat) : Int) ≤ INT_MAX) :
    ∃ buf, convertToBuffer junk image
        = some { image with bmp_size := d * w * h, bmp_buffer := Ptr.live buf } ∧
      buf.length = d * w * h ∧
      ∀ y x c, y < h → x < w → c < d →
        y * w * d + x * d + c < buf.length ∧
        buf[y * w * d + x * d + c]? = readCell t c y x := by
  have hdw' : d * w ≤ 2147483647 := by unfold INT_MAX at hdw; omega
  have hsize' : d * w * h ≤ 2147483647 := by unfold INT_MAX at hsize; omega
  obtain ⟨buf, hrun, hlen, hcells⟩ :=
    convertToBuffer_spec junk image t d h w hh hw hd ht hshape hdw' hsize'
  refine ⟨buf, hrun, hlen, fun y x c hy hx hc => ⟨?_, hcells y x c hy hx hc⟩⟩
  have := index_lt h w d y x c hy hx hc
  have hring : d * w * h = h * w * d := by ring
  omega

/-- C3, witness: the 2x2 tensor of depth 1, `channels[0] = [[10, 20], [30, 40]]`;
its buffer is `[10, 20, 30, 40]`. -/
theorem convertToBuffer_element_mapping_witness :
    HasShape [[[10, 20], [30, 40]]] 1 2 2 ∧
    (((1 * 2 : Nat) : Int) ≤ INT_MAX) ∧ (((1 * 2 * 2 : Nat) : Int) ≤ INT_MAX) ∧
    (∃ buf, convertToBuffer junkBuffer tensor2x2
        = some { tensor2x2 with bmp_size := 1 * 2 * 2, bmp_buffer := Ptr.live buf } ∧
      buf.length = 1 * 2 * 2 ∧
      ∀ y x c, y < 2 → x < 2 → c < 1 →
        y * 2 * 1 + x * 1 + c < buf.length ∧
        buf[y * 2 * 1 + x * 1 + c]? = readCell [[[10, 20], [30, 40]]] c y x) ∧
    convertToBuffer junkBuffer tensor2x2
      = some { tensor2x2 with bmp_size := 4, bmp_buffer := Ptr.live [10, 20, 30, 40] } :=
  ⟨by decide, by decide, by decide,
   convertToBuffer_element_mapping junkBuffer tensor2x2 [[[10, 20], [30, 40]]] 2 2 1
     rfl rfl rfl rfl (by decide) (by decide) (by decide),
   by decide⟩

/-- C3, counterexample: a populated tensor of shape `[3][26755][26755]`.  The
product `depth * width * height` is `2147490075`, above `INT_MAX`:
`convertToBuffer` has no defined result, so no `bmp_size` is set and no buffer
is produced. -/
theorem convertToBuffer_overflow_counterexample :
    HasShape (zeroTensor 3 26755 26755) 3 26755 26755 ∧
    convertToBuffer junkBuffer (tensorImage 26755 26755 3 (zeroTensor 3 26755 26755))
      = none :=
  ⟨zeroTensor_shape 3 26755 26755,
   convertToBuffer_overflow junkBuffer _ 26755 26755 3 rfl rfl rfl (by decide)⟩

/-- C4 (amended): `convertToMatrix` releases its source: on an image with a
populated buffer (of length `height * width * depth` at most `INT_MAX + 1`) it
returns an image whose tensor is populated and whose buffer is released.
`convertToBuffer` does not release its source: on an image with a populated
tensor (with `depth * width` and `depth * width * height` at most `INT_MAX`)
it returns an image in which the new buffer and the unchanged tensor are both
populated. -/
theorem conversion_source_liveness (jt : Nat → Nat → Nat → Byte) (jb : Nat → Byte)
    (imageB : Image) (buf : List Byte) (h w d : Nat)
    (imageT : Image) (t : Tensor) (h' w' d' : Nat)
    (hh : imageB.height = h) (hw : imageB.width = w) (hd : imageB.depth = d)
    (hb : imageB.bmp_buffer = Ptr.live buf) (hlen : buf.length = h * w * d)
    (hsize : ((h * w * d : Nat) : Int) ≤ INT_MAX + 1)
    (hh' : imageT.height = h') (hw' : imageT.width = w') (hd' : imageT.depth = d')
    (ht : imageT.channels = Ptr.live t) (hshape : HasShape t d' h' w')
    (hdw : ((d' * w' : Nat) : Int) ≤ INT_MAX)
    (hsize' : ((d' * w' * h' : Nat) : Int) ≤ INT_MAX) :
    (∃ m, convertToMatrix jt imageB = some m ∧
      m.channels.isLive = true ∧ m.bmp_buffer = Ptr.freed ∧
      m.bmp_buffer.isLive = false) ∧
    (∃ b, convertToBuffer jb imageT = some b ∧
      b.bmp_buffer.isLive = true ∧ b.channels = Ptr.live t ∧
      b.channels.isLive = true) := by
  constructor
  · have hs : h * w * d ≤ 2147483648 := by unfold INT_MAX at hsize; omega
    obtain ⟨t0, hrun, _, _⟩ := convertToMatrix_spec jt imageB buf d h w hh hw hd hb hlen hs
    exact ⟨_, hrun, rfl, rfl, rfl⟩
  · have hdw2 : d' * w' ≤ 2147483647 := by unfold INT_MAX at hdw; omega
    have hs2 : d' * w' * h' ≤ 2147483647 := by unfold INT_MAX at hsize'; omega
    obtain ⟨buf', hrun, _, _⟩ :=
      convertToBuffer_spec jb imageT t d' h' w' hh' hw' hd' ht hshape hdw2 hs2
    exact ⟨_, hrun, rfl, ht, by simp [ht, Ptr.isLive]⟩

/-- C4, witness: the 2x2 image of depth 1, in buffer form and in tensor form. -/
theorem conversion_source_liveness_witness :
    ([10, 20, 30, 40] : List Byte).length = 2 * 2 * 1 ∧
    HasShape [[[10, 20], [30, 40]]] 1 2 2 ∧
    ((∃ m, convertToMatrix junkTensor image2x2 = some m ∧
      m.channels.isLive = true ∧ m.bmp_buffer = Ptr.freed ∧
      m.bmp_buffer.isLive = false) ∧
    (∃ b, convertToBuffer junkBuffer tensor2x2 = some b ∧
      b.bmp_buffer.isLive = true ∧ b.channels = Ptr.live [[[10, 20], [30, 40]]] ∧
      b.channels.isLive = true)) :=
  ⟨rfl, by decide,
   conversion_source_liveness junkTensor junkBuffer image2x2 [10, 20, 30, 40] 2 2 1
     tensor2x2 [[[10, 20], [30, 40]]] 2 2 1
     rfl rfl rfl rfl rfl (by decide) rfl rfl rfl rfl (by decide) (by decide) (by decide)⟩

/-- C4, counterexample: after `convertToBuffer` on the 2x2 tensor image, the
interleaved buffer and the channel tensor are populated at the same time. -/
theorem convertToBuffer_keeps_tensor_counterexample :
    convertToBuffer junkBuffer tensor2x2
      = some { tensor2x2 with bmp_size := 4, bmp_buffer := Ptr.live [10, 20, 30, 40] } ∧
    (convertToBuffer junkBuffer tensor2x2).map
        (fun image => (image.bmp_buffer.isLive, image.channels.isLive))
      = some (true, true) := by
  decide

/-- C5 (amended): for all non-negative `int` depth, height and width,
whenever `malloc` serves every request made (the channel array, the `depth`
channels and their `height` rows each), `initChannelsMatrix` changes only
`channels`, which becomes a tensor of shape `[depth][height][width]`: a block
of `depth` channel pointers, each to a block of `height` row pointers, each to
a row of `width` bytes.  The bytes are not written: each holds whatever the
fresh row contained. -/
theorem initChannelsMatrix_shape_content (serves : Block → Bool)
    (junk : Nat → Nat → Nat → Byte) (image : Image) (d h w : Nat)
    (hd : image.depth = d) (hh : image.height = h) (hw : image.width = w)
    (hdmax : (d : Int) ≤ INT_MAX) (hhmax : (h : Int) ≤ INT_MAX) (hwmax : (w : Int) ≤ INT_MAX)
    (htop : serves Block.channelArray = true)
    (hchannels : ∀ i, i < d → serves (Block.channel i) = true)
    (hrows : ∀ i j, i < d → j < h → serves (Block.row i j) = true) :
    ∃ t : Tensor,
      initChannelsMatrix.alloc serves junk image
        = some (Ptr.live (t.map fun ch => Ptr.live (ch.map fun row => Ptr.live row))) ∧
      initChannelsMatrix junk image = { image with channels := Ptr.live t } ∧
      HasShape t d h w ∧
      ∀ k i j, k < d → i < h → j < w → readCell t k i j = some (junk k i j) := by
  refine ⟨(List.range d).map fun k => (List.range h).map fun i =>
    (List.range w).map fun j => junk k i j, ?_, ?_, initChannelsMatrix_shape junk d h w, ?_⟩
  · rw [initChannelsMatrix_alloc_served serves junk image d h w hd hh hw hdmax hhmax hwmax
      htop hchannels hrows]
    simp only [List.map_map, Function.comp_def]
  · have hc := initChannelsMatrix_channels junk image (by omega)
    simp only [hd, hh, hw, Int.toNat_ofNat] at hc
    rw [← hc]
    rfl
  · intro k i j hk hi hj
    simp [readCell, List.getElem?_range, hk, hi, hj]

/-- C5, witness: an allocation of 2 channels of 1 row of 3 bytes whose fresh
rows hold the byte `255`. -/
theorem initChannelsMatrix_shape_content_witness :
    initChannelsMatrix.alloc servesAll junkTensor (blankImage 2 1 3)
      = some (Ptr.live [Ptr.live [Ptr.live [255, 255, 255]],
                        Ptr.live [Ptr.live [255, 255, 255]]]) ∧
    ∃ t : Tensor,
      initChannelsMatrix.alloc servesAll junkTensor (blankImage 2 1 3)
        = some (Ptr.live (t.map fun ch => Ptr.live (ch.map fun row => Ptr.live row))) ∧
      initChannelsMatrix junkTensor (blankImage 2 1 3)
        = { blankImage 2 1 3 with channels := Ptr.live t } ∧
      HasShape t 2 1 3 ∧
      ∀ k i j, k < 2 → i < 1 → j < 3 → readCell t k i j = some (junkTensor k i j) :=
  ⟨by decide,
   initChannelsMatrix_shape_content servesAll junkTensor (blankImage 2 1 3) 2 1 3 rfl rfl rfl
     (by decide) (by decide) (by decide) rfl (fun _ _ => rfl) (fun _ _ _ _ => rfl)⟩

/-- C5, counterexample.  A 1x1x1 allocation whose fresh row holds the byte
`255`: the byte of the resulting tensor is `255`, not `0`.  A depth of `-1`:
the request is `2 ^ 64 - 8` bytes, `malloc` returns `NULL`, and `channels` is
`NULL`, not a tensor.  A 1x1x1 allocation of which the allocator serves no
request: `channels` is `NULL` and the store `image->channels[0] = ...` goes
through it, so the call has no defined result. -/
theorem initChannelsMatrix_not_zeroed_counterexample :
    (initChannelsMatrix.alloc servesAll junkTensor blank1x1
        = some (Ptr.live [Ptr.live [Ptr.live [255]]]) ∧
      (initChannelsMatrix junkTensor blank1x1).channels = Ptr.live [[[255]]] ∧
      readCell [[[255]]] 0 0 0 = some 255 ∧ (255 : Byte) ≠ 0) ∧
    (mallocSize (-1) 8 = 18446744073709551608 ∧
      initChannelsMatrix.channelsPtr servesAll (blankImage (-1) 1 1) = Ptr.null ∧
      initChannelsMatrix.alloc servesAll junkTensor (blankImage (-1) 1 1) = some Ptr.null ∧
      (initChannelsMatrix junkTensor (blankImage (-1) 1 1)).channels = Ptr.null) ∧
    (initChannelsMatrix.channelsPtr servesNone blank1x1 = Ptr.null ∧
      initChannelsMatrix.alloc servesNone junkTensor blank1x1 = none) :=
  ⟨⟨by decide, by decide, by decide, by decide⟩,
   ⟨by decide, by decide, by decide, by decide⟩, by decide, by decide⟩

/-- C6: whenever the traversal of `getFileList` completes, `getFileList`
returns a list that is a permutation of the paths collected during the
traversal and is ordered under `compare` (that is, `strcmp`): every entry
precedes every later one (`strcmp ≤ 0`), strictly (`strcmp < 0`) when the two
paths are distinct, and this order is the lexicographic order of the byte
sequences. -/
theorem getFileList_sorted_permutation (fs : FileSystem) (path : CStr) (r : Filelist × Nat)
    (htrav : getFileList.traverse fs path = some r) :
    ∃ paths : List CStr,
      getFileList fs path = some { length := r.1.length, list := paths.map Ptr.live } ∧
      (paths.map Ptr.live).Perm r.1.list ∧
      paths.Pairwise (fun a b => compare (Ptr.live a) (Ptr.live b) = some (strcmp a b) ∧
        strcmp a b ≤ 0) ∧
      paths.Pairwise (fun a b => a ≠ b → strcmp a b < 0) ∧
      paths.Pairwise (fun a b => a = b ∨ List.Lex (· < ·) a b) := by
  obtain ⟨es, hroot, hopen, hN⟩ := traverse_some fs path r htrav
  have hr := traverse_eq fs path es hroot hopen hN
  rw [htrav, Option.some.injEq] at hr
  subst hr
  have hsorted : ((innerPaths fs path es).insertionSort precedes).Pairwise precedes :=
    List.sorted_insertionSort precedes _
  refine ⟨(innerPaths fs path es).insertionSort precedes,
    getFileList_eq fs path es hroot hopen hN,
    (List.perm_insertionSort precedes _).map _, ?_, ?_, ?_⟩
  · exact hsorted.imp fun {a b} h => ⟨rfl, h⟩
  · refine hsorted.imp fun {a b} h hne => ?_
    have h0 : strcmp a b ≠ 0 := fun h0 => hne ((strcmp_eq_zero a b).mp h0)
    have : strcmp a b ≤ 0 := h
    omega
  · exact hsorted.imp fun {a b} h => (precedes_iff a b).mp h

/-- C6, witness: the dataset whose traversal collects `data/b/2.jpg`,
`data/a/1.jpg`, `data/a/2.jpg`; and `qsort` with `compare` on the collected
paths `b/2.jpg`, `a/1.jpg`, `a/2.jpg`. -/
theorem getFileList_sorted_permutation_witness :
    getFileList.traverse datasetFs (cstr "data/")
      = some ({ length := 3,
                list := [Ptr.live (cstr "data/b/2.jpg"), Ptr.live (cstr "data/a/1.jpg"),
                         Ptr.live (cstr "data/a/2.jpg")] }, 3) ∧
    (∃ paths : List CStr,
      getFileList datasetFs (cstr "data/")
        = some { length := 3, list := paths.map Ptr.live } ∧
      (paths.map Ptr.live).Perm
        [Ptr.live (cstr "data/b/2.jpg"), Ptr.live (cstr "data/a/1.jpg"),
         Ptr.live (cstr "data/a/2.jpg")] ∧
      paths.Pairwise (fun a b => compare (Ptr.live a) (Ptr.live b) = some (strcmp a b) ∧
        strcmp a b ≤ 0) ∧
      paths.Pairwise (fun a b => a ≠ b → strcmp a b < 0) ∧
      paths.Pairwise (fun a b => a = b ∨ List.Lex (· < ·) a b)) ∧
    getFileList datasetFs (cstr "data/")
      = some { length := 3,
               list := [Ptr.live (cstr "data/a/1.jpg"), Ptr.live (cstr "data/a/2.jpg"),
                        Ptr.live (cstr "data/b/2.jpg")] } ∧
    qsort [Ptr.live (cstr "b/2.jpg"), Ptr.live (cstr "a/1.jpg"), Ptr.live (cstr "a/2.jpg")]
        3 compare
      = some [Ptr.live (cstr "a/1.jpg"), Ptr.live (cstr "a/2.jpg"),
              Ptr.live (cstr "b/2.jpg")] :=
  ⟨by decide,
   getFileList_sorted_permutation datasetFs (cstr "data/")
     ({ length := 3,
        list := [Ptr.live (cstr "data/b/2.jpg"), Ptr.live (cstr "data/a/1.jpg"),
                 Ptr.live (cstr "data/a/2.jpg")] }, 3) (by decide),
   by decide, by decide⟩

/-- C7 (amended): for every two-level tree whose root path ends with `'/'`,
in which the root and every visible root entry open and which holds fewer
than `2 ^ 32` files, the traversal of `getFileList` completes, the `length`
field equals `getFileCount(root)`, the number of files of the tree and the
final value of `index`, the list has exactly `length` slots and every one of
them holds a path; `getFileList` returns a record with that `length`. -/
theorem getFileList_count_consistency (fs : FileSystem) (path : CStr) (es : List Dirent)
    (hslash : endsWithSlash path)
    (hroot : fs path = some es) (hopen : allOpen fs path es)
    (hN : fileTotal fs path es < 4294967296) :
    ∃ (fl : Filelist) (index : Nat) (sorted : Filelist),
      getFileList.traverse fs path = some (fl, index) ∧
      getFileList fs path = some sorted ∧
      getFileCount fs path = some fl.length ∧
      fl.length = fileTotal fs path es ∧
      sorted.length = fl.length ∧
      index = fl.length ∧
      fl.list.length = fl.length ∧
      sorted.list.length = fl.length ∧
      (∀ p ∈ fl.list, p.isLive = true) ∧
      (∀ p ∈ sorted.list, p.isLive = true) := by
  have hopen' := (allOpen_of_slash fs path es hslash).mp hopen
  have hT := fileTotal_of_slash fs path es hslash
  have hN' : innerTotal fs path es < 4294967296 := hT ▸ hN
  refine ⟨_, _, _, traverse_eq fs path es hroot hopen' hN',
    getFileList_eq fs path es hroot hopen' hN', ?_, hT.symm, rfl, rfl, ?_, ?_, ?_, ?_⟩
  · rw [getFileCount_open fs path es hroot hopen', Nat.mod_eq_of_lt hN']
  · simp [innerPaths_length]
  · simp [innerPaths_length]
  · intro p hp
    obtain ⟨s, _, rfl⟩ := List.mem_map.mp hp
    rfl
  · intro p hp
    obtain ⟨s, _, rfl⟩ := List.mem_map.mp hp
    rfl

/-- C7, witness: the dataset `data/` with three files. -/
theorem getFileList_count_consistency_witness :
    endsWithSlash (cstr "data/") ∧
    datasetFs (cstr "data/") = some [entry ".", entry "b", entry "..", entry "a"] ∧
    allOpen datasetFs (cstr "data/") [entry ".", entry "b", entry "..", entry "a"] ∧
    fileTotal datasetFs (cstr "data/") [entry ".", entry "b", entry "..", entry "a"] = 3 ∧
    getFileCount datasetFs (cstr "data/") = some 3 ∧
    ∃ (fl : Filelist) (index : Nat) (sorted : Filelist),
      getFileList.traverse datasetFs (cstr "data/") = some (fl, index) ∧
      getFileList datasetFs (cstr "data/") = some sorted ∧
      getFileCount datasetFs (cstr "data/") = some fl.length ∧
      fl.length
        = fileTotal datasetFs (cstr "data/") [entry ".", entry "b", entry "..", entry "a"] ∧
      sorted.length = fl.length ∧
      index = fl.length ∧
      fl.list.length = fl.length ∧
      sorted.list.length = fl.length ∧
      (∀ p ∈ fl.list, p.isLive = true) ∧
      (∀ p ∈ sorted.list, p.isLive = true) :=
  ⟨by decide, by decide, by decide, by decide, by decide,
   getFileList_count_consistency datasetFs (cstr "data/")
     [entry ".", entry "b", entry "..", entry "a"] (by decide) (by decide) (by decide)
     (by decide)⟩

/-- C7, counterexample.  First tree: the root `r/` whose only folder yields
`2 ^ 32` entries; the root and its entry open, `getFileCount` wraps around to
`0`, the list gets `0` slots, and the first store `filelist->list[0]` falls
outside it: `getFileList` has no defined result.  Second tree: the root
`data`, given without a trailing `'/'`, with its folder `a` of two files; the
root and its entry `data/a` open, but both functions open the string `dataa`,
which does not, and neither has a defined result. -/
theorem getFileList_count_wraparound_counterexample :
    (hugeFs (cstr "r/") = some [entry "d"] ∧
      allOpen hugeFs (cstr "r/") [entry "d"] ∧
      getFileCount hugeFs (cstr "r/") = some 0 ∧
      getFileList.traverse hugeFs (cstr "r/") = none ∧
      getFileList hugeFs (cstr "r/") = none) ∧
    (plainFs (cstr "data") = some [entry ".", entry "..", entry "a"] ∧
      allOpen plainFs (cstr "data") [entry ".", entry "..", entry "a"] ∧
      fileTotal plainFs (cstr "data") [entry ".", entry "..", entry "a"] = 2 ∧
      concat (cstr "data") (entry "a").d_name = some (cstr "dataa") ∧
      plainFs (cstr "dataa") = none ∧
      getFileCount plainFs (cstr "data") = none ∧
      getFileList plainFs (cstr "data") = none) := by
  have htrav := traverse_overflow hugeFs (cstr "r/") [entry "d"] hugeFs_root hugeFs_innerOpen
    (by rw [hugeFs_total])
  refine ⟨⟨hugeFs_root, hugeFs_allOpen, ?_, htrav, ?_⟩, by decide⟩
  · rw [getFileCount_open hugeFs (cstr "r/") [entry "d"] hugeFs_root hugeFs_innerOpen,
      hugeFs_total]
  · simp only [getFileList, htrav, Option.bind_eq_bind, Option.none_bind]

/-- C8 (amended): for every openable root whose path ends with `'/'` and
whose visible entries are all subdirectories that open, `getFileCount(root)`
is the sum, over those subdirectories, of the number of their immediate
entries named neither `"."` nor `".."`, reduced modulo `2 ^ 32`: it equals the
sum whenever the sum is below `2 ^ 32`.  The result depends on the listings of
the root and of its subdirectories only, and `isCurrentOrParentFolder` is
true exactly for the names `"."` and `".."`. -/
theorem getFileCount_value (fs : FileSystem) (path : CStr) (es : List Dirent)
    (hslash : endsWithSlash path)
    (hroot : fs path = some es) (hopen : allOpen fs path es) :
    getFileCount fs path = some (fileTotal fs path es % 4294967296) ∧
    (fileTotal fs path es < 4294967296 →
      getFileCount fs path = some (fileTotal fs path es)) ∧
    (∀ fs' : FileSystem, fs' path = some es →
      (∀ de ∈ es, fs' (entryPath path de.d_name) = fs (entryPath path de.d_name)) →
      getFileCount fs' path = getFileCount fs path) ∧
    (∀ de : Dirent,
      isCurrentOrParentFolder de = true ↔ de.d_name = dot ∨ de.d_name = dotdot) := by
  have hopen' := (allOpen_of_slash fs path es hslash).mp hopen
  have h := getFileCount_open fs path es hroot hopen'
  rw [← fileTotal_of_slash fs path es hslash] at h
  refine ⟨h, ?_, ?_, isCurrentOrParentFolder_iff⟩
  · intro hN
    rw [h, Nat.mod_eq_of_lt hN]
  · intro fs' hroot' hsame
    have hsame' : ∀ de ∈ es, fs' (path ++ de.d_name) = fs (path ++ de.d_name) := by
      intro de hde
      have := hsame de hde
      rwa [entryPath_of_slash path de.d_name hslash] at this
    rw [h, getFileCount_open fs' path es hroot' (innerOpen_congr fs fs' path es hsame' hopen'),
      innerTotal_congr fs fs' path es hsame', fileTotal_of_slash fs path es hslash]

/-- C8, witness: the dataset `data/` with three files. -/
theorem getFileCount_value_witness :
    endsWithSlash (cstr "data/") ∧
    datasetFs (cstr "data/") = some [entry ".", entry "b", entry "..", entry "a"] ∧
    allOpen datasetFs (cstr "data/") [entry ".", entry "b", entry "..", entry "a"] ∧
    fileTotal datasetFs (cstr "data/") [entry ".", entry "b", entry "..", entry "a"] = 3 ∧
    getFileCount datasetFs (cstr "data/") = some 3 ∧
    (getFileCount datasetFs (cstr "data/")
        = some (fileTotal datasetFs (cstr "data/")
            [entry ".", entry "b", entry "..", entry "a"] % 4294967296) ∧
      (fileTotal datasetFs (cstr "data/") [entry ".", entry "b", entry "..", entry "a"]
          < 4294967296 →
        getFileCount datasetFs (cstr "data/")
          = some (fileTotal datasetFs (cstr "data/")
              [entry ".", entry "b", entry "..", entry "a"])) ∧
      (∀ fs' : FileSystem,
        fs' (cstr "data/") = some [entry ".", entry "b", entry "..", entry "a"] →
        (∀ de ∈ [entry ".", entry "b", entry "..", entry "a"],
          fs' (entryPath (cstr "data/") de.d_name)
            = datasetFs (entryPath (cstr "data/") de.d_name)) →
        getFileCount fs' (cstr "data/") = getFileCount datasetFs (cstr "data/")) ∧
      (∀ de : Dirent,
        isCurrentOrParentFolder de = true ↔ de.d_name = dot ∨ de.d_name = dotdot)) :=
  ⟨by decide, by decide, by decide, by decide, by decide,
   getFileCount_value datasetFs (cstr "data/")
     [entry ".", entry "b", entry "..", entry "a"] (by decide) (by decide)
     (by decide)⟩

/-- C8, counterexample.  First tree: the root `r/` whose only folder yields
`2 ^ 32` entries; the sum of the counts is `2 ^ 32`, and `getFileCount`
returns `0`.  Second tree: the root `data`, given without a trailing `'/'`,
whose folder `a` holds two files, next to a sibling folder `dataa` with one
file; the sum over the subdirectories of the root is `2`, and `getFileCount`
returns `1`, the number of entries of `dataa`. -/
theorem getFileCount_wraparound_counterexample :
    (hugeFs (cstr "r/") = some [entry "d"] ∧
      allOpen hugeFs (cstr "r/") [entry "d"] ∧
      fileTotal hugeFs (cstr "r/") [entry "d"] = 4294967296 ∧
      getFileCount hugeFs (cstr "r/") = some 0) ∧
    (siblingFs (cstr "data") = some [entry ".", entry "..", entry "a"] ∧
      allOpen siblingFs (cstr "data") [entry ".", entry "..", entry "a"] ∧
      filesOf siblingFs (cstr "data") (entry "a") = [entry "1.jpg", entry "2.jpg"] ∧
      fileTotal siblingFs (cstr "data") [entry ".", entry "..", entry "a"] = 2 ∧
      concat (cstr "data") (entry "a").d_name = some (cstr "dataa") ∧
      siblingFs (cstr "dataa") = some [entry ".", entry "..", entry "x.jpg"] ∧
      getFileCount siblingFs (cstr "data") = some 1) := by
  refine ⟨⟨hugeFs_root, hugeFs_allOpen, hugeFs_fileTotal, ?_⟩, by decide⟩
  rw [getFileCount_open hugeFs (cstr "r/") [entry "d"] hugeFs_root hugeFs_innerOpen,
    hugeFs_total]

/-- C9 (amended): whenever the root path cannot be opened as a directory,
whatever the rest of the file system, `getFileCount` returns the sentinel
that `return -1` denotes in a function of type `uint`, namely
`4294967295 = UINT_MAX`; this value is not negative. -/
theorem getFileCount_unopened_root (fs : FileSystem) (path : CStr) (hroot : fs path = none) :
    getFileCount fs path = some 4294967295 ∧
    (4294967295 : Nat) = UINT_MAX ∧ toUint (-1) = 4294967295 ∧
    (0 : Int) ≤ ((4294967295 : Nat) : Int) := by
  refine ⟨?_, rfl, by decide, by decide⟩
  simp only [getFileCount, hroot]
  rfl

/-- C9, witness: a file system in which nothing opens. -/
theorem getFileCount_unopened_root_witness :
    closedFs (cstr "data/") = none ∧
    (getFileCount closedFs (cstr "data/") = some 4294967295 ∧
    (4294967295 : Nat) = UINT_MAX ∧ toUint (-1) = 4294967295 ∧
    (0 : Int) ≤ ((4294967295 : Nat) : Int)) :=
  ⟨rfl, getFileCount_unopened_root closedFs (cstr "data/") rfl⟩

/-- C9, counterexample: on a root that does not open, the value returned by
`getFileCount` is `4294967295`; it is neither `-1` nor negative, and
`getFileList` returns no record at all (it reads the `NULL` stream). -/
theorem getFileCount_sentinel_counterexample :
    closedFs (cstr "data/") = none ∧
    getFileCount closedFs (cstr "data/") = some 4294967295 ∧
    ((4294967295 : Nat) : Int) ≠ -1 ∧ ¬ (((4294967295 : Nat) : Int) < 0) ∧
    getFileList closedFs (cstr "data/") = none := by
  decide

/-- C10 (code evaluated at the failing input): the root `data/` holds the
folder `a` with one file and the regular file `notes.txt`.  `opendir` on
`data/notes.txt` gives `NULL`, which both functions pass to `readdir`:
neither returns, where the claim expects the count `1` and the list
`data/a/1.jpg`. -/
theorem getFileCount_unopened_entry_undefined :
    mixedFs (cstr "data/") = some [entry ".", entry "..", entry "notes.txt", entry "a"] ∧
    mixedFs (cstr "data/notes.txt") = none ∧
    mixedFs (cstr "data/a") = some [entry ".", entry "..", entry "1.jpg"] ∧
    getFileCount mixedFs (cstr "data/") = none ∧
    getFileList mixedFs (cstr "data/") = none := by
  decide


/-- C11 (amended): for every root whose path ends with `'/'`, that opens,
whose visible entries are all subdirectories that open and whose tree holds
fewer than `2 ^ 32` files, `getFileList` returns a list; the slots its
traversal filled are, in traversal order, exactly the strings
`rootPath ++ subdir ++ "/" ++ filename`, one for every entry `filename` other
than `"."` and `".."` of every subdirectory `subdir` of the root; the list
returned is a permutation of them, so every stored path has that form and
every file entry has exactly one path. -/
theorem getFileList_path_construction (fs : FileSystem) (path : CStr) (es : List Dirent)
    (hslash : endsWithSlash path)
    (hroot : fs path = some es) (hopen : allOpen fs path es)
    (hN : fileTotal fs path es < 4294967296) :
    ∃ (r : Filelist) (index : Nat), getFileList.traverse fs path = some (r, index) ∧
      r.list = ((visible es).flatMap fun de =>
        (filesOf fs path de).map fun f =>
          path ++ de.d_name ++ slash ++ f.d_name).map Ptr.live ∧
      (∀ de ∈ visible es, ∃ inner, fs (entryPath path de.d_name) = some inner ∧
        filesOf fs path de = visible inner) ∧
      ∃ fl, getFileList fs path = some fl ∧
        fl.list.Perm r.list ∧
        fl.list.length = ((visible es).map fun de => (filesOf fs path de).length).sum ∧
        ∀ p ∈ fl.list, ∃ de ∈ visible es, ∃ inner,
          fs (entryPath path de.d_name) = some inner ∧
          ∃ f ∈ visible inner, p = Ptr.live (path ++ de.d_name ++ slash ++ f.d_name) := by
  have hopen' := (allOpen_of_slash fs path es hslash).mp hopen
  have hT := fileTotal_of_slash fs path es hslash
  have hC := collectedPaths_of_slash fs path es hslash
  have hN' : innerTotal fs path es < 4294967296 := hT ▸ hN
  have hperm : ((innerPaths fs path es).insertionSort precedes).Perm
      (innerPaths fs path es) := List.perm_insertionSort precedes _
  refine ⟨_, _, traverse_eq fs path es hroot hopen' hN', ?_, ?_, _,
    getFileList_eq fs path es hroot hopen' hN', hperm.map _, ?_, ?_⟩
  · show (innerPaths fs path es).map Ptr.live = (collectedPaths fs path es).map Ptr.live
    rw [hC]
  · intro de hde
    obtain ⟨inner, hinner⟩ := Option.ne_none_iff_exists'.mp (hopen de hde)
    exact ⟨inner, hinner, by simp [filesOf, hinner]⟩
  · have := innerPaths_length fs path es
    simp only [List.length_map, hperm.length_eq, this]
    exact hT.symm
  · intro p hp
    obtain ⟨s, hs, rfl⟩ := List.mem_map.mp hp
    obtain ⟨de, hde, inner, hinner, f, hf, rfl⟩ :=
      mem_innerPaths fs path es s (hperm.subset hs)
    rw [← entryPath_of_slash path de.d_name hslash] at hinner
    exact ⟨de, hde, inner, hinner, f, hf, rfl⟩

/-- C11, witness: the dataset `data/`; its stored paths are `data/b/2.jpg`,
`data/a/1.jpg`, `data/a/2.jpg`. -/
theorem getFileList_path_construction_witness :
    endsWithSlash (cstr "data/") ∧
    datasetFs (cstr "data/") = some [entry ".", entry "b", entry "..", entry "a"] ∧
    allOpen datasetFs (cstr "data/") [entry ".", entry "b", entry "..", entry "a"] ∧
    fileTotal datasetFs (cstr "data/") [entry ".", entry "b", entry "..", entry "a"] = 3 ∧
    getFileList.traverse datasetFs (cstr "data/")
      = some ({ length := 3,
                list := [Ptr.live (cstr "data/b/2.jpg"), Ptr.live (cstr "data/a/1.jpg"),
                         Ptr.live (cstr "data/a/2.jpg")] }, 3) ∧
    cstr "data/" ++ (entry "b").d_name ++ slash ++ (entry "2.jpg").d_name
      = cstr "data/b/2.jpg" ∧
    ∃ (r : Filelist) (index : Nat),
      getFileList.traverse datasetFs (cstr "data/") = some (r, index) ∧
      r.list = ((visible [entry ".", entry "b", entry "..", entry "a"]).flatMap fun de =>
        (filesOf datasetFs (cstr "data/") de).map fun f =>
          cstr "data/" ++ de.d_name ++ slash ++ f.d_name).map Ptr.live ∧
      (∀ de ∈ visible [entry ".", entry "b", entry "..", entry "a"],
        ∃ inner, datasetFs (entryPath (cstr "data/") de.d_name) = some inner ∧
          filesOf datasetFs (cstr "data/") de = visible inner) ∧
      ∃ fl, getFileList datasetFs (cstr "data/") = some fl ∧
        fl.list.Perm r.list ∧
        fl.list.length
          = ((visible [entry ".", entry "b", entry "..", entry "a"]).map fun de =>
              (filesOf datasetFs (cstr "data/") de).length).sum ∧
        ∀ p ∈ fl.list, ∃ de ∈ visible [entry ".", entry "b", entry "..", entry "a"],
          ∃ inner, datasetFs (entryPath (cstr "data/") de.d_name) = some inner ∧
          ∃ f ∈ visible inner,
            p = Ptr.live (cstr "data/" ++ de.d_name ++ slash ++ f.d_name) :=
  ⟨by decide, by decide, by decide, by decide, by decide, by decide,
   getFileList_path_construction datasetFs (cstr "data/")
     [entry ".", entry "b", entry "..", entry "a"] (by decide) (by decide) (by decide)
     (by decide)⟩

/-- C11, counterexample.  First tree: the root `r/` whose only folder `d`
yields `2 ^ 32` entries, among them `f0`; the root and the folder open, and
`getFileList` has no defined result, so no path is stored for any file entry.
Second tree: the root `data`, given without a trailing `'/'`, whose folder `a`
holds `1.jpg` and `2.jpg`, next to a sibling folder `dataa` with `x.jpg`; the
list returned holds the single path `dataa/x.jpg` and no path for the two
file entries of the subdirectory `a`. -/
theorem getFileList_path_counterexample :
    (hugeFs (cstr "r/") = some [entry "d"] ∧
      hugeFs (entryPath (cstr "r/") (entry "d").d_name)
        = some ((List.range 4294967296).map numbered) ∧
      numbered 0 ∈ (List.range 4294967296).map numbered ∧
      isCurrentOrParentFolder (numbered 0) = false ∧
      getFileList hugeFs (cstr "r/") = none) ∧
    (siblingFs (cstr "data") = some [entry ".", entry "..", entry "a"] ∧
      siblingFs (entryPath (cstr "data") (entry "a").d_name)
        = some [entry ".", entry "..", entry "1.jpg", entry "2.jpg"] ∧
      filesOf siblingFs (cstr "data") (entry "a") = [entry "1.jpg", entry "2.jpg"] ∧
      getFileList siblingFs (cstr "data")
        = some { length := 1, list := [Ptr.live (cstr "dataa/x.jpg")] } ∧
      cstr "data" ++ (entry "a").d_name ++ slash ++ (entry "x.jpg").d_name
        = cstr "dataa/x.jpg") := by
  have htrav := traverse_overflow hugeFs (cstr "r/") [entry "d"] hugeFs_root hugeFs_innerOpen
    (by rw [hugeFs_total])
  refine ⟨⟨hugeFs_root, ?_, ?_, by decide, ?_⟩, by decide⟩
  · rw [entryPath_of_slash _ _ hugeFs_slash]
    exact hugeFs_inner
  · exact List.mem_map.mpr ⟨0, List.mem_range.mpr (by norm_num), rfl⟩
  · simp only [getFileList, htrav, Option.bind_eq_bind, Option.none_bind]

/-- C12: for all strings `s1` and `s2`, `concat` performs its two copies
inside the block of `strlen(s1) + strlen(s2) + 1` bytes it allocates; the block
then holds the bytes of `s1`, the bytes of `s2` and the terminator, in that
order and nothing else, and the string it returns is `s1` followed by `s2`,
of length `strlen(s1) + strlen(s2)`.  The inputs are values of the embedding
and are not modified. -/
theorem concat_correct (s1 s2 : CStr) :
    ∃ block, concat.block s1 s2 = some block ∧
      block.length = strlen s1 + strlen s2 + 1 ∧
      (∀ i (hi : i < strlen s1), block[i]? = some (some ((s1.get ⟨i, hi⟩ : ℕ+) : Nat))) ∧
      (∀ i (hi : i < strlen s2),
        block[strlen s1 + i]? = some (some ((s2.get ⟨i, hi⟩ : ℕ+) : Nat))) ∧
      block[strlen s1 + strlen s2]? = some (some 0) ∧
      (∀ i, i < strlen s1 + strlen s2 → block[i]? ≠ some (some 0)) ∧
      memcpy (mallocChars (strlen s1 + strlen s2 + 1)) 0 (cstrBytes s1) (strlen s1) ≠ none ∧
      concat s1 s2 = some (s1 ++ s2) ∧
      strlen (s1 ++ s2) = strlen s1 + strlen s2 := by
  have hb := concat_block_eq s1 s2
  have hl1 : ((s1.map PNat.val).map some).length = strlen s1 := by simp [strlen]
  have e1 : strlen s1 = s1.length := rfl
  have e2 : strlen s2 = s2.length := rfl
  refine ⟨_, hb, by simp [cstrBytes, strlen]; omega, ?_, ?_, ?_, ?_, ?_,
    concat_eq s1 s2, by simp [strlen]⟩
  · intro i hi
    rw [List.getElem?_append_left (by omega)]
    simp [List.getElem?_eq_getElem (show i < s1.length from hi)]
  · intro i hi
    rw [List.getElem?_append_right (by omega), hl1, Nat.add_sub_cancel_left]
    unfold cstrBytes
    rw [List.map_append, List.getElem?_append_left (by simpa using hi)]
    simp [List.getElem?_eq_getElem (show i < s2.length from hi)]
  · rw [List.getElem?_append_right (by omega), hl1, Nat.add_sub_cancel_left]
    unfold cstrBytes
    rw [List.map_append, List.getElem?_append_right (by simp [strlen])]
    simp [strlen]
  · intro i hi h0
    by_cases h1 : i < strlen s1
    · rw [List.getElem?_append_left (by omega)] at h0
      simp only [List.getElem?_map, Option.map_eq_some'] at h0
      obtain ⟨b, ⟨a, _, rfl⟩, hb0⟩ := h0
      have := a.pos
      simp only [Option.some.injEq] at hb0
      omega
    · rw [List.getElem?_append_right (by omega), hl1] at h0
      unfold cstrBytes at h0
      rw [List.map_append, List.getElem?_append_left (by simp [strlen]; omega)] at h0
      simp only [List.getElem?_map, Option.map_eq_some'] at h0
      obtain ⟨b, ⟨a, _, rfl⟩, hb0⟩ := h0
      have := a.pos
      simp only [Option.some.injEq] at hb0
      omega
  · intro hnone
    have : concat.block s1 s2 = none := by
      simp only [concat.block, hnone, Option.bind_eq_bind, Option.none_bind]
    rw [hb] at this
    cases this

/-- C13: a call of `getFileList` is a function of the tree alone, and its
result does not depend on the order in which `readdir` yields the entries:
if two streams of the root hold the same entries in any two orders, and so do
the two streams of every root entry, then whenever `getFileList` returns a
list for one order it returns the same list for the other. -/
theorem getFileList_order_independent (fs fs' : FileSystem) (path : CStr)
    (es es' : List Dirent) (fl : Filelist)
    (hroot : fs path = some es) (hroot' : fs' path = some es') (hperm : es.Perm es')
    (hinner : ∀ de ∈ es,
      (fs (path ++ de.d_name) = none ∧ fs' (path ++ de.d_name) = none) ∨
      ∃ inner inner', fs (path ++ de.d_name) = some inner ∧
        fs' (path ++ de.d_name) = some inner' ∧ inner.Perm inner')
    (hret : getFileList fs path = some fl) :
    getFileList fs' path = some fl := by
  obtain ⟨es0, hroot0, hopen, hN⟩ := getFileList_some fs path fl hret
  rw [hroot, Option.some.injEq] at hroot0
  subst hroot0
  have hopen' := innerOpen_perm fs fs' path es es' hperm hinner hopen
  have hcp := innerPaths_perm fs fs' path es es' hperm hinner
  have hN' : innerTotal fs' path es' = innerTotal fs path es := by
    rw [← innerPaths_length, ← innerPaths_length]
    exact hcp.length_eq.symm
  have hsort : (innerPaths fs' path es').insertionSort precedes
      = (innerPaths fs path es).insertionSort precedes := by
    apply List.eq_of_perm_of_sorted (r := precedes)
    · exact (List.perm_insertionSort precedes _).trans
        (hcp.symm.trans (List.perm_insertionSort precedes _).symm)
    · exact List.sorted_insertionSort precedes _
    · exact List.sorted_insertionSort precedes _
  rw [getFileList_eq fs path es hroot hopen hN] at hret
  rw [getFileList_eq fs' path es' hroot' hopen' (by rw [hN']; exact hN), hN', hsort]
  exact hret

/-- C13, witness: the dataset `data/` read in two different orders. -/
theorem getFileList_order_independent_witness :
    [entry ".", entry "b", entry "..", entry "a"].Perm
      [entry "a", entry "..", entry ".", entry "b"] ∧
    getFileList datasetFs (cstr "data/")
      = some { length := 3,
               list := [Ptr.live (cstr "data/a/1.jpg"), Ptr.live (cstr "data/a/2.jpg"),
                        Ptr.live (cstr "data/b/2.jpg")] } ∧
    getFileList datasetFsReordered (cstr "data/")
      = some { length := 3,
               list := [Ptr.live (cstr "data/a/1.jpg"), Ptr.live (cstr "data/a/2.jpg"),
                        Ptr.live (cstr "data/b/2.jpg")] } :=
  ⟨by decide, by decide,
   getFileList_order_independent datasetFs datasetFsReordered (cstr "data/")
     [entry ".", entry "b", entry "..", entry "a"]
     [entry "a", entry "..", entry ".", entry "b"] _
     (by decide) (by decide) (by decide) datasetFs_inner_perm (by decide)⟩

/-- C14 (amended): the only entries excluded are those named exactly `"."`
and `".."`.  For every root whose path ends with `'/'`, that opens, whose
entries other than `"."` and `".."` are all subdirectories that open and whose
tree holds fewer than `2 ^ 32` files, both functions return; every such root
entry, hidden or not, is opened as a subdirectory, and every entry of it other
than `"."` and `".."`, hidden or not, is counted by `getFileCount` and has its
path in the list `getFileList` returns; a name that begins with `'.'` and is
neither `"."` nor `".."` is not skipped. -/
theorem getFileList_keeps_hidden_entries (fs : FileSystem) (path : CStr) (es : List Dirent)
    (hslash : endsWithSlash path)
    (hroot : fs path = some es) (hopen : allOpen fs path es)
    (hN : fileTotal fs path es < 4294967296) :
    ∃ fl, getFileList fs path = some fl ∧
      getFileCount fs path = some fl.length ∧
      fl.length = ((es.filter fun de => decide (de.d_name ≠ dot ∧ de.d_name ≠ dotdot)).map
        fun de => match fs (entryPath path de.d_name) with
          | none => 0
          | some inner =>
            (inner.filter fun f => decide (f.d_name ≠ dot ∧ f.d_name ≠ dotdot)).length).sum ∧
      (∀ de ∈ es, de.d_name ≠ dot → de.d_name ≠ dotdot →
        ∃ inner, fs (entryPath path de.d_name) = some inner ∧
          ∀ f ∈ inner, f.d_name ≠ dot → f.d_name ≠ dotdot →
            Ptr.live (path ++ de.d_name ++ slash ++ f.d_name) ∈ fl.list) ∧
      (∀ (c : ℕ+) (rest : CStr), 46 :: c :: rest ≠ dotdot →
        isCurrentOrParentFolder { d_name := 46 :: c :: rest } = false) := by
  have hopen' := (allOpen_of_slash fs path es hslash).mp hopen
  have hT := fileTotal_of_slash fs path es hslash
  have hN' : innerTotal fs path es < 4294967296 := hT ▸ hN
  have hvis : ∀ l : List Dirent,
      (l.filter fun de => decide (de.d_name ≠ dot ∧ de.d_name ≠ dotdot)) = visible l := by
    intro l
    unfold visible
    apply List.filter_congr
    intro de _
    have h := isCurrentOrParentFolder_iff de
    cases hc : isCurrentOrParentFolder de with
    | false =>
      have : ¬ (de.d_name = dot ∨ de.d_name = dotdot) := fun hd => by
        rw [h.mpr hd] at hc; cases hc
      simp only [Bool.not_false, decide_eq_true_eq]
      exact ⟨fun hd => this (Or.inl hd), fun hd => this (Or.inr hd)⟩
    | true =>
      simp only [Bool.not_true, decide_eq_false_iff_not, not_and_or, not_not]
      exact h.mp hc
  refine ⟨_, getFileList_eq fs path es hroot hopen' hN', ?_, ?_, ?_, ?_⟩
  · rw [getFileCount_open fs path es hroot hopen', Nat.mod_eq_of_lt hN']
  · show innerTotal fs path es = _
    rw [← hT]
    unfold fileTotal
    rw [hvis es]
    congr 1
    apply List.map_congr_left
    intro de _
    unfold filesOf
    cases fs (entryPath path de.d_name) with
    | none => rfl
    | some inner => simp only [hvis inner]
  · intro de hde h1 h2
    have hv : de ∈ visible es := (mem_visible_iff es de).mpr ⟨hde, h1, h2⟩
    obtain ⟨inner, hinner⟩ := Option.ne_none_iff_exists'.mp (hopen de hv)
    refine ⟨inner, hinner, ?_⟩
    intro f hf g1 g2
    have hfv : f ∈ visible inner := (mem_visible_iff inner f).mpr ⟨hf, g1, g2⟩
    rw [entryPath_of_slash path de.d_name hslash] at hinner
    apply List.mem_map_of_mem
    exact (List.perm_insertionSort precedes _).symm.subset
      (innerPaths_mem fs path es inner de f hv hinner hfv)
  · intro c rest hne
    cases hc : isCurrentOrParentFolder { d_name := 46 :: c :: rest } with
    | false => rfl
    | true =>
      rcases (isCurrentOrParentFolder_iff _).mp hc with hd | hd
      · simp [dot] at hd
      · exact absurd hd hne

/-- C14, witness: the tree with the hidden folder `.hidden` and the hidden
file `.DS_Store`. -/
theorem getFileList_keeps_hidden_entries_witness :
    endsWithSlash (cstr "data/") ∧
    hiddenFs (cstr "data/") = some [entry ".", entry "..", entry ".hidden", entry "a"] ∧
    allOpen hiddenFs (cstr "data/") [entry ".", entry "..", entry ".hidden", entry "a"] ∧
    fileTotal hiddenFs (cstr "data/") [entry ".", entry "..", entry ".hidden", entry "a"]
      = 3 ∧
    ∃ fl, getFileList hiddenFs (cstr "data/") = some fl ∧
      getFileCount hiddenFs (cstr "data/") = some fl.length ∧
      fl.length
        = (([entry ".", entry "..", entry ".hidden", entry "a"].filter
            fun de => decide (de.d_name ≠ dot ∧ de.d_name ≠ dotdot)).map
        fun de => match hiddenFs (entryPath (cstr "data/") de.d_name) with
          | none => 0
          | some inner =>
            (inner.filter fun f => decide (f.d_name ≠ dot ∧ f.d_name ≠ dotdot)).length).sum ∧
      (∀ de ∈ [entry ".", entry "..", entry ".hidden", entry "a"],
        de.d_name ≠ dot → de.d_name ≠ dotdot →
        ∃ inner, hiddenFs (entryPath (cstr "data/") de.d_name) = some inner ∧
          ∀ f ∈ inner, f.d_name ≠ dot → f.d_name ≠ dotdot →
            Ptr.live (cstr "data/" ++ de.d_name ++ slash ++ f.d_name) ∈ fl.list) ∧
      (∀ (c : ℕ+) (rest : CStr), 46 :: c :: rest ≠ dotdot →
        isCurrentOrParentFolder { d_name := 46 :: c :: rest } = false) :=
  ⟨by decide, by decide, by decide, by decide,
   getFileList_keeps_hidden_entries hiddenFs (cstr "data/")
     [entry ".", entry "..", entry ".hidden", entry "a"] (by decide) (by decide) (by decide)
     (by decide)⟩

/-- C14, counterexample: the hidden folder `.hidden` and the hidden file
`.DS_Store` are not excluded: `getFileCount` returns `3` and the returned list
holds `data/.hidden/secret.jpg` and `data/a/.DS_Store`. -/
theorem hidden_entries_counterexample :
    isCurrentOrParentFolder (entry ".hidden") = false ∧
    isCurrentOrParentFolder (entry ".DS_Store") = false ∧
    getFileCount hiddenFs (cstr "data/") = some 3 ∧
    getFileList hiddenFs (cstr "data/")
      = some { length := 3,
               list := [Ptr.live (cstr "data/.hidden/secret.jpg"),
                        Ptr.live (cstr "data/a/.DS_Store"),
                        Ptr.live (cstr "data/a/1.jpg")] } := by
  decide

/-- C17 (amended): `freeImage` releases the channel tensor, whatever else is
populated: on an image whose tensor of shape `[depth][height][width]` and
path are populated it releases every row, every channel, the channel array,
then the path, then the record, each exactly once, and it never passes
`bmp_buffer` to `free` (a populated buffer stays allocated).  On an image
whose tensor is not populated (and `depth >= 1`) it has no defined result. -/
theorem freeImage_releases_tensor (image : Image) (t : Tensor) (p : CStr) (d h w : Nat)
    (hh : image.height = h) (hd : image.depth = d)
    (ht : image.channels = Ptr.live t) (hshape : HasShape t d h w)
    (hp : image.path = Ptr.live p) :
    freeImage image
      = some ({ image with channels := Ptr.freed, path := Ptr.freed },
              tensorBlocks d h ++ [Block.channelArray] ++ [Block.path] ++ [Block.record]) ∧
    (tensorBlocks d h ++ [Block.channelArray] ++ [Block.path] ++ [Block.record]).Nodup ∧
    (∀ b, b ∈ tensorBlocks d h ↔
      (∃ i j, i < d ∧ j < h ∧ b = Block.row i j) ∨ (∃ i, i < d ∧ b = Block.channel i)) ∧
    (∀ r, freeImage image = some r → r.1.bmp_buffer = image.bmp_buffer) ∧
    (∀ other : Image, other.channels.deref = none → 1 ≤ other.depth →
      freeImage other = none) := by
  have hrun : freeImage image
      = some ({ image with channels := Ptr.freed, path := Ptr.freed },
              tensorBlocks d h ++ [Block.channelArray] ++ [Block.path] ++ [Block.record]) := by
    simp only [freeImage, freeImageChannels_eq image t d h w hh hd ht hshape,
      Option.bind_eq_bind, Option.some_bind, hp, freeLogged, Option.pure_def]
  refine ⟨hrun, freeImage_log_nodup d h, mem_tensorBlocks d h, ?_, freeImage_not_live⟩
  intro r hr
  rw [hrun, Option.some.injEq] at hr
  subst hr
  rfl

/-- C17, witness: the 2x2 image of depth 1 in tensor form with its path. -/
theorem freeImage_releases_tensor_witness :
    HasShape [[[10, 20], [30, 40]]] 1 2 2 ∧
    freeImage loadedImage
      = some ({ loadedImage with channels := Ptr.freed, path := Ptr.freed },
              [Block.row 0 0, Block.row 0 1, Block.channel 0, Block.channelArray,
               Block.path, Block.record]) ∧
    (freeImage loadedImage
      = some ({ loadedImage with channels := Ptr.freed, path := Ptr.freed },
              tensorBlocks 1 2 ++ [Block.channelArray] ++ [Block.path] ++ [Block.record]) ∧
    (tensorBlocks 1 2 ++ [Block.channelArray] ++ [Block.path] ++ [Block.record]).Nodup ∧
    (∀ b, b ∈ tensorBlocks 1 2 ↔
      (∃ i j, i < 1 ∧ j < 2 ∧ b = Block.row i j) ∨ (∃ i, i < 1 ∧ b = Block.channel i)) ∧
    (∀ r, freeImage loadedImage = some r → r.1.bmp_buffer = loadedImage.bmp_buffer) ∧
    (∀ other : Image, other.channels.deref = none → 1 ≤ other.depth →
      freeImage other = none)) :=
  ⟨by decide, by decide,
   freeImage_releases_tensor loadedImage [[[10, 20], [30, 40]]] (cstr "a.jpg") 1 2 2
     rfl rfl rfl (by decide) rfl⟩

/-- C17, counterexample: on the decoded image, where only the interleaved
buffer is populated, `freeImage` reads the tensor that was never allocated
and has no defined result, so the buffer is not released; and when both
representations are populated (after `convertToBuffer`), `freeImage` releases
the tensor and leaves the buffer allocated. -/
theorem freeImage_buffer_counterexample :
    decodedImage.bmp_buffer.isLive = true ∧ decodedImage.channels.isLive = false ∧
    freeImage decodedImage = none ∧
    ((convertToBuffer junkBuffer loadedImage).bind freeImage).map
        (fun r => (r.1.bmp_buffer, r.1.channels, r.2))
      = some (Ptr.live [10, 20, 30, 40], Ptr.freed,
          [Block.row 0 0, Block.row 0 1, Block.channel 0, Block.channelArray,
           Block.path, Block.record]) := by
  decide

/-- C19 (amended): for height, width, depth at least 1 whose product does not
exceed `INT_MAX` and every populated tensor of shape `[depth][height][width]`,
`convertToBuffer` followed by `convertToMatrix` yields a tensor equal to the
original, and both conversions leave `height`, `width`, `depth` and `path`
unchanged. -/
theorem reverse_roundTrip_tensor_identical (jb : Nat → Byte) (jt : Nat → Nat → Nat → Byte)
    (image : Image) (t : Tensor) (h w d : Nat)
    (hh : image.height = h) (hw : image.width = w) (hd : image.depth = d)
    (h1 : 1 ≤ h) (_w1 : 1 ≤ w) (_d1 : 1 ≤ d)
    (hsize : ((d * w * h : Nat) : Int) ≤ INT_MAX)
    (ht : image.channels = Ptr.live t) (hshape : HasShape t d h w) :
    ∃ b m, convertToBuffer jb image = some b ∧ convertToMatrix jt b = some m ∧
      m.channels = Ptr.live t ∧
      (∀ k i j, k < d → i < h → j < w →
        ∃ t', m.channels = Ptr.live t' ∧ readCell t' k i j = readCell t k i j) ∧
      b.height = image.height ∧ b.width = image.width ∧ b.depth = image.depth ∧
      b.path = image.path ∧
      m.height = image.height ∧ m.width = image.width ∧ m.depth = image.depth ∧
      m.path = image.path := by
  have hsize' : d * w * h ≤ 2147483647 := by unfold INT_MAX at hsize; omega
  have hdw : d * w ≤ d * w * h := Nat.le_mul_of_pos_right _ (by omega)
  have hring : d * w * h = h * w * d := by ring
  obtain ⟨buf, hrun, hlen, hcells⟩ :=
    convertToBuffer_spec jb image t d h w hh hw hd ht hshape (by omega) hsize'
  obtain ⟨t', hrun', hshape', hcells'⟩ :=
    convertToMatrix_spec jt { image with bmp_size := d * w * h, bmp_buffer := Ptr.live buf }
      buf d h w hh hw hd rfl (by omega) (by omega)
  have heq : t' = t := by
    apply tensor_ext t t' d h w hshape hshape'
    intro k i j hk hi hj
    rw [hcells' k i j hk hi hj, ← hcells i j k hi hj hk]
    congr 1
    omega
  subst heq
  exact ⟨_, _, hrun, hrun', rfl, fun k i j _ _ _ => ⟨t', rfl, rfl⟩,
    rfl, rfl, rfl, rfl, rfl, rfl, rfl, rfl⟩

/-- C19, witness: the 2x2 tensor of depth 1. -/
theorem reverse_roundTrip_tensor_identical_witness :
    HasShape [[[10, 20], [30, 40]]] 1 2 2 ∧ (((1 * 2 * 2 : Nat) : Int) ≤ INT_MAX) ∧
    ∃ b m, convertToBuffer junkBuffer tensor2x2 = some b ∧
      convertToMatrix junkTensor b = some m ∧
      m.channels = Ptr.live [[[10, 20], [30, 40]]] ∧
      (∀ k i j, k < 1 → i < 2 → j < 2 →
        ∃ t', m.channels = Ptr.live t' ∧
          readCell t' k i j = readCell [[[10, 20], [30, 40]]] k i j) ∧
      b.height = tensor2x2.height ∧ b.width = tensor2x2.width ∧
      b.depth = tensor2x2.depth ∧ b.path = tensor2x2.path ∧
      m.height = tensor2x2.height ∧ m.width = tensor2x2.width ∧
      m.depth = tensor2x2.depth ∧ m.path = tensor2x2.path :=
  ⟨by decide, by decide,
   reverse_roundTrip_tensor_identical junkBuffer junkTensor tensor2x2
     [[[10, 20], [30, 40]]] 2 2 1 rfl rfl rfl (by decide) (by decide) (by decide)
     (by decide) rfl (by decide)⟩

/-- C19, counterexample: a populated tensor of shape `[3][26755][26755]`, all
dimensions at least 1.  `depth * width * height` overflows `int` in
`convertToBuffer`, so the reverse round trip has no defined result. -/
theorem reverse_roundTrip_overflow_counterexample :
    (1 : Int) ≤ 26755 ∧ (1 : Int) ≤ 3 ∧
    HasShape (zeroTensor 3 26755 26755) 3 26755 26755 ∧
    (convertToBuffer junkBuffer
        (tensorImage 26755 26755 3 (zeroTensor 3 26755 26755))).bind
      (convertToMatrix junkTensor) = none := by
  refine ⟨by decide, by decide, zeroTensor_shape 3 26755 26755, ?_⟩
  rw [convertToBuffer_overflow junkBuffer _ 26755 26755 3 rfl rfl rfl (by decide)]
  rfl

/-- C20 (code evaluated at the failing input): for every path,
`createInitializedImage` allocates `strlen(path) * sizeof(char)` bytes and
`strcpy` writes `strlen(path) + 1` bytes into them: the terminator falls one
byte past the block, and the call has no defined result.  For the path
`a.jpg` the block has 5 bytes and the copy writes 6. -/
theorem createInitializedImage_path_overrun (junk : Nat → Nat → Nat → Byte) (junkSize : Nat)
    (depth height width : Nat) (path : CStr) :
    strlen path * 1 < strlen path + 1 ∧
    strcpy (strlen path * 1) path = none ∧
    strcpy (strlen path + 1) path = some path ∧
    createInitializedImage junk junkSize depth height width path = none ∧
    strlen (cstr "a.jpg") * 1 = 5 ∧
    strcpy 5 (cstr "a.jpg") = none ∧
    createInitializedImage junkTensor 0 3 224 224 (cstr "a.jpg") = none := by
  have h1 : strcpy (strlen path * 1) path = none := by
    unfold strcpy
    rw [if_neg (by omega)]
  refine ⟨by omega, h1, by simp [strcpy], ?_, by decide, by decide, by decide⟩
  simp only [createInitializedImage, h1, Option.bind_eq_bind, Option.none_bind]

end ImageUtils

namespace AlexnetConf

/-! ## Claims on the layer table -/

/-- C15: `LAYERS_CONF[0]` is a `Conv` layer with `kernelSize` 11, `stride` 4,
`padding` 2, `din` 3, `hin` 224, `win` 224, `dout` 64, and
`floor((in + 2*padding - kernelSize) / stride) + 1` applied to its height and
to its width gives an output of 64 channels of 55 x 55. -/
theorem first_layer_shape :
    LAYERS_CONF[0]? = some
      { layerType := LayerType.Conv, kernelSize := 11, stride := 4, padding := 2,
        din := 3, hin := 224, win := 224, dout := 64 } ∧
    inputShape LAYERS_CONF = Shape.spatial 3 224 224 ∧
    Int.fdiv (224 + 2 * 2 - 11) 4 + 1 = 55 ∧
    (∀ l, LAYERS_CONF[0]? = some l →
      outSize l 224 = some 55 ∧
      inferLayer l (inputShape LAYERS_CONF) = some (Shape.spatial 64 55 55)) := by
  refine ⟨by decide, by decide, by decide, ?_⟩
  intro l hl
  simp only [LAYERS_CONF, List.getElem?_cons_zero, Option.some.injEq] at hl
  subst hl
  decide

/-- C16: the table has `LAYERS_NUMBER = 11` entries, every convolution and
max-pooling entry has a non-zero stride, and sequential shape inference from
the 3 x 224 x 224 input is defined at every layer and yields only positive
channel, height, width and feature counts; the first fully-connected layer
reads `256 * 6 * 6 = 9216` features. -/
theorem table_shapes_valid :
    LAYERS_CONF.length = LAYERS_NUMBER ∧ LAYERS_NUMBER = 11 ∧
    (∀ l ∈ LAYERS_CONF,
      l.layerType = LayerType.Conv ∨ l.layerType = LayerType.Maxpool → l.stride ≠ 0) ∧
    (∀ l ∈ LAYERS_CONF, l.layerType = LayerType.Maxpool → l.padding = 0) ∧
    inferShapes LAYERS_CONF (inputShape LAYERS_CONF)
      = some [Shape.spatial 64 55 55, Shape.spatial 64 27 27, Shape.spatial 192 27 27,
              Shape.spatial 192 13 13, Shape.spatial 384 13 13, Shape.spatial 256 13 13,
              Shape.spatial 256 13 13, Shape.spatial 256 6 6, Shape.features 4096,
              Shape.features 4096, Shape.features 1000] ∧
    (∀ out, inferShapes LAYERS_CONF (inputShape LAYERS_CONF) = some out →
      out.length = 11 ∧ ∀ s ∈ out, s.positive = true ∧ 0 < inFeatures s) ∧
    inFeatures (Shape.spatial 256 6 6) = 9216 := by
  have hrun : inferShapes LAYERS_CONF (inputShape LAYERS_CONF)
      = some [Shape.spatial 64 55 55, Shape.spatial 64 27 27, Shape.spatial 192 27 27,
              Shape.spatial 192 13 13, Shape.spatial 384 13 13, Shape.spatial 256 13 13,
              Shape.spatial 256 13 13, Shape.spatial 256 6 6, Shape.features 4096,
              Shape.features 4096, Shape.features 1000] := by decide
  refine ⟨by decide, rfl, by decide, by decide, hrun, ?_, by decide⟩
  intro out hout
  rw [hrun, Option.some.injEq] at hout
  subst hout
  decide

end AlexnetConf

